import Mathlib

/-!
# Fire-management record stores

A shallow embedding of the record stores of the fire-management program
(`data.h`, `firefighters.c`, `equipments.c`, `occurrences.c`, `interventions.c`,
`statistics.c`, `main.c`) and theorems about their id assignment, soft-delete
lifecycle, persistence, cross-entity linking and reports.

Modelling conventions.

* A singly linked list (`XNode* head`) is a `List X`; the head node is the first
  element.  In-place mutation through a node pointer becomes a new list.
* A C `int` is an `Int`.  The only arithmetic the stores perform is `x++`;
  signed overflow is undefined behaviour in C, so `incInt` has no result there
  and the operations that increment return an `Option`.
* Values obtained from `getInt (lo, hi, ..)` are parameters.  A status read with
  `getInt (0, 2, ..)` and cast to an enumeration is a `Fin 3`.
* Text printed by an operation is modelled by a structured result: the rows of a
  listing, or the `Outcome` naming which message was printed.
* `malloc` is an explicit parameter: a flag for the single allocation of a create,
  a budget of nodes for a load.  A binary file is the list of records written to
  it; `fwrite` and `fread` of a whole record are assumed to succeed.
* The reports add and multiply `int`s with `addInt` and `mulInt`, which have no
  result on overflow either; their `float` arithmetic is described in the
  section on floating point.
-/

namespace FireManagement

/-! ## Machine integers -/

/-- Largest value of the 32-bit C type `int`. -/
def INT_MAX : Int := 2147483647

/-- The C increment `x++` on an `int`: the result is `x + 1` while that is
representable, and the increment has no defined result at `INT_MAX`. -/
def incInt (x : Int) : Option Int :=
  if x < INT_MAX then some (x + 1) else none

/-! ## Data model (`data.h`) -/

/-- Enumeration `OccurrenceType`. -/
inductive OccurrenceType where
  | FOREST
  | URBAN
  | INDUSTRIAL
  deriving DecidableEq, Repr

/-- Enumeration `Priority`. -/
inductive Priority where
  | LOW
  | NORMAL
  | HIGH
  deriving DecidableEq, Repr

/-- Enumeration `OccurrenceStatus`. -/
inductive OccurrenceStatus where
  | REPORTED
  | IN_PROGRESS
  | RESOLVED
  | OCCURRENCE_INACTIVE
  deriving DecidableEq, Repr

/-- Enumeration `FirefighterStatus`. -/
inductive FirefighterStatus where
  | AVAILABLE
  | BUSY
  | FIREFIGHTER_INACTIVE
  deriving DecidableEq, Repr

/-- Enumeration `EquipmentStatus`. -/
inductive EquipmentStatus where
  | OPERATIONAL
  | IN_USE
  | MAINTENANCE
  | EQUIPMENT_INACTIVE
  deriving DecidableEq, Repr

/-- Enumeration `InterventionStatus`. -/
inductive InterventionStatus where
  | IN_PLANNING
  | RUNNING
  | FINISHED
  | INTERVENTION_INACTIVE
  deriving DecidableEq, Repr

/-- The cast `(OccurrenceType) getInt(0, 2, ..)`. -/
def OccurrenceType.ofInput : Fin 3 → OccurrenceType
  | 0 => .FOREST
  | 1 => .URBAN
  | 2 => .INDUSTRIAL

/-- The cast `(Priority) getInt(0, 2, ..)`. -/
def Priority.ofInput : Fin 3 → Priority
  | 0 => .LOW
  | 1 => .NORMAL
  | 2 => .HIGH

/-- The cast `(OccurrenceStatus) st` of a status read with `getInt(0, 2, ..)`. -/
def OccurrenceStatus.ofInput : Fin 3 → OccurrenceStatus
  | 0 => .REPORTED
  | 1 => .IN_PROGRESS
  | 2 => .RESOLVED

/-- The cast `(FirefighterStatus) st` of a status read with `getInt(0, 2, ..)`;
value 2 is `FIREFIGHTER_INACTIVE`. -/
def FirefighterStatus.ofInput : Fin 3 → FirefighterStatus
  | 0 => .AVAILABLE
  | 1 => .BUSY
  | 2 => .FIREFIGHTER_INACTIVE

/-- The cast `(EquipmentStatus) st` of a status read with `getInt(0, 2, ..)`. -/
def EquipmentStatus.ofInput : Fin 3 → EquipmentStatus
  | 0 => .OPERATIONAL
  | 1 => .IN_USE
  | 2 => .MAINTENANCE

/-- The cast `(InterventionStatus) st` of a status read with `getInt(0, 2, ..)`. -/
def InterventionStatus.ofInput : Fin 3 → InterventionStatus
  | 0 => .IN_PLANNING
  | 1 => .RUNNING
  | 2 => .FINISHED

/-- Structure `DateTime`. -/
structure DateTime where
  day : Int
  month : Int
  year : Int
  hour : Int
  minute : Int
  deriving DecidableEq, Repr

/-- Structure `Firefighter`. -/
structure Firefighter where
  id : Int
  name : String
  specialty : String
  status : FirefighterStatus
  totalInterventions : Int
  totalResponseTime : Int
  deriving DecidableEq, Repr

/-- Structure `Occurrence`. -/
structure Occurrence where
  id : Int
  location : String
  timestamp : DateTime
  endedAt : DateTime
  type : OccurrenceType
  priority : Priority
  status : OccurrenceStatus
  deriving DecidableEq, Repr

/-- Structure `Equipment`. -/
structure Equipment where
  id : Int
  designation : String
  type : String
  status : EquipmentStatus
  deriving DecidableEq, Repr

/-- Structure `Intervention`. -/
structure Intervention where
  id : Int
  idOccurrence : Int
  start : DateTime
  «end» : DateTime
  status : InterventionStatus
  assignedFirefighterId : Int
  deriving DecidableEq, Repr

/-! ## Results of operations -/

/-- Which exit an update or delete took: `done` is the `return` inside the loop
after the record was modified, `notFound` is the fall-through after the loop. -/
inductive Outcome where
  | done
  | notFound
  deriving DecidableEq, Repr

/-- What a listing printed: the "no records" message for a null head, or the
table header followed by one row per printed record. -/
inductive Listing (ρ : Type) where
  | noRecords
  | table (rows : List ρ)
  deriving DecidableEq, Repr

/-- The rows a listing printed. -/
def Listing.rows {ρ : Type} : Listing ρ → List ρ
  | .noRecords => []
  | .table rows => rows

/-! ## Firefighters (`firefighters.c`) -/

/-- `createFirefighter`: a failed `malloc` returns the list and counter as they
were; otherwise the counter is incremented and the new node is linked in front. -/
def createFirefighter (alloc : Bool) (head : List Firefighter) (idSeq : Int)
    (name specialty : String) : Option (List Firefighter × Int) :=
  if alloc = false then some (head, idSeq)
  else
    match incInt idSeq with
    | none => none
    | some seq =>
      some ({ id := seq, name := name, specialty := specialty,
              status := .AVAILABLE, totalInterventions := 0,
              totalResponseTime := 0 } :: head, seq)

/-- The fields of a firefighter printed by `listFirefighters`. -/
structure FirefighterRow where
  id : Int
  name : String
  specialty : String
  status : FirefighterStatus
  totalInterventions : Int
  deriving DecidableEq, Repr

/-- The `while (current)` loop of `listFirefighters`. -/
def listFirefightersLoop : List Firefighter → List FirefighterRow
  | [] => []
  | current :: next =>
    if current.status ≠ .FIREFIGHTER_INACTIVE then
      { id := current.id, name := current.name, specialty := current.specialty,
        status := current.status,
        totalInterventions := current.totalInterventions } :: listFirefightersLoop next
    else listFirefightersLoop next

/-- `listFirefighters`. -/
def listFirefighters (head : List Firefighter) : Listing FirefighterRow :=
  match head with
  | [] => .noRecords
  | _ :: _ => .table (listFirefightersLoop head)

/-- `updateFirefighter`: `id` and `st` are the two values read from the
operator; `st` is read only once the record has been found. -/
def updateFirefighter : List Firefighter → Int → Fin 3 → List Firefighter × Outcome
  | [], _, _ => ([], .notFound)
  | current :: next, id, st =>
    if current.id = id ∧ current.status ≠ .FIREFIGHTER_INACTIVE then
      ({ current with status := FirefighterStatus.ofInput st } :: next, .done)
    else
      ((current :: (updateFirefighter next id st).1), (updateFirefighter next id st).2)

/-- `deleteFirefighter`. -/
def deleteFirefighter : List Firefighter → Int → List Firefighter × Outcome
  | [], _ => ([], .notFound)
  | current :: next, id =>
    if current.id = id then
      ({ current with status := .FIREFIGHTER_INACTIVE } :: next, .done)
    else
      ((current :: (deleteFirefighter next id).1), (deleteFirefighter next id).2)

/-- The `while (head)` loop of `saveFirefighters`: each record is appended to
the file. -/
def saveFirefightersLoop : List Firefighter → List Firefighter → List Firefighter
  | [], file => file
  | data :: next, file => saveFirefightersLoop next (file ++ [data])

/-- `saveFirefighters`: `fp` tells whether `fopen (.., "wb")` succeeded and
`old` is the file as it was (`none` when absent).  Opening truncates the file. -/
def saveFirefighters (fp : Bool) (head : List Firefighter)
    (old : Option (List Firefighter)) : Option (List Firefighter) :=
  if fp = false then old else some (saveFirefightersLoop head [])

/-- The `while (fread ..)` loop of `loadFirefighters`; `mem` is the number of
nodes `malloc` can still deliver, and a failed `malloc` breaks out of the loop. -/
def loadFirefightersLoop : Nat → List Firefighter → List Firefighter → Int →
    List Firefighter × Int
  | _, [], head, idSeq => (head, idSeq)
  | 0, _ :: _, head, idSeq => (head, idSeq)
  | mem + 1, temp :: rest, head, idSeq =>
    loadFirefightersLoop mem rest (temp :: head) (if temp.id > idSeq then temp.id else idSeq)

/-- `loadFirefighters`: `fp` is the file when `fopen (.., "rb")` succeeded;
`idSeq` is the value the counter variable holds on entry. -/
def loadFirefighters (mem : Nat) (fp : Option (List Firefighter)) (idSeq : Int) :
    List Firefighter × Int :=
  match fp with
  | none => ([], idSeq)
  | some file => loadFirefightersLoop mem file [] 0

/-! ## Equipment (`equipments.c`) -/

/-- `createEquipment`. -/
def createEquipment (alloc : Bool) (head : List Equipment) (idSeq : Int)
    (designation type : String) : Option (List Equipment × Int) :=
  if alloc = false then some (head, idSeq)
  else
    match incInt idSeq with
    | none => none
    | some seq =>
      some ({ id := seq, designation := designation, type := type,
              status := .OPERATIONAL } :: head, seq)

/-- The fields of an equipment item printed by `listEquipments`. -/
structure EquipmentRow where
  id : Int
  designation : String
  type : String
  status : EquipmentStatus
  deriving DecidableEq, Repr

/-- The `while (current)` loop of `listEquipments`. -/
def listEquipmentsLoop : List Equipment → List EquipmentRow
  | [] => []
  | current :: next =>
    if current.status ≠ .EQUIPMENT_INACTIVE then
      { id := current.id, designation := current.designation, type := current.type,
        status := current.status } :: listEquipmentsLoop next
    else listEquipmentsLoop next

/-- `listEquipments`. -/
def listEquipments (head : List Equipment) : Listing EquipmentRow :=
  match head with
  | [] => .noRecords
  | _ :: _ => .table (listEquipmentsLoop head)

/-- `updateEquipment`. -/
def updateEquipment : List Equipment → Int → Fin 3 → List Equipment × Outcome
  | [], _, _ => ([], .notFound)
  | current :: next, id, st =>
    if current.id = id ∧ current.status ≠ .EQUIPMENT_INACTIVE then
      ({ current with status := EquipmentStatus.ofInput st } :: next, .done)
    else
      ((current :: (updateEquipment next id st).1), (updateEquipment next id st).2)

/-- `deleteEquipment`. -/
def deleteEquipment : List Equipment → Int → List Equipment × Outcome
  | [], _ => ([], .notFound)
  | current :: next, id =>
    if current.id = id then
      ({ current with status := .EQUIPMENT_INACTIVE } :: next, .done)
    else
      ((current :: (deleteEquipment next id).1), (deleteEquipment next id).2)

/-- The `while (head)` loop of `saveEquipments`. -/
def saveEquipmentsLoop : List Equipment → List Equipment → List Equipment
  | [], file => file
  | data :: next, file => saveEquipmentsLoop next (file ++ [data])

/-- `saveEquipments`. -/
def saveEquipments (fp : Bool) (head : List Equipment)
    (old : Option (List Equipment)) : Option (List Equipment) :=
  if fp = false then old else some (saveEquipmentsLoop head [])

/-- The `while (fread ..)` loop of `loadEquipments`.  The node returned by
`malloc` is written without a null check, so the loop has no defined result
when the budget `mem` runs out before the file does. -/
def loadEquipmentsLoop : Nat → List Equipment → List Equipment → Int →
    Option (List Equipment × Int)
  | _, [], head, idSeq => some (head, idSeq)
  | 0, _ :: _, _, _ => none
  | mem + 1, temp :: rest, head, idSeq =>
    loadEquipmentsLoop mem rest (temp :: head) (if temp.id > idSeq then temp.id else idSeq)

/-- `loadEquipments`. -/
def loadEquipments (mem : Nat) (fp : Option (List Equipment)) (idSeq : Int) :
    Option (List Equipment × Int) :=
  match fp with
  | none => some ([], idSeq)
  | some file => loadEquipmentsLoop mem file [] 0

/-! ## Occurrences (`occurrences.c`) -/

/-- `createOccurrence`: `timestamp` is the value of `readDateTime ()`; only the
`year` of `endedAt` is assigned, so its other fields keep whatever the fresh
node held, passed as `uninit`. -/
def createOccurrence (alloc : Bool) (head : List Occurrence) (idSeq : Int)
    (location : String) (type priority : Fin 3) (timestamp uninit : DateTime) :
    Option (List Occurrence × Int) :=
  if alloc = false then some (head, idSeq)
  else
    match incInt idSeq with
    | none => none
    | some seq =>
      some ({ id := seq, location := location, timestamp := timestamp,
              endedAt := { uninit with year := 0 },
              type := OccurrenceType.ofInput type,
              priority := Priority.ofInput priority,
              status := .REPORTED } :: head, seq)

/-- The fields of an occurrence printed by `listOccurrences`. -/
structure OccurrenceRow where
  id : Int
  location : String
  priority : Priority
  status : OccurrenceStatus
  deriving DecidableEq, Repr

/-- The `while (current)` loop of `listOccurrences`. -/
def listOccurrencesLoop : List Occurrence → List OccurrenceRow
  | [] => []
  | current :: next =>
    if current.status ≠ .OCCURRENCE_INACTIVE then
      { id := current.id, location := current.location, priority := current.priority,
        status := current.status } :: listOccurrencesLoop next
    else listOccurrencesLoop next

/-- `listOccurrences`. -/
def listOccurrences (head : List Occurrence) : Listing OccurrenceRow :=
  match head with
  | [] => .noRecords
  | _ :: _ => .table (listOccurrencesLoop head)

/-- `updateOccurrence`: `endedAt` is the value of `readDateTime ()`, read only
when the new status is `RESOLVED`. -/
def updateOccurrence : List Occurrence → Int → Fin 3 → DateTime → List Occurrence × Outcome
  | [], _, _, _ => ([], .notFound)
  | current :: next, id, st, endedAt =>
    if current.id = id ∧ current.status ≠ .OCCURRENCE_INACTIVE then
      ({ current with
          status := OccurrenceStatus.ofInput st,
          endedAt := if st = 2 then endedAt else current.endedAt } :: next, .done)
    else
      ((current :: (updateOccurrence next id st endedAt).1),
        (updateOccurrence next id st endedAt).2)

/-- `deleteOccurrence`. -/
def deleteOccurrence : List Occurrence → Int → List Occurrence × Outcome
  | [], _ => ([], .notFound)
  | current :: next, id =>
    if current.id = id then
      ({ current with status := .OCCURRENCE_INACTIVE } :: next, .done)
    else
      ((current :: (deleteOccurrence next id).1), (deleteOccurrence next id).2)

/-- The `while (head)` loop of `saveOccurrences`. -/
def saveOccurrencesLoop : List Occurrence → List Occurrence → List Occurrence
  | [], file => file
  | data :: next, file => saveOccurrencesLoop next (file ++ [data])

/-- `saveOccurrences`. -/
def saveOccurrences (fp : Bool) (head : List Occurrence)
    (old : Option (List Occurrence)) : Option (List Occurrence) :=
  if fp = false then old else some (saveOccurrencesLoop head [])

/-- The `while (fread ..)` loop of `loadOccurrences` (no null check on the
node, as in `loadEquipmentsLoop`). -/
def loadOccurrencesLoop : Nat → List Occurrence → List Occurrence → Int →
    Option (List Occurrence × Int)
  | _, [], head, idSeq => some (head, idSeq)
  | 0, _ :: _, _, _ => none
  | mem + 1, temp :: rest, head, idSeq =>
    loadOccurrencesLoop mem rest (temp :: head) (if temp.id > idSeq then temp.id else idSeq)

/-- `loadOccurrences`. -/
def loadOccurrences (mem : Nat) (fp : Option (List Occurrence)) (idSeq : Int) :
    Option (List Occurrence × Int) :=
  match fp with
  | none => some ([], idSeq)
  | some file => loadOccurrencesLoop mem file [] 0

/-! ## Interventions (`interventions.c`) -/

/-- The `while (fireHead)` loop of `createIntervention`: the first firefighter
whose id is `fId` has `totalInterventions` incremented, and the loop stops. -/
def createInterventionAssign : List Firefighter → Int → Option (List Firefighter)
  | [], _ => some []
  | fireHead :: next, fId =>
    if fireHead.id = fId then
      match incInt fireHead.totalInterventions with
      | none => none
      | some total => some ({ fireHead with totalInterventions := total } :: next)
    else
      match createInterventionAssign next fId with
      | none => none
      | some rest => some (fireHead :: rest)

/-- `createIntervention`: `occId`, `start` and `fId` are the values read from the
operator; of `end` only `day` and `year` are assigned, the other fields keep what
the fresh node held (`uninit`).  `occHead` and `equipHead` are received and never
used.  The result is the intervention list, the firefighter list and the counter. -/
def createIntervention (alloc : Bool) (head : List Intervention)
    (_occHead : List Occurrence) (fireHead : List Firefighter)
    (_equipHead : List Equipment) (idSeq : Int)
    (occId : Int) (start : DateTime) (fId : Int) (uninit : DateTime) :
    Option (List Intervention × List Firefighter × Int) :=
  if alloc = false then some (head, fireHead, idSeq)
  else
    match incInt idSeq with
    | none => none
    | some seq =>
      match createInterventionAssign fireHead fId with
      | none => none
      | some fire =>
        some ({ id := seq, idOccurrence := occId, start := start,
                «end» := { uninit with day := 0, year := 0 },
                status := .IN_PLANNING,
                assignedFirefighterId := fId } :: head, fire, seq)

/-- The fields of an intervention printed by `listInterventions`. -/
structure InterventionRow where
  id : Int
  idOccurrence : Int
  statusStr : String
  deriving DecidableEq, Repr

/-- The `while (head)` loop of `listInterventions`. -/
def listInterventionsLoop : List Intervention → List InterventionRow
  | [] => []
  | data :: next =>
    let statusStr :=
      if data.status = .IN_PLANNING then "Planeamento"
      else if data.status = .RUNNING then "Em Curso"
      else "Concluída"
    if data.status ≠ .INTERVENTION_INACTIVE then
      { id := data.id, idOccurrence := data.idOccurrence, statusStr := statusStr } ::
        listInterventionsLoop next
    else listInterventionsLoop next

/-- `listInterventions`. -/
def listInterventions (head : List Intervention) : Listing InterventionRow :=
  match head with
  | [] => .noRecords
  | _ :: _ => .table (listInterventionsLoop head)

/-- `updateIntervention`: `day`, `hour` and `minute` are read only when the new
status is 2.  The function prints nothing when no id matches; `notFound` is that
silent fall-through. -/
def updateIntervention : List Intervention → Int → Fin 3 → Int → Int → Int →
    List Intervention × Outcome
  | [], _, _, _, _, _ => ([], .notFound)
  | data :: next, id, st, day, hour, minute =>
    if data.id = id then
      ({ data with
          status := InterventionStatus.ofInput st,
          «end» := if st = 2 then
                      { data.«end» with day := day, hour := hour, minute := minute }
                    else data.«end» } :: next, .done)
    else
      ((data :: (updateIntervention next id st day hour minute).1),
        (updateIntervention next id st day hour minute).2)

/-- `deleteIntervention`. -/
def deleteIntervention : List Intervention → Int → List Intervention × Outcome
  | [], _ => ([], .notFound)
  | current :: next, id =>
    if current.id = id then
      ({ current with status := .INTERVENTION_INACTIVE } :: next, .done)
    else
      ((current :: (deleteIntervention next id).1), (deleteIntervention next id).2)

/-- The `while (head)` loop of `saveInterventions`. -/
def saveInterventionsLoop : List Intervention → List Intervention → List Intervention
  | [], file => file
  | data :: next, file => saveInterventionsLoop next (file ++ [data])

/-- `saveInterventions`. -/
def saveInterventions (fp : Bool) (head : List Intervention)
    (old : Option (List Intervention)) : Option (List Intervention) :=
  if fp = false then old else some (saveInterventionsLoop head [])

/-- The `while (fread ..)` loop of `loadInterventions` (no null check on the
node, as in `loadEquipmentsLoop`). -/
def loadInterventionsLoop : Nat → List Intervention → List Intervention → Int →
    Option (List Intervention × Int)
  | _, [], head, idSeq => some (head, idSeq)
  | 0, _ :: _, _, _ => none
  | mem + 1, temp :: rest, head, idSeq =>
    loadInterventionsLoop mem rest (temp :: head) (if temp.id > idSeq then temp.id else idSeq)

/-- `loadInterventions`. -/
def loadInterventions (mem : Nat) (fp : Option (List Intervention)) (idSeq : Int) :
    Option (List Intervention × Int) :=
  match fp with
  | none => some ([], idSeq)
  | some file => loadInterventionsLoop mem file [] 0

/-! ## The session (`main.c` and the four menus) -/

/-- The variables of `main`: the four list heads and the four id counters. -/
structure System where
  listFirefighters : List Firefighter
  listOccurrences : List Occurrence
  listEquipments : List Equipment
  listInterventions : List Intervention
  idFirefighter : Int
  idOccurrence : Int
  idEquipment : Int
  idIntervention : Int
  deriving DecidableEq, Repr

/-- The variables of `main` as initialised, before any file is loaded: null
heads and counters 0. -/
def System.initial : System :=
  { listFirefighters := [], listOccurrences := [], listEquipments := [],
    listInterventions := [], idFirefighter := 0, idOccurrence := 0,
    idEquipment := 0, idIntervention := 0 }

/-- One operator action: a menu entry together with the values typed for it.
`report` stands for every read-only report of the menus; `restart` is leaving
through option 0 (all four stores saved) followed by a new run of `main`, with
the node budget of each of the four loads. -/
inductive Op where
  | createFirefighter (alloc : Bool) (name specialty : String)
  | listFirefighters
  | updateFirefighter (id : Int) (st : Fin 3)
  | deleteFirefighter (id : Int)
  | createOccurrence (alloc : Bool) (location : String) (type priority : Fin 3)
      (timestamp uninit : DateTime)
  | listOccurrences
  | updateOccurrence (id : Int) (st : Fin 3) (endedAt : DateTime)
  | deleteOccurrence (id : Int)
  | createEquipment (alloc : Bool) (designation type : String)
  | listEquipments
  | updateEquipment (id : Int) (st : Fin 3)
  | deleteEquipment (id : Int)
  | createIntervention (alloc : Bool) (occId : Int) (start : DateTime) (fId : Int)
      (uninit : DateTime)
  | listInterventions
  | updateIntervention (id : Int) (st : Fin 3) (day hour minute : Int)
  | deleteIntervention (id : Int)
  | report
  | restart (memF memO memE memI : Nat)
  deriving DecidableEq, Repr

/-- Option 0 of the main menu followed by a new run of `main`: every store is
written to its file (the files open), the counters start again at 0 and each
store is read back from its file. -/
def restart (s : System) (memF memO memE memI : Nat) : Option System :=
  match loadOccurrences memO (saveOccurrences true s.listOccurrences none) 0,
        loadEquipments memE (saveEquipments true s.listEquipments none) 0,
        loadInterventions memI (saveInterventions true s.listInterventions none) 0 with
  | some occ, some equip, some interv =>
    some { listFirefighters :=
             (loadFirefighters memF (saveFirefighters true s.listFirefighters none) 0).1,
           idFirefighter :=
             (loadFirefighters memF (saveFirefighters true s.listFirefighters none) 0).2,
           listOccurrences := occ.1, idOccurrence := occ.2,
           listEquipments := equip.1, idEquipment := equip.2,
           listInterventions := interv.1, idIntervention := interv.2 }
  | _, _, _ => none

/-- The dispatch of the menus: the effect of one action on the variables of
`main`.  Listings and reports receive the heads by value and only read them. -/
def step (s : System) : Op → Option System
  | .createFirefighter alloc name specialty =>
    match createFirefighter alloc s.listFirefighters s.idFirefighter name specialty with
    | none => none
    | some r => some { s with listFirefighters := r.1, idFirefighter := r.2 }
  | .listFirefighters => some s
  | .updateFirefighter id st =>
    some { s with listFirefighters := (updateFirefighter s.listFirefighters id st).1 }
  | .deleteFirefighter id =>
    some { s with listFirefighters := (deleteFirefighter s.listFirefighters id).1 }
  | .createOccurrence alloc location type priority timestamp uninit =>
    match createOccurrence alloc s.listOccurrences s.idOccurrence location type priority
        timestamp uninit with
    | none => none
    | some r => some { s with listOccurrences := r.1, idOccurrence := r.2 }
  | .listOccurrences => some s
  | .updateOccurrence id st endedAt =>
    some { s with listOccurrences := (updateOccurrence s.listOccurrences id st endedAt).1 }
  | .deleteOccurrence id =>
    some { s with listOccurrences := (deleteOccurrence s.listOccurrences id).1 }
  | .createEquipment alloc designation type =>
    match createEquipment alloc s.listEquipments s.idEquipment designation type with
    | none => none
    | some r => some { s with listEquipments := r.1, idEquipment := r.2 }
  | .listEquipments => some s
  | .updateEquipment id st =>
    some { s with listEquipments := (updateEquipment s.listEquipments id st).1 }
  | .deleteEquipment id =>
    some { s with listEquipments := (deleteEquipment s.listEquipments id).1 }
  | .createIntervention alloc occId start fId uninit =>
    match createIntervention alloc s.listInterventions s.listOccurrences s.listFirefighters
        s.listEquipments s.idIntervention occId start fId uninit with
    | none => none
    | some r =>
      some { s with listInterventions := r.1, listFirefighters := r.2.1,
                    idIntervention := r.2.2 }
  | .listInterventions => some s
  | .updateIntervention id st day hour minute =>
    some { s with listInterventions :=
                    (updateIntervention s.listInterventions id st day hour minute).1 }
  | .deleteIntervention id =>
    some { s with listInterventions := (deleteIntervention s.listInterventions id).1 }
  | .report => some s
  | .restart memF memO memE memI => restart s memF memO memE memI

/-- A session: the actions are carried out one after the other; there is no
result once an action has none. -/
def run : System → List Op → Option System
  | s, [] => some s
  | s, op :: ops =>
    match step s op with
    | none => none
    | some s1 => run s1 ops

/-- The beginning of `main`: the four heads are null and the four counters 0,
then each store is loaded; `fpF`, `fpO`, `fpE` and `fpI` are the four files, `none`
for a file that `fopen (.., "rb")` could not open. -/
def mainLoad (memF memO memE memI : Nat) (fpF : Option (List Firefighter))
    (fpO : Option (List Occurrence)) (fpE : Option (List Equipment))
    (fpI : Option (List Intervention)) : Option System :=
  match loadOccurrences memO fpO System.initial.idOccurrence,
        loadEquipments memE fpE System.initial.idEquipment,
        loadInterventions memI fpI System.initial.idIntervention with
  | some occ, some equip, some interv =>
    some { listFirefighters := (loadFirefighters memF fpF System.initial.idFirefighter).1,
           idFirefighter := (loadFirefighters memF fpF System.initial.idFirefighter).2,
           listOccurrences := occ.1, idOccurrence := occ.2,
           listEquipments := equip.1, idEquipment := equip.2,
           listInterventions := interv.1, idIntervention := interv.2 }
  | _, _, _ => none

/-! ## Durations (`calcMinutes` in `statistics.c`, `diffMinutes` in `interventions.c`) -/

/-- Smallest value of the 32-bit C type `int`. -/
def INT_MIN : Int := -2147483648

/-- The C product `a * b` of two `int`s: it has a result only when the exact
product is representable. -/
def mulInt (a b : Int) : Option Int :=
  if INT_MIN ≤ a * b ∧ a * b ≤ INT_MAX then some (a * b) else none

/-- The C sum `a + b` of two `int`s: it has a result only when the exact sum
is representable. -/
def addInt (a b : Int) : Option Int :=
  if INT_MIN ≤ a + b ∧ a + b ≤ INT_MAX then some (a + b) else none

/-- The `int` expression
`t.year * 525600 + t.month * 43200 + t.day * 1440 + t.hour * 60 + t.minute`
that both duration helpers evaluate for each argument: four products, then the
sums from left to right. -/
def minutesExpr (t : DateTime) : Option Int :=
  match mulInt t.year 525600, mulInt t.month 43200, mulInt t.day 1440, mulInt t.hour 60 with
  | some y, some m, some d, some h =>
    match addInt y m with
    | none => none
    | some ym =>
      match addInt ym d with
      | none => none
      | some ymd =>
        match addInt ymd h with
        | none => none
        | some ymdh => addInt ymdh t.minute
  | _, _, _, _ => none

/-- `calcMinutes` (`statistics.c`): `t1` and `t2` are stored in `long`s and the
difference is converted back to `int`; a difference outside the `int` range has
no result defined by the language (the conversion is implementation-defined, and
the subtraction itself overflows where `long` has 32 bits). -/
def calcMinutes (start «end» : DateTime) : Option Int :=
  match minutesExpr start, minutesExpr «end» with
  | some t1, some t2 =>
    if INT_MIN ≤ t2 - t1 ∧ t2 - t1 ≤ INT_MAX then some (t2 - t1) else none
  | _, _ => none

/-- `diffMinutes` (`interventions.c`), written in the source with the same body
as `calcMinutes`. -/
def diffMinutes (start «end» : DateTime) : Option Int :=
  match minutesExpr start, minutesExpr «end» with
  | some t1, some t2 =>
    if INT_MIN ≤ t2 - t1 ∧ t2 - t1 ≤ INT_MAX then some (t2 - t1) else none
  | _, _ => none

/-! ## Reports of the firefighter and intervention menus -/

/-- A line printed by `listFirefighterRanking`. -/
structure RankingRow where
  name : String
  totalInterventions : Int
  deriving DecidableEq, Repr

/-- `listFirefighterRanking`: after the three header lines, one line per
firefighter whose status is not Inactive. -/
def listFirefighterRanking : List Firefighter → List RankingRow
  | [] => []
  | data :: next =>
    if data.status ≠ .FIREFIGHTER_INACTIVE then
      { name := data.name, totalInterventions := data.totalInterventions } ::
        listFirefighterRanking next
    else listFirefighterRanking next

/-- What `reportInterventionStats` prints: the average duration, or `none` for
the line "Nenhuma intervenção concluída.", and the number on the line
"Total Concluídas". -/
structure InterventionStats where
  average : Option Int
  total : Int
  deriving DecidableEq, Repr

/-- The `while (head)` loop of `reportInterventionStats`, on the variables
`count` and `totalDuration`. -/
def reportInterventionStatsLoop : List Intervention → Int → Int → Option (Int × Int)
  | [], count, totalDuration => some (count, totalDuration)
  | data :: next, count, totalDuration =>
    if data.status = .FINISHED then
      match diffMinutes data.start data.«end» with
      | none => none
      | some dur =>
        if dur > 0 then
          match addInt totalDuration dur, incInt count with
          | some total, some cnt => reportInterventionStatsLoop next cnt total
          | _, _ => none
        else reportInterventionStatsLoop next count totalDuration
    else reportInterventionStatsLoop next count totalDuration

/-- `reportInterventionStats`: `totalDuration / count` is the truncating C
division. -/
def reportInterventionStats (head : List Intervention) : Option InterventionStats :=
  match reportInterventionStatsLoop head 0 0 with
  | none => none
  | some r =>
    some { average := if r.1 > 0 then some (Int.tdiv r.2 r.1) else none, total := r.1 }

/-! ## Location statistics of the occurrence menu (`listOccurrenceStats`) -/

/-- A line printed by `listOccurrenceStats`: a location and its number of
incidents. -/
structure LocationLine where
  location : String
  count : Int
  deriving DecidableEq, Repr

/-- The `while (checker != outer)` loop of `listOccurrenceStats`, over the
records that precede `outer`: whether one of them is not Inactive and has the
location `location` (`strcmp (..) == 0`). -/
def listOccurrenceStatsDuplicate : List Occurrence → String → Bool
  | [], _ => false
  | checker :: next, location =>
    if checker.location = location ∧ checker.status ≠ .OCCURRENCE_INACTIVE then true
    else listOccurrenceStatsDuplicate next location

/-- The `while (inner)` loop of `listOccurrenceStats`, from `outer` to the end
of the list, on the variable `count`. -/
def listOccurrenceStatsCount : List Occurrence → String → Int → Option Int
  | [], _, count => some count
  | inner :: next, location, count =>
    if inner.location = location ∧ inner.status ≠ .OCCURRENCE_INACTIVE then
      match incInt count with
      | none => none
      | some cnt => listOccurrenceStatsCount next location cnt
    else listOccurrenceStatsCount next location count

/-- The `while (outer)` loop of `listOccurrenceStats`: `before` holds the records
from `head` up to `outer`, the second list starts at `outer`. -/
def listOccurrenceStatsLoop : List Occurrence → List Occurrence → Option (List LocationLine)
  | _, [] => some []
  | before, outer :: next =>
    if outer.status = .OCCURRENCE_INACTIVE then
      listOccurrenceStatsLoop (before ++ [outer]) next
    else if listOccurrenceStatsDuplicate before outer.location = false then
      match listOccurrenceStatsCount (outer :: next) outer.location 0 with
      | none => none
      | some count =>
        match listOccurrenceStatsLoop (before ++ [outer]) next with
        | none => none
        | some lines => some ({ location := outer.location, count := count } :: lines)
    else listOccurrenceStatsLoop (before ++ [outer]) next

/-- `listOccurrenceStats`. -/
def listOccurrenceStats (head : List Occurrence) : Option (Listing LocationLine) :=
  match head with
  | [] => some .noRecords
  | _ :: _ =>
    match listOccurrenceStatsLoop [] head with
    | none => none
    | some lines => some (.table lines)

/-! ## Strategic reports (`statistics.c`) -/

/-- The six accumulators of `reportOperationalEfficiency`. -/
structure EfficiencyTotals where
  forestTime : Int
  forestCount : Int
  urbanTime : Int
  urbanCount : Int
  indTime : Int
  indCount : Int
  deriving DecidableEq, Repr

/-- The `while (head)` loop of `reportOperationalEfficiency`. -/
def reportOperationalEfficiencyLoop : List Occurrence → EfficiencyTotals →
    Option EfficiencyTotals
  | [], acc => some acc
  | data :: next, acc =>
    if data.status = .OCCURRENCE_INACTIVE ∨ data.endedAt.year = 0 then
      reportOperationalEfficiencyLoop next acc
    else if data.status = .RESOLVED then
      match calcMinutes data.timestamp data.endedAt with
      | none => none
      | some minutes =>
        let duration := if minutes < 0 then 0 else minutes
        if data.type = .FOREST then
          match addInt acc.forestTime duration, incInt acc.forestCount with
          | some time, some count =>
            reportOperationalEfficiencyLoop next
              { acc with forestTime := time, forestCount := count }
          | _, _ => none
        else if data.type = .URBAN then
          match addInt acc.urbanTime duration, incInt acc.urbanCount with
          | some time, some count =>
            reportOperationalEfficiencyLoop next
              { acc with urbanTime := time, urbanCount := count }
          | _, _ => none
        else if data.type = .INDUSTRIAL then
          match addInt acc.indTime duration, incInt acc.indCount with
          | some time, some count =>
            reportOperationalEfficiencyLoop next
              { acc with indTime := time, indCount := count }
          | _, _ => none
        else reportOperationalEfficiencyLoop next acc
    else reportOperationalEfficiencyLoop next acc

/-- A line printed by `reportOperationalEfficiency`: the average and the count
of one type of incident. -/
structure EfficiencyLine where
  average : Int
  count : Int
  deriving DecidableEq, Repr

/-- What `reportOperationalEfficiency` prints. -/
structure EfficiencyReport where
  forest : EfficiencyLine
  urban : EfficiencyLine
  industrial : EfficiencyLine
  deriving DecidableEq, Repr

/-- The printed value `count ? time / count : 0`, with the truncating C
division. -/
def efficiencyLine (time count : Int) : EfficiencyLine :=
  { average := if count ≠ 0 then Int.tdiv time count else 0, count := count }

/-- `reportOperationalEfficiency`. -/
def reportOperationalEfficiency (head : List Occurrence) : Option EfficiencyReport :=
  match reportOperationalEfficiencyLoop head ⟨0, 0, 0, 0, 0, 0⟩ with
  | none => none
  | some acc =>
    some { forest := efficiencyLine acc.forestTime acc.forestCount,
           urban := efficiencyLine acc.urbanTime acc.urbanCount,
           industrial := efficiencyLine acc.indTime acc.indCount }

/-! ## Floating point

The percentages of `statistics.c` are computed in the C type `float` and compared
with `double` constants.  Both are modelled by their exact rational values under
IEEE 754 arithmetic with rounding to nearest, ties to even, every operation being
rounded to the format of its type: `float` has 24 significant bits and `double`
53.  The exponent range is not modelled; the values of these reports lie far
inside it.  A division whose divisor is zero has no result: the language leaves
its behaviour undefined. -/

/-- The integer nearest to `m`, a tie going to the even neighbour. -/
def roundHalfEven (m : ℚ) : ℤ :=
  if m - ⌊m⌋ < 1 / 2 then ⌊m⌋
  else if 1 / 2 < m - ⌊m⌋ then ⌊m⌋ + 1
  else if ⌊m⌋ % 2 = 0 then ⌊m⌋
  else ⌊m⌋ + 1

/-- The number with `p` significant bits nearest to `x`, a tie going to the even
significand: with `2 ^ e ≤ |x| < 2 ^ (e + 1)` the candidates are the multiples of
`2 ^ (e - (p - 1))`. -/
def roundSig (p : ℕ) (x : ℚ) : ℚ :=
  if x = 0 then 0
  else
    roundHalfEven (x / (2 : ℚ) ^ (Int.log 2 |x| - ((p : ℤ) - 1))) *
      (2 : ℚ) ^ (Int.log 2 |x| - ((p : ℤ) - 1))

/-- The value of a `float` holding the exact result `x`. -/
def toFloat (x : ℚ) : ℚ := roundSig 24 x

/-- The value of a `double` holding the exact result `x`. -/
def toDouble (x : ℚ) : ℚ := roundSig 53 x

/-- The C quotient `a / b` of two `float`s: no result when the divisor is zero,
otherwise the exact quotient rounded to `float`. -/
def divFloat (a b : ℚ) : Option ℚ :=
  if b = 0 then none else some (toFloat (a / b))

/-- The `float` expression `(float) part / total * 100`: the conversion of `part`,
the division by `total` converted to `float`, and the product with 100 converted
to `float`, each rounded to `float`. -/
def percentExpr (part total : Int) : Option ℚ :=
  match divFloat (toFloat part) (toFloat total) with
  | none => none
  | some quotient => some (toFloat (quotient * toFloat 100))

/-- The value of `(float) part / total * 100` when its division has a result. -/
def percentFloat (part total : Int) : ℚ :=
  toFloat (toFloat (toFloat part / toFloat total) * toFloat 100)

/-! ## Strategic reports (`statistics.c`), continued -/

/-- What `showOperationalMonitor` prints for one category: the line saying that
there is no active record, or the numbers free and total, the percentage and
whether the alert was printed instead of "Situação Estável". -/
inductive CapacityLine where
  | noData
  | capacity (free total : Int) (perc : ℚ) (critical : Bool)
  deriving DecidableEq, Repr

/-- The first `while` loop of `showOperationalMonitor`, on the variables `totalF`
and `freeF`. -/
def showOperationalMonitorFirefighters : List Firefighter → Int → Int → Option (Int × Int)
  | [], totalF, freeF => some (totalF, freeF)
  | data :: next, totalF, freeF =>
    if data.status = .FIREFIGHTER_INACTIVE then
      showOperationalMonitorFirefighters next totalF freeF
    else
      match incInt totalF with
      | none => none
      | some total =>
        if data.status = .AVAILABLE then
          match incInt freeF with
          | none => none
          | some free => showOperationalMonitorFirefighters next total free
        else showOperationalMonitorFirefighters next total freeF

/-- The second `while` loop of `showOperationalMonitor`, on the variables
`totalE` and `freeE`. -/
def showOperationalMonitorEquipments : List Equipment → Int → Int → Option (Int × Int)
  | [], totalE, freeE => some (totalE, freeE)
  | data :: next, totalE, freeE =>
    if data.status = .EQUIPMENT_INACTIVE then
      showOperationalMonitorEquipments next totalE freeE
    else
      match incInt totalE with
      | none => none
      | some total =>
        if data.status = .OPERATIONAL then
          match incInt freeE with
          | none => none
          | some free => showOperationalMonitorEquipments next total free
        else showOperationalMonitorEquipments next total freeE

/-- The block `if (total > 0) { float perc = (float) free / total * 100; ..
if (perc < 20.0) .. } else ..` that `showOperationalMonitor` has once for the
firefighters and once for the equipment; `20.0` is a `double`, to which `perc`
is converted exactly. -/
def showOperationalMonitorBlock (free total : Int) : Option CapacityLine :=
  if total > 0 then
    match percentExpr free total with
    | none => none
    | some perc => some (.capacity free total perc (decide (perc < toDouble 20)))
  else some .noData

/-- `showOperationalMonitor`: the two counting loops, then the block of the
firefighters and the block of the equipment. -/
def showOperationalMonitor (fHead : List Firefighter) (eHead : List Equipment) :
    Option (CapacityLine × CapacityLine) :=
  match showOperationalMonitorFirefighters fHead 0 0,
        showOperationalMonitorEquipments eHead 0 0 with
  | some f, some e =>
    match showOperationalMonitorBlock f.2 f.1, showOperationalMonitorBlock e.2 e.1 with
    | some humans, some materials => some (humans, materials)
    | _, _ => none
  | _, _ => none

/-- What `reportEquipmentStrain` prints: the size of the fleet, the two
percentages and whether the maintenance warning was printed instead of the
"saudável" line. -/
structure StrainReport where
  total : Int
  readiness : ℚ
  maintenanceRatio : ℚ
  overstrained : Bool
  deriving DecidableEq, Repr

/-- The `while (head)` loop of `reportEquipmentStrain`, on the variables `total`,
`maintenance` and `operational`. -/
def reportEquipmentStrainLoop : List Equipment → Int → Int → Int → Option (Int × Int × Int)
  | [], total, maintenance, operational => some (total, maintenance, operational)
  | data :: next, total, maintenance, operational =>
    if data.status = .EQUIPMENT_INACTIVE then
      reportEquipmentStrainLoop next total maintenance operational
    else
      match incInt total,
            (if data.status = .MAINTENANCE then incInt maintenance else some maintenance),
            (if data.status = .OPERATIONAL then incInt operational else some operational) with
      | some tot, some maint, some oper => reportEquipmentStrainLoop next tot maint oper
      | _, _, _ => none

/-- The test `total && (float) maintenance / total > 0.3` of
`reportEquipmentStrain`: the division is evaluated only when `total` is not zero,
and `0.3` is a `double`, to which the quotient is converted exactly. -/
def reportEquipmentStrainTest (maintenance total : Int) : Option Bool :=
  if total ≠ 0 then
    match divFloat (toFloat maintenance) (toFloat total) with
    | none => none
    | some quotient => some (decide (toDouble (3 / 10) < quotient))
  else some false

/-- `reportEquipmentStrain`: the printed percentages are
`total ? (float) part / total * 100 : 0`, and the warning is printed when
`total && (float) maintenance / total > 0.3`. -/
def reportEquipmentStrain (head : List Equipment) : Option StrainReport :=
  match reportEquipmentStrainLoop head 0 0 0 with
  | none => none
  | some (total, maintenance, operational) =>
    match (if total ≠ 0 then percentExpr operational total else some (toFloat 0)),
          (if total ≠ 0 then percentExpr maintenance total else some (toFloat 0)),
          reportEquipmentStrainTest maintenance total with
    | some readiness, some maintenanceRatio, some overstrained =>
      some { total := total, readiness := readiness, maintenanceRatio := maintenanceRatio,
             overstrained := overstrained }
    | _, _, _ => none

/-! ## Notions used to state the properties -/

/-- The loop shape of every update and delete: walk the list, rewrite the first
record satisfying `p` with `f` and stop, or reach the end. -/
def scanUpdate {α : Type} (p : α → Prop) [DecidablePred p] (f : α → α) :
    List α → List α × Outcome
  | [] => ([], .notFound)
  | x :: xs =>
    if p x then (f x :: xs, .done)
    else (x :: (scanUpdate p f xs).1, (scanUpdate p f xs).2)

/-- The running maximum kept by the load loops: starting from `c`, every id
greater than the current value replaces it. -/
def scanMax : Int → List Int → Int
  | c, [] => c
  | c, i :: is => scanMax (if i > c then i else c) is

/-- The ids of a store are pairwise distinct and `c` is their maximum, 0 for an
empty store. -/
def UniqueIdsWithMax (ids : List Int) (c : Int) : Prop :=
  ids.Nodup ∧ (ids = [] → c = 0) ∧ (ids ≠ [] → c ∈ ids) ∧ ∀ i ∈ ids, i ≤ c

instance (ids : List Int) (c : Int) : Decidable (UniqueIdsWithMax ids c) := by
  unfold UniqueIdsWithMax
  infer_instance

/-- The invariant kept by each store: distinct ids, all at least 1, with the
counter as their maximum. -/
def StoreInv (ids : List Int) (c : Int) : Prop :=
  UniqueIdsWithMax ids c ∧ ∀ i ∈ ids, 1 ≤ i

instance (ids : List Int) (c : Int) : Decidable (StoreInv ids c) := by
  unfold StoreInv
  infer_instance

/-- The invariant of a session: `StoreInv` for each of the four stores. -/
def SystemInv (s : System) : Prop :=
  StoreInv (s.listFirefighters.map fun r => r.id) s.idFirefighter ∧
  StoreInv (s.listOccurrences.map fun r => r.id) s.idOccurrence ∧
  StoreInv (s.listEquipments.map fun r => r.id) s.idEquipment ∧
  StoreInv (s.listInterventions.map fun r => r.id) s.idIntervention

instance (s : System) : Decidable (SystemInv s) := by
  unfold SystemInv
  infer_instance

/-- An action of the intervention menu that changes a store — a create, a status
update or a soft delete — in which a create assigns firefighter `f`. -/
def interventionActionFor (f : Int) : Op → Bool
  | .createIntervention _ _ _ fId _ => decide (fId = f)
  | .updateIntervention _ _ _ _ _ => true
  | .deleteIntervention _ => true
  | _ => false

/-- The action creates an intervention: a create whose node was allocated. -/
def createsIntervention : Op → Bool
  | .createIntervention alloc _ _ _ _ => alloc
  | _ => false

/-- Linearized minutes, as the specification defines them:
year × 525600 + month × 43200 + day × 1440 + hour × 60 + minute, in exact
integer arithmetic. -/
def linearizedMinutes (t : DateTime) : Int :=
  t.year * 525600 + t.month * 43200 + t.day * 1440 + t.hour * 60 + t.minute

/-- The ranges in which `readDateTime` accepts the fields of a date and time:
day 1..31, month 1..12, year 2020..2030, hour 0..23, minute 0..59. -/
def ValidDateTime (t : DateTime) : Prop :=
  (1 ≤ t.day ∧ t.day ≤ 31) ∧ (1 ≤ t.month ∧ t.month ≤ 12) ∧
  (2020 ≤ t.year ∧ t.year ≤ 2030) ∧ (0 ≤ t.hour ∧ t.hour ≤ 23) ∧
  (0 ≤ t.minute ∧ t.minute ≤ 59)

instance (t : DateTime) : Decidable (ValidDateTime t) := by
  unfold ValidDateTime
  infer_instance

/-- The strictly positive durations, in linearized minutes from start to end, of
the interventions whose status is Finished, in store order. -/
def positiveDurations (head : List Intervention) : List Int :=
  ((head.filter fun r => decide (r.status = .FINISHED)).map
    fun r => linearizedMinutes r.«end» - linearizedMinutes r.start).filter
      fun d => decide (0 < d)

/-- The durations that the efficiency report attributes to the type `T`: for
each occurrence of type `T` with status Resolved and `endedAt.year ≠ 0`, in store
order, the linearized minutes from the report to the end, negative values being
replaced by 0. -/
def efficiencyDurations (T : OccurrenceType) (head : List Occurrence) : List Int :=
  (head.filter fun o => decide (o.type = T ∧ o.status = .RESOLVED ∧ o.endedAt.year ≠ 0)).map
    fun o => max 0 (linearizedMinutes o.endedAt - linearizedMinutes o.timestamp)

/-- The locations of the occurrences whose status is not Inactive, in store
order. -/
def activeLocations (head : List Occurrence) : List String :=
  (head.filter fun o => decide (o.status ≠ .OCCURRENCE_INACTIVE)).map fun o => o.location

/-- The distinct elements of a list in first-seen order: each element is kept at
its first occurrence and dropped afterwards. -/
def firstSeen : List String → List String
  | [] => []
  | x :: xs => x :: (firstSeen xs).filter fun y => decide (y ≠ x)

/-- The number of firefighters whose status is not Inactive. -/
def activeFirefighters (head : List Firefighter) : ℕ :=
  head.countP fun r => decide (r.status ≠ .FIREFIGHTER_INACTIVE)

/-- The number of firefighters whose status is Available. -/
def availableFirefighters (head : List Firefighter) : ℕ :=
  head.countP fun r => decide (r.status = .AVAILABLE)

/-- The number of equipment items whose status is not Inactive. -/
def activeEquipments (head : List Equipment) : ℕ :=
  head.countP fun r => decide (r.status ≠ .EQUIPMENT_INACTIVE)

/-- The number of equipment items whose status is Operational. -/
def operationalEquipments (head : List Equipment) : ℕ :=
  head.countP fun r => decide (r.status = .OPERATIONAL)

/-- The number of equipment items whose status is Maintenance. -/
def maintenanceEquipments (head : List Equipment) : ℕ :=
  head.countP fun r => decide (r.status = .MAINTENANCE)

/-- A sequence of calls of `updateIntervention`, each with the id, the new
status and the day, hour and minute typed for it. -/
def updateInterventions (head : List Intervention) :
    List (Int × Fin 3 × Int × Int × Int) → List Intervention
  | [] => head
  | u :: us =>
    updateInterventions (updateIntervention head u.1 u.2.1 u.2.2.1 u.2.2.2.1 u.2.2.2.2).1 us

/-- An end date whose year is 0, the other fields lying between 0 and the
largest value the operator can type: month 0..12, day 0..31, hour 0..23,
minute 0..59. -/
def EndWithoutYear (e : DateTime) : Prop :=
  e.year = 0 ∧ (0 ≤ e.month ∧ e.month ≤ 12) ∧ (0 ≤ e.day ∧ e.day ≤ 31) ∧
  (0 ≤ e.hour ∧ e.hour ≤ 23) ∧ (0 ≤ e.minute ∧ e.minute ≤ 59)

instance (e : DateTime) : Decidable (EndWithoutYear e) := by
  unfold EndWithoutYear
  infer_instance

/-- The chronological order of dates and times: the order of year, month, day,
hour and minute, compared in this sequence. -/
def ChronologicallyBefore (s e : DateTime) : Prop :=
  s.year < e.year ∨ (s.year = e.year ∧ (s.month < e.month ∨ (s.month = e.month ∧
    (s.day < e.day ∨ (s.day = e.day ∧
      (s.hour < e.hour ∨ (s.hour = e.hour ∧ s.minute < e.minute)))))))

instance (s e : DateTime) : Decidable (ChronologicallyBefore s e) := by
  unfold ChronologicallyBefore
  infer_instance

/-- The accumulators after one more occurrence of type `T` was counted with the
duration 0. -/
def countedWithZero (acc : EfficiencyTotals) : OccurrenceType → EfficiencyTotals
  | .FOREST => { acc with forestCount := acc.forestCount + 1 }
  | .URBAN => { acc with urbanCount := acc.urbanCount + 1 }
  | .INDUSTRIAL => { acc with indCount := acc.indCount + 1 }

/-- The accumulators hold values of the type `int`, and each count can still be
incremented. -/
def AccumulatorsInRange (acc : EfficiencyTotals) : Prop :=
  (INT_MIN ≤ acc.forestTime ∧ acc.forestTime ≤ INT_MAX) ∧
  (INT_MIN ≤ acc.urbanTime ∧ acc.urbanTime ≤ INT_MAX) ∧
  (INT_MIN ≤ acc.indTime ∧ acc.indTime ≤ INT_MAX) ∧
  acc.forestCount < INT_MAX ∧ acc.urbanCount < INT_MAX ∧ acc.indCount < INT_MAX

instance (acc : EfficiencyTotals) : Decidable (AccumulatorsInRange acc) := by
  unfold AccumulatorsInRange
  infer_instance

/-- The dates typed for an action lie in the ranges of `readDateTime`: the
timestamp of a new occurrence, and the end date of an occurrence update to the
status 2, the only update that reads one. -/
def ValidatedInput : Op → Prop
  | .createOccurrence _ _ _ _ timestamp _ => ValidDateTime timestamp
  | .updateOccurrence _ st endedAt => st = 2 → ValidDateTime endedAt
  | _ => True

instance (op : Op) : Decidable (ValidatedInput op) := by
  cases op <;> unfold ValidatedInput <;> infer_instance

/-- The number of occurrences of type `T` whose status is Resolved. -/
def resolvedOfType (T : OccurrenceType) (head : List Occurrence) : ℕ :=
  head.countP fun o => decide (o.type = T ∧ o.status = .RESOLVED)

/-- What holds of every occurrence of a session with validated inputs: its
timestamp is a validated date, and so is its end date once it is Resolved. -/
def ResolvedHasEnd (o : Occurrence) : Prop :=
  ValidDateTime o.timestamp ∧ (o.status = .RESOLVED → ValidDateTime o.endedAt)

instance (o : Occurrence) : Decidable (ResolvedHasEnd o) := by
  unfold ResolvedHasEnd
  infer_instance

/-! ## Sample data -/

/-- A session about to create firefighters, with the counter at 4. -/
def sampleStart : System := { System.initial with idFirefighter := 4 }

/-- Three firefighters to create. -/
def sampleNames : List (String × String) :=
  [("Ana", "Resgate"), ("Rui", "Condutor"), ("Eva", "Chefe")]

/-- The session `sampleStart` after the three creates of `sampleNames`. -/
def sampleCreated : System :=
  { System.initial with
    idFirefighter := 7,
    listFirefighters :=
      [⟨7, "Eva", "Chefe", .AVAILABLE, 0, 0⟩, ⟨6, "Rui", "Condutor", .AVAILABLE, 0, 0⟩,
        ⟨5, "Ana", "Resgate", .AVAILABLE, 0, 0⟩] }

/-- A session with creates, a soft delete and a restart. -/
def sampleSession : List Op :=
  [.createFirefighter true "Ana" "Resgate", .createFirefighter true "Rui" "Condutor",
    .deleteFirefighter 1, .restart 8 8 8 8, .createFirefighter true "Eva" "Chefe"]

/-- The state reached by `sampleSession`. -/
def sampleSessionEnd : System :=
  { System.initial with
    idFirefighter := 3,
    listFirefighters :=
      [⟨3, "Eva", "Chefe", .AVAILABLE, 0, 0⟩,
        ⟨1, "Ana", "Resgate", .FIREFIGHTER_INACTIVE, 0, 0⟩,
        ⟨2, "Rui", "Condutor", .AVAILABLE, 0, 0⟩] }

/-- A firefighter store holding an Inactive record. -/
def sampleCrew : List Firefighter :=
  [⟨3, "Eva", "Chefe", .BUSY, 2, 0⟩, ⟨2, "Rui", "Condutor", .FIREFIGHTER_INACTIVE, 1, 0⟩,
    ⟨1, "Ana", "Resgate", .AVAILABLE, 4, 0⟩]

/-- An equipment store holding an Inactive record. -/
def sampleFleet : List Equipment :=
  [⟨2, "Mangueira 20m", "Mangueira", .EQUIPMENT_INACTIVE⟩,
    ⟨1, "Autotanque", "Viatura", .IN_USE⟩]

/-- An intervention store whose only record was cancelled. -/
def sampleCancelled : List Intervention :=
  [⟨1, 10, ⟨3, 5, 2025, 8, 0⟩, ⟨0, 0, 0, 0, 0⟩, .INTERVENTION_INACTIVE, 7⟩]

/-- A session with two firefighters, the one with id 7 having 3 interventions. -/
def sampleBrigade : System :=
  { System.initial with
    idFirefighter := 8,
    listFirefighters :=
      [⟨8, "Eva", "Chefe", .AVAILABLE, 0, 0⟩, ⟨7, "Rui", "Condutor", .BUSY, 3, 0⟩] }

/-- Two interventions are created for firefighter 7; the first is finished and
reopened, the second is cancelled. -/
def sampleDispatch : List Op :=
  [.createIntervention true 10 ⟨3, 5, 2025, 8, 0⟩ 7 ⟨0, 0, 0, 0, 0⟩,
    .updateIntervention 1 2 3 9 30,
    .createIntervention true 11 ⟨4, 5, 2025, 14, 15⟩ 7 ⟨0, 0, 0, 0, 0⟩,
    .deleteIntervention 2,
    .updateIntervention 1 0 0 0 0]

/-- The state reached from `sampleBrigade` by `sampleDispatch`. -/
def sampleDispatched : System :=
  { sampleBrigade with
    idIntervention := 2,
    listFirefighters :=
      [⟨8, "Eva", "Chefe", .AVAILABLE, 0, 0⟩, ⟨7, "Rui", "Condutor", .BUSY, 5, 0⟩],
    listInterventions :=
      [⟨2, 11, ⟨4, 5, 2025, 14, 15⟩, ⟨0, 0, 0, 0, 0⟩, .INTERVENTION_INACTIVE, 7⟩,
        ⟨1, 10, ⟨3, 5, 2025, 8, 0⟩, ⟨3, 0, 0, 9, 30⟩, .IN_PLANNING, 7⟩] }

/-- An intervention store whose only record was created and then finished with
end day 5, 10:30: the year and month of its end are still 0. -/
def sampleFinished : List Intervention :=
  [⟨1, 10, ⟨3, 5, 2025, 8, 0⟩, ⟨5, 0, 0, 10, 30⟩, .FINISHED, 7⟩]

/-- An intervention store with Finished records of durations 90, 0 and 45
minutes, one Running record and one cancelled record. -/
def sampleInterventions : List Intervention :=
  [⟨5, 10, ⟨1, 1, 2025, 8, 0⟩, ⟨1, 1, 2025, 9, 30⟩, .FINISHED, 7⟩,
    ⟨4, 11, ⟨2, 1, 2025, 8, 0⟩, ⟨2, 1, 2025, 8, 0⟩, .FINISHED, 7⟩,
    ⟨3, 12, ⟨2, 1, 2025, 10, 0⟩, ⟨0, 0, 0, 0, 0⟩, .RUNNING, 8⟩,
    ⟨2, 12, ⟨3, 1, 2025, 10, 0⟩, ⟨3, 1, 2025, 18, 0⟩, .INTERVENTION_INACTIVE, 8⟩,
    ⟨1, 13, ⟨4, 1, 2025, 10, 0⟩, ⟨4, 1, 2025, 10, 45⟩, .FINISHED, 8⟩]

/-- An occurrence store: a forest fire resolved after 90 minutes, an urban one
resolved with an end before its report, a forest fire still in progress, an
Inactive industrial one with an end date, and a forest fire resolved after 30
minutes. -/
def sampleOccurrences : List Occurrence :=
  [⟨5, "Sector A", ⟨1, 1, 2025, 8, 0⟩, ⟨1, 1, 2025, 9, 30⟩, .FOREST, .HIGH, .RESOLVED⟩,
    ⟨4, "Sector B", ⟨2, 1, 2025, 8, 0⟩, ⟨1, 1, 2025, 8, 0⟩, .URBAN, .LOW, .RESOLVED⟩,
    ⟨3, "Sector A", ⟨2, 1, 2025, 10, 0⟩, ⟨0, 0, 0, 0, 0⟩, .FOREST, .NORMAL, .IN_PROGRESS⟩,
    ⟨2, "Sector C", ⟨3, 1, 2025, 10, 0⟩, ⟨3, 1, 2025, 18, 0⟩, .INDUSTRIAL, .NORMAL,
      .OCCURRENCE_INACTIVE⟩,
    ⟨1, "Sector A", ⟨4, 1, 2025, 10, 0⟩, ⟨4, 1, 2025, 10, 31⟩, .FOREST, .LOW, .RESOLVED⟩]

/-- Three active occurrences at "Sector A", one Inactive at "Sector A" and one
active at "Sector B". -/
def sampleSectors : List Occurrence :=
  [⟨5, "Sector A", ⟨1, 1, 2025, 8, 0⟩, ⟨0, 0, 0, 0, 0⟩, .FOREST, .HIGH, .REPORTED⟩,
    ⟨4, "Sector A", ⟨2, 1, 2025, 8, 0⟩, ⟨0, 0, 0, 0, 0⟩, .URBAN, .LOW, .OCCURRENCE_INACTIVE⟩,
    ⟨3, "Sector B", ⟨2, 1, 2025, 10, 0⟩, ⟨0, 0, 0, 0, 0⟩, .FOREST, .NORMAL, .IN_PROGRESS⟩,
    ⟨2, "Sector A", ⟨3, 1, 2025, 10, 0⟩, ⟨3, 1, 2025, 18, 0⟩, .INDUSTRIAL, .NORMAL, .RESOLVED⟩,
    ⟨1, "Sector A", ⟨4, 1, 2025, 10, 0⟩, ⟨0, 0, 0, 0, 0⟩, .FOREST, .LOW, .REPORTED⟩]

/-- Ten active units: three in maintenance, seven operational. -/
def sampleTenUnits : List Equipment :=
  [⟨10, "Mangueira 1", "Mangueira", .MAINTENANCE⟩, ⟨9, "Mangueira 2", "Mangueira", .MAINTENANCE⟩,
    ⟨8, "Mangueira 3", "Mangueira", .MAINTENANCE⟩, ⟨7, "Autotanque 1", "Viatura", .OPERATIONAL⟩,
    ⟨6, "Autotanque 2", "Viatura", .OPERATIONAL⟩, ⟨5, "Autotanque 3", "Viatura", .OPERATIONAL⟩,
    ⟨4, "Escada 1", "Escada", .OPERATIONAL⟩, ⟨3, "Escada 2", "Escada", .OPERATIONAL⟩,
    ⟨2, "Bomba 1", "Bomba", .OPERATIONAL⟩, ⟨1, "Bomba 2", "Bomba", .OPERATIONAL⟩]

/-- A firefighter store in which every record is Inactive. -/
def sampleRetired : List Firefighter :=
  [⟨2, "Rui", "Condutor", .FIREFIGHTER_INACTIVE, 1, 0⟩,
    ⟨1, "Ana", "Resgate", .FIREFIGHTER_INACTIVE, 4, 0⟩]

/-- An equipment store in which every record is Inactive. -/
def sampleScrapped : List Equipment :=
  [⟨2, "Mangueira 20m", "Mangueira", .EQUIPMENT_INACTIVE⟩,
    ⟨1, "Autotanque", "Viatura", .EQUIPMENT_INACTIVE⟩]

/-- A session that creates an intervention with start 2025-05-03 08:00, on a
node whose unwritten fields held 9, and then finishes it with day 5, 10:30. -/
def sampleCompletion : List Op :=
  [.createIntervention true 10 ⟨3, 5, 2025, 8, 0⟩ 7 ⟨9, 9, 9, 9, 9⟩,
    .updateIntervention 1 2 5 10 30]

/-- The state at the end of `sampleCompletion`. -/
def sampleCompleted : System :=
  { System.initial with
    listInterventions := [⟨1, 10, ⟨3, 5, 2025, 8, 0⟩, ⟨5, 9, 0, 10, 30⟩, .FINISHED, 7⟩],
    idIntervention := 1 }

/-- An occurrence store whose only record, a forest fire, was reported on
31 January 2025 at 12:00 and resolved on 1 February 2025 at 06:00. -/
def sampleMonthEnd : List Occurrence :=
  [⟨1, "Sector A", ⟨31, 1, 2025, 12, 0⟩, ⟨1, 2, 2025, 6, 0⟩, .FOREST, .NORMAL, .RESOLVED⟩]

/-- A session that reports a forest fire and an urban incident, resolves the
first on 2025-01-01 at 09:30 and moves the second to InProgress. -/
def sampleResolution : List Op :=
  [.createOccurrence true "Sector A" 0 2 ⟨1, 1, 2025, 8, 0⟩ ⟨9, 9, 9, 9, 9⟩,
    .createOccurrence true "Sector B" 1 0 ⟨2, 1, 2025, 8, 0⟩ ⟨9, 9, 9, 9, 9⟩,
    .updateOccurrence 1 2 ⟨1, 1, 2025, 9, 30⟩,
    .updateOccurrence 2 1 ⟨0, 0, 0, 0, 0⟩]

/-- The state at the end of `sampleResolution`. -/
def sampleResolved : System :=
  { System.initial with
    listOccurrences :=
      [⟨2, "Sector B", ⟨2, 1, 2025, 8, 0⟩, ⟨9, 9, 0, 9, 9⟩, .URBAN, .LOW, .IN_PROGRESS⟩,
        ⟨1, "Sector A", ⟨1, 1, 2025, 8, 0⟩, ⟨1, 1, 2025, 9, 30⟩, .FOREST, .HIGH, .RESOLVED⟩],
    idOccurrence := 2 }

/-! ## Shared lemmas: machine integers and creates -/

theorem incInt_eq_some {x y : Int} : incInt x = some y ↔ x < INT_MAX ∧ y = x + 1 := by
  unfold incInt
  split <;> simp_all [eq_comm]

theorem incInt_of_lt {x : Int} (h : x < INT_MAX) : incInt x = some (x + 1) :=
  incInt_eq_some.2 ⟨h, rfl⟩

theorem createFirefighter_eq_some (head : List Firefighter) (n : Int) (name specialty : String)
    (r : List Firefighter × Int) :
    createFirefighter true head n name specialty = some r ↔
      n < INT_MAX ∧
      r = ({ id := n + 1, name := name, specialty := specialty, status := .AVAILABLE,
             totalInterventions := 0, totalResponseTime := 0 } :: head, n + 1) := by
  unfold createFirefighter incInt
  by_cases h : n < INT_MAX <;> simp [h, eq_comm]

theorem createEquipment_eq_some (head : List Equipment) (n : Int) (designation type : String)
    (r : List Equipment × Int) :
    createEquipment true head n designation type = some r ↔
      n < INT_MAX ∧
      r = ({ id := n + 1, designation := designation, type := type,
             status := .OPERATIONAL } :: head, n + 1) := by
  unfold createEquipment incInt
  by_cases h : n < INT_MAX <;> simp [h, eq_comm]

theorem createOccurrence_eq_some (head : List Occurrence) (n : Int) (location : String)
    (type priority : Fin 3) (timestamp uninit : DateTime) (r : List Occurrence × Int) :
    createOccurrence true head n location type priority timestamp uninit = some r ↔
      n < INT_MAX ∧
      r = ({ id := n + 1, location := location, timestamp := timestamp,
             endedAt := { uninit with year := 0 },
             type := OccurrenceType.ofInput type, priority := Priority.ofInput priority,
             status := .REPORTED } :: head, n + 1) := by
  unfold createOccurrence incInt
  by_cases h : n < INT_MAX <;> simp [h, eq_comm]

theorem createIntervention_eq_some (head : List Intervention) (occHead : List Occurrence)
    (fireHead : List Firefighter) (equipHead : List Equipment) (n occId fId : Int)
    (start uninit : DateTime) (r : List Intervention × List Firefighter × Int) :
    createIntervention true head occHead fireHead equipHead n occId start fId uninit = some r ↔
      n < INT_MAX ∧ ∃ fire, createInterventionAssign fireHead fId = some fire ∧
      r = ({ id := n + 1, idOccurrence := occId, start := start,
             «end» := { uninit with day := 0, year := 0 }, status := .IN_PLANNING,
             assignedFirefighterId := fId } :: head, fire, n + 1) := by
  unfold createIntervention incInt
  by_cases h : n < INT_MAX
  · cases hf : createInterventionAssign fireHead fId <;> simp [h, eq_comm]
  · simp [h]

/-- A create whose `malloc` failed changes nothing. -/
theorem create_alloc_failed :
    (∀ head n name specialty, createFirefighter false head n name specialty = some (head, n)) ∧
    (∀ head n designation type, createEquipment false head n designation type = some (head, n)) ∧
    (∀ head n location type priority timestamp uninit,
      createOccurrence false head n location type priority timestamp uninit = some (head, n)) ∧
    (∀ head occHead fireHead equipHead n occId start fId uninit,
      createIntervention false head occHead fireHead equipHead n occId start fId uninit =
        some (head, fireHead, n)) :=
  ⟨fun _ _ _ _ => rfl, fun _ _ _ _ => rfl, fun _ _ _ _ _ _ _ => rfl,
    fun _ _ _ _ _ _ _ _ _ => rfl⟩

/-! ## Shared lemmas: the firefighter loop of `createIntervention` -/

theorem createInterventionAssign_absent {fireHead : List Firefighter} {fId : Int}
    (h : ∀ f ∈ fireHead, f.id ≠ fId) :
    createInterventionAssign fireHead fId = some fireHead := by
  induction fireHead with
  | nil => rfl
  | cons f next ih =>
    have h1 : f.id ≠ fId := h f (List.mem_cons_self _ _)
    have h2 := ih (fun g hg => h g (List.mem_cons_of_mem _ hg))
    simp [createInterventionAssign, h1, h2]

theorem createInterventionAssign_found (pre post : List Firefighter) (f : Firefighter)
    (fId : Int) (hpre : ∀ g ∈ pre, g.id ≠ fId) (hf : f.id = fId) :
    createInterventionAssign (pre ++ f :: post) fId =
      if f.totalInterventions < INT_MAX then
        some (pre ++ { f with totalInterventions := f.totalInterventions + 1 } :: post)
      else none := by
  induction pre with
  | nil =>
    by_cases h : f.totalInterventions < INT_MAX <;>
      simp [createInterventionAssign, hf, incInt, h]
  | cons g pre ih =>
    have h1 : g.id ≠ fId := hpre g (List.mem_cons_self _ _)
    have h2 := ih (fun x hx => hpre x (List.mem_cons_of_mem _ hx))
    by_cases h : f.totalInterventions < INT_MAX <;>
      simp [createInterventionAssign, h1, h2, h]

theorem createInterventionAssign_map_id {fireHead fire : List Firefighter} {fId : Int}
    (h : createInterventionAssign fireHead fId = some fire) :
    fire.map (fun f => f.id) = fireHead.map (fun f => f.id) := by
  induction fireHead generalizing fire with
  | nil => simp [createInterventionAssign] at h; subst h; rfl
  | cons f next ih =>
    unfold createInterventionAssign at h
    split at h
    · cases hi : incInt f.totalInterventions with
      | none => simp [hi] at h
      | some t => simp [hi] at h; subst h; rfl
    · cases hr : createInterventionAssign next fId with
      | none => simp [hr] at h
      | some rest =>
        simp [hr] at h; subst h
        simp [ih hr]

theorem createInterventionAssign_total_le {fireHead fire : List Firefighter} {fId : Int}
    {b : Int} (h : createInterventionAssign fireHead fId = some fire)
    (hb : ∀ f ∈ fireHead, f.totalInterventions ≤ b) :
    ∀ f ∈ fire, f.totalInterventions ≤ b + 1 := by
  induction fireHead generalizing fire with
  | nil => simp [createInterventionAssign] at h; subst h; simp
  | cons f next ih =>
    have hf := hb f (List.mem_cons_self _ _)
    have hn : ∀ g ∈ next, g.totalInterventions ≤ b :=
      fun g hg => hb g (List.mem_cons_of_mem _ hg)
    unfold createInterventionAssign at h
    split at h
    · cases hi : incInt f.totalInterventions with
      | none => simp [hi] at h
      | some t =>
        simp [hi] at h; subst h
        obtain ⟨_, rfl⟩ := incInt_eq_some.1 hi
        intro g hg
        rcases List.mem_cons.1 hg with rfl | hg
        · simp; omega
        · have := hn g hg; omega
    · cases hr : createInterventionAssign next fId with
      | none => simp [hr] at h
      | some rest =>
        simp [hr] at h; subst h
        intro g hg
        rcases List.mem_cons.1 hg with rfl | hg
        · omega
        · exact ih hr hn g hg

theorem createInterventionAssign_isSome (fireHead : List Firefighter) (fId : Int)
    (hb : ∀ f ∈ fireHead, f.totalInterventions < INT_MAX) :
    ∃ fire, createInterventionAssign fireHead fId = some fire := by
  induction fireHead with
  | nil => exact ⟨[], rfl⟩
  | cons f next ih =>
    have hf := hb f (List.mem_cons_self _ _)
    obtain ⟨rest, hr⟩ := ih (fun g hg => hb g (List.mem_cons_of_mem _ hg))
    unfold createInterventionAssign
    split
    · exact ⟨_, by rw [incInt_of_lt hf]⟩
    · exact ⟨_, by rw [hr]⟩

/-! ## Shared lemmas: runs of creates -/

theorem range_succ_map_shift (n : Int) (k : Nat) :
    (List.range (k + 1)).map (fun i : Nat => n + 1 + (i : Int)) =
      (n + 1) :: (List.range k).map (fun i : Nat => n + 1 + 1 + (i : Int)) := by
  rw [List.range_succ_eq_map]
  simp only [List.map_cons, List.map_map]
  refine congrArg₂ _ (by simp) (List.map_congr_left fun i _ => ?_)
  simp only [Function.comp, Nat.succ_eq_add_one, Nat.cast_add, Nat.cast_one]
  ring

theorem run_createFirefighters (args : List (String × String)) (s s' : System)
    (h : run s (args.map fun a => Op.createFirefighter true a.1 a.2) = some s') :
    s'.idFirefighter = s.idFirefighter + args.length ∧
    ∃ news : List Firefighter, s'.listFirefighters = news ++ s.listFirefighters ∧
      news.reverse.map (fun r => r.id) =
        (List.range args.length).map (fun i : Nat => s.idFirefighter + 1 + (i : Int)) := by
  induction args generalizing s with
  | nil =>
    simp [run] at h; subst h
    exact ⟨by simp, [], by simp, by simp⟩
  | cons a rest ih =>
    simp only [List.map_cons, run, step] at h
    cases hc : createFirefighter true s.listFirefighters s.idFirefighter a.1 a.2 with
    | none => simp [hc] at h
    | some r =>
      simp only [hc] at h
      obtain ⟨_, rfl⟩ := (createFirefighter_eq_some _ _ _ _ _).1 hc
      obtain ⟨h1, news, h2, h3⟩ := ih _ h
      simp only at h1 h2 h3
      refine ⟨by rw [h1]; simp; ring,
        news ++ [Firefighter.mk (s.idFirefighter + 1) a.1 a.2 .AVAILABLE 0 0],
        by rw [h2]; simp, ?_⟩
      rw [List.length_cons, range_succ_map_shift, ← h3]
      simp

theorem run_createFirefighters_isSome (args : List (String × String)) (s : System)
    (h : s.idFirefighter + args.length ≤ INT_MAX) :
    ∃ s', run s (args.map fun a => Op.createFirefighter true a.1 a.2) = some s' := by
  induction args generalizing s with
  | nil => exact ⟨s, rfl⟩
  | cons a rest ih =>
    simp only [List.length_cons, Nat.cast_add, Nat.cast_one] at h
    have hlt : s.idFirefighter < INT_MAX := by omega
    have hc := (createFirefighter_eq_some s.listFirefighters s.idFirefighter a.1 a.2 _).2
      ⟨hlt, rfl⟩
    simp only [List.map_cons, run, step, hc]
    exact ih _ (by simp only; omega)

theorem run_createEquipments (args : List (String × String)) (s s' : System)
    (h : run s (args.map fun a => Op.createEquipment true a.1 a.2) = some s') :
    s'.idEquipment = s.idEquipment + args.length ∧
    ∃ news : List Equipment, s'.listEquipments = news ++ s.listEquipments ∧
      news.reverse.map (fun r => r.id) =
        (List.range args.length).map (fun i : Nat => s.idEquipment + 1 + (i : Int)) := by
  induction args generalizing s with
  | nil =>
    simp [run] at h; subst h
    exact ⟨by simp, [], by simp, by simp⟩
  | cons a rest ih =>
    simp only [List.map_cons, run, step] at h
    cases hc : createEquipment true s.listEquipments s.idEquipment a.1 a.2 with
    | none => simp [hc] at h
    | some r =>
      simp only [hc] at h
      obtain ⟨_, rfl⟩ := (createEquipment_eq_some _ _ _ _ _).1 hc
      obtain ⟨h1, news, h2, h3⟩ := ih _ h
      simp only at h1 h2 h3
      refine ⟨by rw [h1]; simp; ring,
        news ++ [Equipment.mk (s.idEquipment + 1) a.1 a.2 .OPERATIONAL],
        by rw [h2]; simp, ?_⟩
      rw [List.length_cons, range_succ_map_shift, ← h3]
      simp

theorem run_createEquipments_isSome (args : List (String × String)) (s : System)
    (h : s.idEquipment + args.length ≤ INT_MAX) :
    ∃ s', run s (args.map fun a => Op.createEquipment true a.1 a.2) = some s' := by
  induction args generalizing s with
  | nil => exact ⟨s, rfl⟩
  | cons a rest ih =>
    simp only [List.length_cons, Nat.cast_add, Nat.cast_one] at h
    have hlt : s.idEquipment < INT_MAX := by omega
    have hc := (createEquipment_eq_some s.listEquipments s.idEquipment a.1 a.2 _).2
      ⟨hlt, rfl⟩
    simp only [List.map_cons, run, step, hc]
    exact ih _ (by simp only; omega)

theorem run_createOccurrences (args : List (String × Fin 3 × Fin 3 × DateTime × DateTime))
    (s s' : System)
    (h : run s (args.map fun a => Op.createOccurrence true a.1 a.2.1 a.2.2.1 a.2.2.2.1
      a.2.2.2.2) = some s') :
    s'.idOccurrence = s.idOccurrence + args.length ∧
    ∃ news : List Occurrence, s'.listOccurrences = news ++ s.listOccurrences ∧
      news.reverse.map (fun r => r.id) =
        (List.range args.length).map (fun i : Nat => s.idOccurrence + 1 + (i : Int)) := by
  induction args generalizing s with
  | nil =>
    simp [run] at h; subst h
    exact ⟨by simp, [], by simp, by simp⟩
  | cons a rest ih =>
    simp only [List.map_cons, run, step] at h
    cases hc : createOccurrence true s.listOccurrences s.idOccurrence a.1 a.2.1 a.2.2.1
        a.2.2.2.1 a.2.2.2.2 with
    | none => simp [hc] at h
    | some r =>
      simp only [hc] at h
      obtain ⟨_, rfl⟩ := (createOccurrence_eq_some _ _ _ _ _ _ _ _).1 hc
      obtain ⟨h1, news, h2, h3⟩ := ih _ h
      simp only at h1 h2 h3
      refine ⟨by rw [h1]; simp; ring,
        news ++ [Occurrence.mk (s.idOccurrence + 1) a.1 a.2.2.2.1
          { a.2.2.2.2 with year := 0 } (OccurrenceType.ofInput a.2.1)
          (Priority.ofInput a.2.2.1) .REPORTED],
        by rw [h2]; simp, ?_⟩
      rw [List.length_cons, range_succ_map_shift, ← h3]
      simp

theorem run_createOccurrences_isSome
    (args : List (String × Fin 3 × Fin 3 × DateTime × DateTime)) (s : System)
    (h : s.idOccurrence + args.length ≤ INT_MAX) :
    ∃ s', run s (args.map fun a => Op.createOccurrence true a.1 a.2.1 a.2.2.1 a.2.2.2.1
      a.2.2.2.2) = some s' := by
  induction args generalizing s with
  | nil => exact ⟨s, rfl⟩
  | cons a rest ih =>
    simp only [List.length_cons, Nat.cast_add, Nat.cast_one] at h
    have hlt : s.idOccurrence < INT_MAX := by omega
    have hc := (createOccurrence_eq_some s.listOccurrences s.idOccurrence a.1 a.2.1 a.2.2.1
      a.2.2.2.1 a.2.2.2.2 _).2 ⟨hlt, rfl⟩
    simp only [List.map_cons, run, step, hc]
    exact ih _ (by simp only; omega)

theorem run_createInterventions (args : List (Int × DateTime × Int × DateTime))
    (s s' : System)
    (h : run s (args.map fun a => Op.createIntervention true a.1 a.2.1 a.2.2.1 a.2.2.2) =
      some s') :
    s'.idIntervention = s.idIntervention + args.length ∧
    ∃ news : List Intervention, s'.listInterventions = news ++ s.listInterventions ∧
      news.reverse.map (fun r => r.id) =
        (List.range args.length).map (fun i : Nat => s.idIntervention + 1 + (i : Int)) := by
  induction args generalizing s with
  | nil =>
    simp [run] at h; subst h
    exact ⟨by simp, [], by simp, by simp⟩
  | cons a rest ih =>
    simp only [List.map_cons, run, step] at h
    cases hc : createIntervention true s.listInterventions s.listOccurrences
        s.listFirefighters s.listEquipments s.idIntervention a.1 a.2.1 a.2.2.1 a.2.2.2 with
    | none => simp [hc] at h
    | some r =>
      simp only [hc] at h
      obtain ⟨_, fire, _, rfl⟩ := (createIntervention_eq_some _ _ _ _ _ _ _ _ _ _).1 hc
      obtain ⟨h1, news, h2, h3⟩ := ih _ h
      simp only at h1 h2 h3
      refine ⟨by rw [h1]; simp; ring,
        news ++ [Intervention.mk (s.idIntervention + 1) a.1 a.2.1
          { a.2.2.2 with day := 0, year := 0 } .IN_PLANNING a.2.2.1],
        by rw [h2]; simp, ?_⟩
      rw [List.length_cons, range_succ_map_shift, ← h3]
      simp

theorem run_createInterventions_isSome (args : List (Int × DateTime × Int × DateTime))
    (s : System) (h : s.idIntervention + args.length ≤ INT_MAX)
    (hf : ∀ f ∈ s.listFirefighters, f.totalInterventions + args.length ≤ INT_MAX) :
    ∃ s', run s (args.map fun a => Op.createIntervention true a.1 a.2.1 a.2.2.1 a.2.2.2) =
      some s' := by
  induction args generalizing s with
  | nil => exact ⟨s, rfl⟩
  | cons a rest ih =>
    simp only [List.length_cons, Nat.cast_add, Nat.cast_one] at h hf
    have hlt : s.idIntervention < INT_MAX := by omega
    obtain ⟨fire, hfire⟩ := createInterventionAssign_isSome s.listFirefighters a.2.2.1
      (fun f hm => by have := hf f hm; omega)
    have hle := createInterventionAssign_total_le (b := INT_MAX - (rest.length + 1)) hfire
      (fun f hm => by have := hf f hm; omega)
    have hc := (createIntervention_eq_some s.listInterventions s.listOccurrences
      s.listFirefighters s.listEquipments s.idIntervention a.1 a.2.2.1 a.2.1 a.2.2.2 _).2
      ⟨hlt, fire, hfire, rfl⟩
    simp only [List.map_cons, run, step, hc]
    exact ih _ (by simp only; omega) (fun f hm => by have := hle f hm; simp only at hm ⊢; omega)

/-! ## C1: a create assigns the next id -/

/-- C1: for each of the four kinds and every counter value `n`, a successful
create (the node was allocated and the increment is defined, which it is for
every `n` below `INT_MAX`) gives the new record the id `n + 1`, links it in front
of the store and leaves the counter at `n + 1`; and `k` consecutive successful
creates starting from counter `n` leave the counter at `n + k` and put `k` new
records in front of the store whose ids, in creation order, are
`n + 1, n + 2, ..., n + k`. -/
theorem create_assigns_next_id :
    ((∀ (head : List Firefighter) (n : Int) (name specialty : String)
        (r : List Firefighter × Int),
        createFirefighter true head n name specialty = some r →
          r.2 = n + 1 ∧ ∃ new, r.1 = new :: head ∧ new.id = n + 1) ∧
      (∀ (head : List Firefighter) (n : Int) (name specialty : String), n < INT_MAX →
        (createFirefighter true head n name specialty).isSome = true) ∧
      (∀ (args : List (String × String)) (s s' : System),
        run s (args.map fun a => Op.createFirefighter true a.1 a.2) = some s' →
          s'.idFirefighter = s.idFirefighter + args.length ∧
          ∃ news : List Firefighter, s'.listFirefighters = news ++ s.listFirefighters ∧
            news.reverse.map (fun r => r.id) =
              (List.range args.length).map (fun i : Nat => s.idFirefighter + 1 + (i : Int))) ∧
      (∀ (args : List (String × String)) (s : System),
        s.idFirefighter + args.length ≤ INT_MAX →
          (run s (args.map fun a => Op.createFirefighter true a.1 a.2)).isSome = true)) ∧
    ((∀ (head : List Equipment) (n : Int) (designation type : String)
        (r : List Equipment × Int),
        createEquipment true head n designation type = some r →
          r.2 = n + 1 ∧ ∃ new, r.1 = new :: head ∧ new.id = n + 1) ∧
      (∀ (head : List Equipment) (n : Int) (designation type : String), n < INT_MAX →
        (createEquipment true head n designation type).isSome = true) ∧
      (∀ (args : List (String × String)) (s s' : System),
        run s (args.map fun a => Op.createEquipment true a.1 a.2) = some s' →
          s'.idEquipment = s.idEquipment + args.length ∧
          ∃ news : List Equipment, s'.listEquipments = news ++ s.listEquipments ∧
            news.reverse.map (fun r => r.id) =
              (List.range args.length).map (fun i : Nat => s.idEquipment + 1 + (i : Int))) ∧
      (∀ (args : List (String × String)) (s : System),
        s.idEquipment + args.length ≤ INT_MAX →
          (run s (args.map fun a => Op.createEquipment true a.1 a.2)).isSome = true)) ∧
    ((∀ (head : List Occurrence) (n : Int) (location : String) (type priority : Fin 3)
        (timestamp uninit : DateTime) (r : List Occurrence × Int),
        createOccurrence true head n location type priority timestamp uninit = some r →
          r.2 = n + 1 ∧ ∃ new, r.1 = new :: head ∧ new.id = n + 1) ∧
      (∀ (head : List Occurrence) (n : Int) (location : String) (type priority : Fin 3)
        (timestamp uninit : DateTime), n < INT_MAX →
        (createOccurrence true head n location type priority timestamp uninit).isSome = true) ∧
      (∀ (args : List (String × Fin 3 × Fin 3 × DateTime × DateTime)) (s s' : System),
        run s (args.map fun a => Op.createOccurrence true a.1 a.2.1 a.2.2.1 a.2.2.2.1
          a.2.2.2.2) = some s' →
          s'.idOccurrence = s.idOccurrence + args.length ∧
          ∃ news : List Occurrence, s'.listOccurrences = news ++ s.listOccurrences ∧
            news.reverse.map (fun r => r.id) =
              (List.range args.length).map (fun i : Nat => s.idOccurrence + 1 + (i : Int))) ∧
      (∀ (args : List (String × Fin 3 × Fin 3 × DateTime × DateTime)) (s : System),
        s.idOccurrence + args.length ≤ INT_MAX →
          (run s (args.map fun a => Op.createOccurrence true a.1 a.2.1 a.2.2.1 a.2.2.2.1
            a.2.2.2.2)).isSome = true)) ∧
    ((∀ (head : List Intervention) (occHead : List Occurrence) (fireHead : List Firefighter)
        (equipHead : List Equipment) (n occId : Int) (start : DateTime) (fId : Int)
        (uninit : DateTime) (r : List Intervention × List Firefighter × Int),
        createIntervention true head occHead fireHead equipHead n occId start fId uninit =
          some r →
          r.2.2 = n + 1 ∧ ∃ new, r.1 = new :: head ∧ new.id = n + 1) ∧
      (∀ (head : List Intervention) (occHead : List Occurrence) (fireHead : List Firefighter)
        (equipHead : List Equipment) (n occId : Int) (start : DateTime) (fId : Int)
        (uninit : DateTime), n < INT_MAX →
        (∀ f ∈ fireHead, f.totalInterventions < INT_MAX) →
        (createIntervention true head occHead fireHead equipHead n occId start fId
          uninit).isSome = true) ∧
      (∀ (args : List (Int × DateTime × Int × DateTime)) (s s' : System),
        run s (args.map fun a => Op.createIntervention true a.1 a.2.1 a.2.2.1 a.2.2.2) =
          some s' →
          s'.idIntervention = s.idIntervention + args.length ∧
          ∃ news : List Intervention, s'.listInterventions = news ++ s.listInterventions ∧
            news.reverse.map (fun r => r.id) =
              (List.range args.length).map (fun i : Nat => s.idIntervention + 1 + (i : Int))) ∧
      (∀ (args : List (Int × DateTime × Int × DateTime)) (s : System),
        s.idIntervention + args.length ≤ INT_MAX →
        (∀ f ∈ s.listFirefighters, f.totalInterventions + args.length ≤ INT_MAX) →
          (run s (args.map fun a => Op.createIntervention true a.1 a.2.1 a.2.2.1
            a.2.2.2)).isSome = true)) := by
  refine ⟨⟨?_, ?_, run_createFirefighters, ?_⟩, ⟨?_, ?_, run_createEquipments, ?_⟩,
    ⟨?_, ?_, run_createOccurrences, ?_⟩, ⟨?_, ?_, run_createInterventions, ?_⟩⟩
  · intro head n name specialty r h
    obtain ⟨_, rfl⟩ := (createFirefighter_eq_some _ _ _ _ _).1 h
    exact ⟨rfl, _, rfl, rfl⟩
  · intro head n name specialty h
    rw [(createFirefighter_eq_some head n name specialty _).2 ⟨h, rfl⟩]; rfl
  · intro args s h
    obtain ⟨s', hs⟩ := run_createFirefighters_isSome args s h
    rw [hs]; rfl
  · intro head n designation type r h
    obtain ⟨_, rfl⟩ := (createEquipment_eq_some _ _ _ _ _).1 h
    exact ⟨rfl, _, rfl, rfl⟩
  · intro head n designation type h
    rw [(createEquipment_eq_some head n designation type _).2 ⟨h, rfl⟩]; rfl
  · intro args s h
    obtain ⟨s', hs⟩ := run_createEquipments_isSome args s h
    rw [hs]; rfl
  · intro head n location type priority timestamp uninit r h
    obtain ⟨_, rfl⟩ := (createOccurrence_eq_some _ _ _ _ _ _ _ _).1 h
    exact ⟨rfl, _, rfl, rfl⟩
  · intro head n location type priority timestamp uninit h
    rw [(createOccurrence_eq_some head n location type priority timestamp uninit _).2
      ⟨h, rfl⟩]; rfl
  · intro args s h
    obtain ⟨s', hs⟩ := run_createOccurrences_isSome args s h
    rw [hs]; rfl
  · intro head occHead fireHead equipHead n occId start fId uninit r h
    obtain ⟨_, fire, _, rfl⟩ := (createIntervention_eq_some _ _ _ _ _ _ _ _ _ _).1 h
    exact ⟨rfl, _, rfl, rfl⟩
  · intro head occHead fireHead equipHead n occId start fId uninit h hf
    obtain ⟨fire, hfire⟩ := createInterventionAssign_isSome fireHead fId hf
    rw [(createIntervention_eq_some head occHead fireHead equipHead n occId fId start uninit
      _).2 ⟨h, fire, hfire, rfl⟩]; rfl
  · intro args s h hf
    obtain ⟨s', hs⟩ := run_createInterventions_isSome args s h hf
    rw [hs]; rfl

/-- Witness for C1: three firefighters created from counter 4 receive the ids
5, 6 and 7 and the counter ends at 7. -/
theorem create_assigns_next_id_witness :
    run sampleStart (sampleNames.map fun a => Op.createFirefighter true a.1 a.2) =
      some sampleCreated ∧
    (sampleCreated.idFirefighter = sampleStart.idFirefighter + sampleNames.length ∧
      ∃ news : List Firefighter,
        sampleCreated.listFirefighters = news ++ sampleStart.listFirefighters ∧
        news.reverse.map (fun r => r.id) =
          (List.range sampleNames.length).map
            (fun i : Nat => sampleStart.idFirefighter + 1 + (i : Int))) :=
  ⟨by decide,
    create_assigns_next_id.1.2.2.1 sampleNames sampleStart sampleCreated (by decide)⟩

/-! ## Shared lemmas: the update and delete loops -/

theorem scanUpdate_map {α β : Type} (p : α → Prop) [DecidablePred p] (f : α → α)
    (g : α → β) (hg : ∀ x, g (f x) = g x) (l : List α) :
    (scanUpdate p f l).1.map g = l.map g := by
  induction l with
  | nil => rfl
  | cons x xs ih =>
    unfold scanUpdate
    split
    · simp [hg]
    · simp [ih]

theorem scanUpdate_length {α : Type} (p : α → Prop) [DecidablePred p] (f : α → α)
    (l : List α) : (scanUpdate p f l).1.length = l.length := by
  have := congrArg List.length (scanUpdate_map p f (fun _ => ()) (fun _ => rfl) l)
  simpa using this

theorem scanUpdate_absent {α : Type} (p : α → Prop) [DecidablePred p] (f : α → α)
    (l : List α) (h : ∀ x ∈ l, ¬ p x) : scanUpdate p f l = (l, .notFound) := by
  induction l with
  | nil => rfl
  | cons x xs ih =>
    have h1 : ¬ p x := h x (List.mem_cons_self _ _)
    have h2 := ih (fun y hy => h y (List.mem_cons_of_mem _ hy))
    simp [scanUpdate, h1, h2]

theorem scanUpdate_found {α : Type} (p : α → Prop) [DecidablePred p] (f : α → α)
    (pre post : List α) (r : α) (hpre : ∀ x ∈ pre, ¬ p x) (hr : p r) :
    scanUpdate p f (pre ++ r :: post) = (pre ++ f r :: post, .done) := by
  induction pre with
  | nil => simp [scanUpdate, hr]
  | cons x xs ih =>
    have h1 : ¬ p x := hpre x (List.mem_cons_self _ _)
    have h2 := ih (fun y hy => hpre y (List.mem_cons_of_mem _ hy))
    simp [scanUpdate, h1, h2]

theorem scanUpdate_outcome {α : Type} (p : α → Prop) [DecidablePred p] (f : α → α)
    (l : List α) : (scanUpdate p f l).2 = .notFound ↔ ∀ x ∈ l, ¬ p x := by
  induction l with
  | nil => simp [scanUpdate]
  | cons x xs ih =>
    unfold scanUpdate
    by_cases h : p x
    · simp [h]
    · simp [h, ih]

/-- Every list with a record satisfying `p` splits at the first such record. -/
theorem exists_first_split {α : Type} (p : α → Prop) [DecidablePred p] (l : List α)
    (h : ∃ x ∈ l, p x) :
    ∃ pre r post, l = pre ++ r :: post ∧ (∀ x ∈ pre, ¬ p x) ∧ p r := by
  induction l with
  | nil => simp at h
  | cons x xs ih =>
    by_cases hx : p x
    · exact ⟨[], x, xs, rfl, by simp, hx⟩
    · obtain ⟨y, hy, hpy⟩ := h
      have hy2 : y ∈ xs := by
        rcases List.mem_cons.1 hy with rfl | hy
        · exact absurd hpy hx
        · exact hy
      obtain ⟨pre, r, post, rfl, hpre, hr⟩ := ih ⟨y, hy2, hpy⟩
      refine ⟨x :: pre, r, post, rfl, ?_, hr⟩
      intro z hz
      rcases List.mem_cons.1 hz with rfl | hz
      · exact hx
      · exact hpre z hz

theorem updateFirefighter_eq (head : List Firefighter) (id : Int) (st : Fin 3) :
    updateFirefighter head id st =
      scanUpdate (fun c : Firefighter => c.id = id ∧ c.status ≠ .FIREFIGHTER_INACTIVE)
        (fun c => { c with status := FirefighterStatus.ofInput st }) head := by
  induction head with
  | nil => rfl
  | cons c next ih => simp only [updateFirefighter, scanUpdate, ih]

theorem deleteFirefighter_eq (head : List Firefighter) (id : Int) :
    deleteFirefighter head id =
      scanUpdate (fun c : Firefighter => c.id = id)
        (fun c => { c with status := .FIREFIGHTER_INACTIVE }) head := by
  induction head with
  | nil => rfl
  | cons c next ih => simp only [deleteFirefighter, scanUpdate, ih]

theorem updateEquipment_eq (head : List Equipment) (id : Int) (st : Fin 3) :
    updateEquipment head id st =
      scanUpdate (fun c : Equipment => c.id = id ∧ c.status ≠ .EQUIPMENT_INACTIVE)
        (fun c => { c with status := EquipmentStatus.ofInput st }) head := by
  induction head with
  | nil => rfl
  | cons c next ih => simp only [updateEquipment, scanUpdate, ih]

theorem deleteEquipment_eq (head : List Equipment) (id : Int) :
    deleteEquipment head id =
      scanUpdate (fun c : Equipment => c.id = id)
        (fun c => { c with status := .EQUIPMENT_INACTIVE }) head := by
  induction head with
  | nil => rfl
  | cons c next ih => simp only [deleteEquipment, scanUpdate, ih]

theorem updateOccurrence_eq (head : List Occurrence) (id : Int) (st : Fin 3)
    (endedAt : DateTime) :
    updateOccurrence head id st endedAt =
      scanUpdate (fun c : Occurrence => c.id = id ∧ c.status ≠ .OCCURRENCE_INACTIVE)
        (fun c => { c with status := OccurrenceStatus.ofInput st,
                           endedAt := if st = 2 then endedAt else c.endedAt }) head := by
  induction head with
  | nil => rfl
  | cons c next ih => simp only [updateOccurrence, scanUpdate, ih]

theorem deleteOccurrence_eq (head : List Occurrence) (id : Int) :
    deleteOccurrence head id =
      scanUpdate (fun c : Occurrence => c.id = id)
        (fun c => { c with status := .OCCURRENCE_INACTIVE }) head := by
  induction head with
  | nil => rfl
  | cons c next ih => simp only [deleteOccurrence, scanUpdate, ih]

theorem updateIntervention_eq (head : List Intervention) (id : Int) (st : Fin 3)
    (day hour minute : Int) :
    updateIntervention head id st day hour minute =
      scanUpdate (fun c : Intervention => c.id = id)
        (fun c => { c with
          status := InterventionStatus.ofInput st,
          «end» := if st = 2 then
                      { c.«end» with day := day, hour := hour, minute := minute }
                    else c.«end» }) head := by
  induction head with
  | nil => rfl
  | cons c next ih => simp only [updateIntervention, scanUpdate, ih]

theorem deleteIntervention_eq (head : List Intervention) (id : Int) :
    deleteIntervention head id =
      scanUpdate (fun c : Intervention => c.id = id)
        (fun c => { c with status := .INTERVENTION_INACTIVE }) head := by
  induction head with
  | nil => rfl
  | cons c next ih => simp only [deleteIntervention, scanUpdate, ih]

theorem updateFirefighter_map_id (head : List Firefighter) (id : Int) (st : Fin 3) :
    (updateFirefighter head id st).1.map (fun r => r.id) = head.map (fun r => r.id) := by
  rw [updateFirefighter_eq]
  apply scanUpdate_map
  intro x; rfl

theorem deleteFirefighter_map_id (head : List Firefighter) (id : Int) :
    (deleteFirefighter head id).1.map (fun r => r.id) = head.map (fun r => r.id) := by
  rw [deleteFirefighter_eq]
  apply scanUpdate_map
  intro x; rfl

theorem updateEquipment_map_id (head : List Equipment) (id : Int) (st : Fin 3) :
    (updateEquipment head id st).1.map (fun r => r.id) = head.map (fun r => r.id) := by
  rw [updateEquipment_eq]
  apply scanUpdate_map
  intro x; rfl

theorem deleteEquipment_map_id (head : List Equipment) (id : Int) :
    (deleteEquipment head id).1.map (fun r => r.id) = head.map (fun r => r.id) := by
  rw [deleteEquipment_eq]
  apply scanUpdate_map
  intro x; rfl

theorem updateOccurrence_map_id (head : List Occurrence) (id : Int) (st : Fin 3) (endedAt : DateTime) :
    (updateOccurrence head id st endedAt).1.map (fun r => r.id) = head.map (fun r => r.id) := by
  rw [updateOccurrence_eq]
  apply scanUpdate_map
  intro x; rfl

theorem deleteOccurrence_map_id (head : List Occurrence) (id : Int) :
    (deleteOccurrence head id).1.map (fun r => r.id) = head.map (fun r => r.id) := by
  rw [deleteOccurrence_eq]
  apply scanUpdate_map
  intro x; rfl

theorem updateIntervention_map_id (head : List Intervention) (id : Int) (st : Fin 3) (day hour minute : Int) :
    (updateIntervention head id st day hour minute).1.map (fun r => r.id) = head.map (fun r => r.id) := by
  rw [updateIntervention_eq]
  apply scanUpdate_map
  intro x; rfl

theorem deleteIntervention_map_id (head : List Intervention) (id : Int) :
    (deleteIntervention head id).1.map (fun r => r.id) = head.map (fun r => r.id) := by
  rw [deleteIntervention_eq]
  apply scanUpdate_map
  intro x; rfl

/-! ## Shared lemmas: saving and loading -/

theorem saveFirefightersLoop_eq (head file : List Firefighter) :
    saveFirefightersLoop head file = file ++ head := by
  induction head generalizing file with
  | nil => simp [saveFirefightersLoop]
  | cons d next ih => simp [saveFirefightersLoop, ih]

theorem saveEquipmentsLoop_eq (head file : List Equipment) :
    saveEquipmentsLoop head file = file ++ head := by
  induction head generalizing file with
  | nil => simp [saveEquipmentsLoop]
  | cons d next ih => simp [saveEquipmentsLoop, ih]

theorem saveOccurrencesLoop_eq (head file : List Occurrence) :
    saveOccurrencesLoop head file = file ++ head := by
  induction head generalizing file with
  | nil => simp [saveOccurrencesLoop]
  | cons d next ih => simp [saveOccurrencesLoop, ih]

theorem saveInterventionsLoop_eq (head file : List Intervention) :
    saveInterventionsLoop head file = file ++ head := by
  induction head generalizing file with
  | nil => simp [saveInterventionsLoop]
  | cons d next ih => simp [saveInterventionsLoop, ih]

theorem loadFirefightersLoop_eq (mem : Nat) (file head : List Firefighter) (c : Int) :
    loadFirefightersLoop mem file head c =
      ((file.take mem).reverse ++ head, scanMax c ((file.take mem).map fun r => r.id)) := by
  induction file generalizing mem head c with
  | nil => cases mem <;> simp [loadFirefightersLoop, scanMax]
  | cons t rest ih =>
    cases mem with
    | zero => simp [loadFirefightersLoop, scanMax]
    | succ m => simp [loadFirefightersLoop, scanMax, ih]

theorem loadEquipmentsLoop_eq (mem : Nat) (file head : List Equipment) (c : Int) :
    loadEquipmentsLoop mem file head c =
      if file.length ≤ mem then
        some (file.reverse ++ head, scanMax c (file.map fun r => r.id))
      else none := by
  induction file generalizing mem head c with
  | nil => cases mem <;> simp [loadEquipmentsLoop, scanMax]
  | cons t rest ih =>
    cases mem with
    | zero => simp [loadEquipmentsLoop]
    | succ m => simp [loadEquipmentsLoop, scanMax, ih]

theorem loadOccurrencesLoop_eq (mem : Nat) (file head : List Occurrence) (c : Int) :
    loadOccurrencesLoop mem file head c =
      if file.length ≤ mem then
        some (file.reverse ++ head, scanMax c (file.map fun r => r.id))
      else none := by
  induction file generalizing mem head c with
  | nil => cases mem <;> simp [loadOccurrencesLoop, scanMax]
  | cons t rest ih =>
    cases mem with
    | zero => simp [loadOccurrencesLoop]
    | succ m => simp [loadOccurrencesLoop, scanMax, ih]

theorem loadInterventionsLoop_eq (mem : Nat) (file head : List Intervention) (c : Int) :
    loadInterventionsLoop mem file head c =
      if file.length ≤ mem then
        some (file.reverse ++ head, scanMax c (file.map fun r => r.id))
      else none := by
  induction file generalizing mem head c with
  | nil => cases mem <;> simp [loadInterventionsLoop, scanMax]
  | cons t rest ih =>
    cases mem with
    | zero => simp [loadInterventionsLoop]
    | succ m => simp [loadInterventionsLoop, scanMax, ih]

theorem le_scanMax (c : Int) (l : List Int) : c ≤ scanMax c l := by
  induction l generalizing c with
  | nil => simp [scanMax]
  | cons i is ih =>
    unfold scanMax
    have := ih (if i > c then i else c)
    by_cases h : i > c <;> simp only [h, if_true, if_false] at this ⊢ <;> omega

theorem mem_le_scanMax (c : Int) (l : List Int) : ∀ i ∈ l, i ≤ scanMax c l := by
  induction l generalizing c with
  | nil => simp
  | cons j js ih =>
    intro i hi
    unfold scanMax
    rcases List.mem_cons.1 hi with rfl | hi
    · have := le_scanMax (if i > c then i else c) js
      by_cases h : i > c <;> simp only [h, if_true, if_false] at this ⊢ <;> omega
    · exact ih _ i hi

theorem scanMax_eq_or_mem (c : Int) (l : List Int) : scanMax c l = c ∨ scanMax c l ∈ l := by
  induction l generalizing c with
  | nil => simp [scanMax]
  | cons j js ih =>
    unfold scanMax
    rcases ih (if j > c then j else c) with h | h
    · rw [h]
      split
      · right; simp
      · left; rfl
    · right; exact List.mem_cons_of_mem _ h

/-- From counter 0 the running maximum over positive ids is their maximum. -/
theorem scanMax_zero_spec (l : List Int) (hpos : ∀ i ∈ l, 1 ≤ i) :
    (l = [] → scanMax 0 l = 0) ∧ (l ≠ [] → scanMax 0 l ∈ l) ∧ ∀ i ∈ l, i ≤ scanMax 0 l := by
  refine ⟨fun h => by subst h; rfl, fun hne => ?_, mem_le_scanMax 0 l⟩
  rcases scanMax_eq_or_mem 0 l with h | h
  · obtain ⟨i, hi⟩ := List.exists_mem_of_ne_nil l hne
    have h1 := hpos i hi
    have h2 := mem_le_scanMax 0 l i hi
    omega
  · exact h

/-! ## Shared lemmas: the store invariant -/

theorem storeInv_nil : StoreInv [] 0 := by
  simp [StoreInv, UniqueIdsWithMax]

theorem storeInv_counter_nonneg {ids : List Int} {c : Int} (h : StoreInv ids c) : 0 ≤ c := by
  obtain ⟨⟨_, h0, hm, _⟩, hpos⟩ := h
  by_cases he : ids = []
  · rw [h0 he]
  · have := hpos c (hm he); omega

theorem storeInv_cons {ids : List Int} {c : Int} (h : StoreInv ids c) :
    StoreInv ((c + 1) :: ids) (c + 1) := by
  have hc := storeInv_counter_nonneg h
  obtain ⟨⟨hnd, _, _, hle⟩, hpos⟩ := h
  refine ⟨⟨?_, by simp, by simp, ?_⟩, ?_⟩
  · refine List.nodup_cons.2 ⟨fun hmem => ?_, hnd⟩
    have := hle _ hmem; omega
  · intro i hi
    rcases List.mem_cons.1 hi with rfl | hi
    · exact le_refl _
    · have := hle i hi; omega
  · intro i hi
    rcases List.mem_cons.1 hi with rfl | hi
    · omega
    · exact hpos i hi

theorem storeInv_reload {ids : List Int} {c : Int} (h : StoreInv ids c) (l : List Int)
    (hl : l.Sublist ids) : StoreInv l.reverse (scanMax 0 l) := by
  obtain ⟨⟨hnd, _, _, _⟩, hpos⟩ := h
  have hpos2 : ∀ i ∈ l, 1 ≤ i := fun i hi => hpos i (hl.subset hi)
  obtain ⟨h0, hm, hle⟩ := scanMax_zero_spec l hpos2
  refine ⟨⟨List.nodup_reverse.2 (hnd.sublist hl), ?_, ?_, ?_⟩, ?_⟩
  · intro he; exact h0 (List.reverse_eq_nil_iff.1 he)
  · intro hne
    exact List.mem_reverse.2 (hm (fun he => hne (by rw [he]; rfl)))
  · intro i hi; exact hle i (List.mem_reverse.1 hi)
  · intro i hi; exact hpos2 i (List.mem_reverse.1 hi)

theorem restart_eq_some (s s' : System) (memF memO memE memI : Nat) :
    restart s memF memO memE memI = some s' ↔
      s.listOccurrences.length ≤ memO ∧ s.listEquipments.length ≤ memE ∧
      s.listInterventions.length ≤ memI ∧
      s' = { listFirefighters := (s.listFirefighters.take memF).reverse,
             idFirefighter := scanMax 0 ((s.listFirefighters.take memF).map fun r => r.id),
             listOccurrences := s.listOccurrences.reverse,
             idOccurrence := scanMax 0 (s.listOccurrences.map fun r => r.id),
             listEquipments := s.listEquipments.reverse,
             idEquipment := scanMax 0 (s.listEquipments.map fun r => r.id),
             listInterventions := s.listInterventions.reverse,
             idIntervention := scanMax 0 (s.listInterventions.map fun r => r.id) } := by
  unfold restart
  simp only [saveFirefighters, saveOccurrences, saveEquipments, saveInterventions,
    loadFirefighters, loadOccurrences, loadEquipments, loadInterventions,
    saveFirefightersLoop_eq, saveOccurrencesLoop_eq, saveEquipmentsLoop_eq,
    saveInterventionsLoop_eq, loadFirefightersLoop_eq, loadOccurrencesLoop_eq,
    loadEquipmentsLoop_eq, loadInterventionsLoop_eq]
  by_cases hO : s.listOccurrences.length ≤ memO <;>
  by_cases hE : s.listEquipments.length ≤ memE <;>
  by_cases hI : s.listInterventions.length ≤ memI <;>
  simp [hO, hE, hI, eq_comm]

theorem step_preserves_inv (s s' : System) (op : Op) (h : step s op = some s')
    (hinv : SystemInv s) : SystemInv s' := by
  obtain ⟨hF, hO, hE, hI⟩ := hinv
  cases op with
  | createFirefighter alloc name specialty =>
    simp only [step] at h
    cases alloc with
    | false =>
      simp [createFirefighter] at h; subst h
      exact ⟨hF, hO, hE, hI⟩
    | true =>
      cases hc : createFirefighter true s.listFirefighters s.idFirefighter name specialty with
      | none => simp [hc] at h
      | some r =>
        simp only [hc, Option.some.injEq] at h; subst h
        obtain ⟨_, rfl⟩ := (createFirefighter_eq_some _ _ _ _ _).1 hc
        exact ⟨storeInv_cons hF, hO, hE, hI⟩
  | listFirefighters => simp [step] at h; subst h; exact ⟨hF, hO, hE, hI⟩
  | updateFirefighter id st =>
    simp only [step, Option.some.injEq] at h; subst h
    refine ⟨?_, hO, hE, hI⟩
    simp only [updateFirefighter_map_id]; exact hF
  | deleteFirefighter id =>
    simp only [step, Option.some.injEq] at h; subst h
    refine ⟨?_, hO, hE, hI⟩
    simp only [deleteFirefighter_map_id]; exact hF
  | createOccurrence alloc location type priority timestamp uninit =>
    simp only [step] at h
    cases alloc with
    | false =>
      simp [createOccurrence] at h; subst h
      exact ⟨hF, hO, hE, hI⟩
    | true =>
      cases hc : createOccurrence true s.listOccurrences s.idOccurrence location type priority
          timestamp uninit with
      | none => simp [hc] at h
      | some r =>
        simp only [hc, Option.some.injEq] at h; subst h
        obtain ⟨_, rfl⟩ := (createOccurrence_eq_some _ _ _ _ _ _ _ _).1 hc
        exact ⟨hF, storeInv_cons hO, hE, hI⟩
  | listOccurrences => simp [step] at h; subst h; exact ⟨hF, hO, hE, hI⟩
  | updateOccurrence id st endedAt =>
    simp only [step, Option.some.injEq] at h; subst h
    refine ⟨hF, ?_, hE, hI⟩
    simp only [updateOccurrence_map_id]; exact hO
  | deleteOccurrence id =>
    simp only [step, Option.some.injEq] at h; subst h
    refine ⟨hF, ?_, hE, hI⟩
    simp only [deleteOccurrence_map_id]; exact hO
  | createEquipment alloc designation type =>
    simp only [step] at h
    cases alloc with
    | false =>
      simp [createEquipment] at h; subst h
      exact ⟨hF, hO, hE, hI⟩
    | true =>
      cases hc : createEquipment true s.listEquipments s.idEquipment designation type with
      | none => simp [hc] at h
      | some r =>
        simp only [hc, Option.some.injEq] at h; subst h
        obtain ⟨_, rfl⟩ := (createEquipment_eq_some _ _ _ _ _).1 hc
        exact ⟨hF, hO, storeInv_cons hE, hI⟩
  | listEquipments => simp [step] at h; subst h; exact ⟨hF, hO, hE, hI⟩
  | updateEquipment id st =>
    simp only [step, Option.some.injEq] at h; subst h
    refine ⟨hF, hO, ?_, hI⟩
    simp only [updateEquipment_map_id]; exact hE
  | deleteEquipment id =>
    simp only [step, Option.some.injEq] at h; subst h
    refine ⟨hF, hO, ?_, hI⟩
    simp only [deleteEquipment_map_id]; exact hE
  | createIntervention alloc occId start fId uninit =>
    simp only [step] at h
    cases alloc with
    | false =>
      simp [createIntervention] at h; subst h
      exact ⟨hF, hO, hE, hI⟩
    | true =>
      cases hc : createIntervention true s.listInterventions s.listOccurrences
          s.listFirefighters s.listEquipments s.idIntervention occId start fId uninit with
      | none => simp [hc] at h
      | some r =>
        simp only [hc, Option.some.injEq] at h; subst h
        obtain ⟨_, fire, hfire, rfl⟩ := (createIntervention_eq_some _ _ _ _ _ _ _ _ _ _).1 hc
        refine ⟨?_, hO, hE, storeInv_cons hI⟩
        simp only [createInterventionAssign_map_id hfire]; exact hF
  | listInterventions => simp [step] at h; subst h; exact ⟨hF, hO, hE, hI⟩
  | updateIntervention id st day hour minute =>
    simp only [step, Option.some.injEq] at h; subst h
    refine ⟨hF, hO, hE, ?_⟩
    simp only [updateIntervention_map_id]; exact hI
  | deleteIntervention id =>
    simp only [step, Option.some.injEq] at h; subst h
    refine ⟨hF, hO, hE, ?_⟩
    simp only [deleteIntervention_map_id]; exact hI
  | report => simp [step] at h; subst h; exact ⟨hF, hO, hE, hI⟩
  | restart memF memO memE memI =>
    simp only [step] at h
    obtain ⟨_, _, _, rfl⟩ := (restart_eq_some _ _ _ _ _ _).1 h
    refine ⟨?_, ?_, ?_, ?_⟩
    · simp only [List.map_reverse]
      exact storeInv_reload hF _ ((List.take_sublist _ _).map _)
    · simp only [List.map_reverse]
      exact storeInv_reload hO _ (List.Sublist.refl _)
    · simp only [List.map_reverse]
      exact storeInv_reload hE _ (List.Sublist.refl _)
    · simp only [List.map_reverse]
      exact storeInv_reload hI _ (List.Sublist.refl _)

theorem run_preserves_inv (ops : List Op) (s s' : System) (h : run s ops = some s')
    (hinv : SystemInv s) : SystemInv s' := by
  induction ops generalizing s with
  | nil => simp [run] at h; subst h; exact hinv
  | cons op ops ih =>
    simp only [run] at h
    cases hs : step s op with
    | none => simp [hs] at h
    | some s1 =>
      simp only [hs] at h
      exact ih s1 h (step_preserves_inv s s1 op hs hinv)

theorem systemInv_initial : SystemInv System.initial :=
  ⟨storeInv_nil, storeInv_nil, storeInv_nil, storeInv_nil⟩

/-! ## C2: ids stay distinct and the counter is their maximum -/

/-- C2: in every state reached from the empty stores with counters 0 by any
sequence of menu actions (creates, status updates, soft deletes, read-only
listings, and restarts that save and reload the stores), the ids of each store
are pairwise distinct and its counter is the maximum id in it (0 when it is
empty); hence the record a successful create adds carries an id that no record
already in the store has, whatever the status of those records. -/
theorem reachable_ids_unique_counter_max (ops : List Op) (s : System)
    (h : run System.initial ops = some s) :
    (UniqueIdsWithMax (s.listFirefighters.map fun r => r.id) s.idFirefighter ∧
      UniqueIdsWithMax (s.listOccurrences.map fun r => r.id) s.idOccurrence ∧
      UniqueIdsWithMax (s.listEquipments.map fun r => r.id) s.idEquipment ∧
      UniqueIdsWithMax (s.listInterventions.map fun r => r.id) s.idIntervention) ∧
    (∀ (name specialty : String) (r : List Firefighter × Int),
      createFirefighter true s.listFirefighters s.idFirefighter name specialty = some r →
        ∃ new, r.1 = new :: s.listFirefighters ∧
          ∀ old ∈ s.listFirefighters, old.id ≠ new.id) ∧
    (∀ (location : String) (type priority : Fin 3) (timestamp uninit : DateTime)
      (r : List Occurrence × Int),
      createOccurrence true s.listOccurrences s.idOccurrence location type priority timestamp
          uninit = some r →
        ∃ new, r.1 = new :: s.listOccurrences ∧
          ∀ old ∈ s.listOccurrences, old.id ≠ new.id) ∧
    (∀ (designation type : String) (r : List Equipment × Int),
      createEquipment true s.listEquipments s.idEquipment designation type = some r →
        ∃ new, r.1 = new :: s.listEquipments ∧
          ∀ old ∈ s.listEquipments, old.id ≠ new.id) ∧
    (∀ (occId : Int) (start : DateTime) (fId : Int) (uninit : DateTime)
      (r : List Intervention × List Firefighter × Int),
      createIntervention true s.listInterventions s.listOccurrences s.listFirefighters
          s.listEquipments s.idIntervention occId start fId uninit = some r →
        ∃ new, r.1 = new :: s.listInterventions ∧
          ∀ old ∈ s.listInterventions, old.id ≠ new.id) := by
  obtain ⟨hF, hO, hE, hI⟩ := run_preserves_inv ops _ s h systemInv_initial
  refine ⟨⟨hF.1, hO.1, hE.1, hI.1⟩, ?_, ?_, ?_, ?_⟩
  · intro name specialty r hc
    obtain ⟨_, rfl⟩ := (createFirefighter_eq_some _ _ _ _ _).1 hc
    refine ⟨_, rfl, fun old hold => ?_⟩
    have := hF.1.2.2.2 old.id (List.mem_map.2 ⟨old, hold, rfl⟩)
    simp only; omega
  · intro location type priority timestamp uninit r hc
    obtain ⟨_, rfl⟩ := (createOccurrence_eq_some _ _ _ _ _ _ _ _).1 hc
    refine ⟨_, rfl, fun old hold => ?_⟩
    have := hO.1.2.2.2 old.id (List.mem_map.2 ⟨old, hold, rfl⟩)
    simp only; omega
  · intro designation type r hc
    obtain ⟨_, rfl⟩ := (createEquipment_eq_some _ _ _ _ _).1 hc
    refine ⟨_, rfl, fun old hold => ?_⟩
    have := hE.1.2.2.2 old.id (List.mem_map.2 ⟨old, hold, rfl⟩)
    simp only; omega
  · intro occId start fId uninit r hc
    obtain ⟨_, fire, _, rfl⟩ := (createIntervention_eq_some _ _ _ _ _ _ _ _ _ _).1 hc
    refine ⟨_, rfl, fun old hold => ?_⟩
    have := hI.1.2.2.2 old.id (List.mem_map.2 ⟨old, hold, rfl⟩)
    simp only; omega

/-- Witness for C2: after two creates, a soft delete, a restart and a third
create the firefighter ids 3, 1, 2 are distinct and the counter is 3. -/
theorem reachable_ids_unique_counter_max_witness :
    run System.initial sampleSession = some sampleSessionEnd ∧
    UniqueIdsWithMax (sampleSessionEnd.listFirefighters.map fun r => r.id)
      sampleSessionEnd.idFirefighter :=
  ⟨by decide,
    (reachable_ids_unique_counter_max sampleSession sampleSessionEnd (by decide)).1.1⟩

/-! ## C3: saving then loading -/

theorem scanMax_roundtrip {α : Type} (g : α → Int) (s : List α) :
    (s = [] → scanMax 0 (s.map g) = 0) ∧
    (s ≠ [] → (∀ r ∈ s, 0 < g r) →
      (∃ r ∈ s, g r = scanMax 0 (s.map g)) ∧ ∀ r ∈ s, g r ≤ scanMax 0 (s.map g)) := by
  refine ⟨fun h => by subst h; rfl, fun hne hpos => ?_⟩
  have hpos2 : ∀ i ∈ s.map g, 1 ≤ i := by
    intro i hi
    obtain ⟨r, hr, rfl⟩ := List.mem_map.1 hi
    have := hpos r hr; omega
  obtain ⟨_, hm, hle⟩ := scanMax_zero_spec (s.map g) hpos2
  refine ⟨?_, fun r hr => hle _ (List.mem_map.2 ⟨r, hr, rfl⟩)⟩
  obtain ⟨r, hr, hrc⟩ := List.mem_map.1 (hm (by simpa using hne))
  exact ⟨r, hr, hrc⟩

/-- C3: with a file modelled as the list of records written to it, saving a
store `s` (the file opens) and loading that file (it opens, and the allocator
delivers a node for every record) yields exactly `s` in reverse order, hence a
permutation of `s` with every record intact; the counter computed by the load
is 0 when `s` is empty and, when `s` is non-empty with positive ids, it is the
id of a record of `s` that no id in `s` exceeds.  This holds for the four kinds,
whatever the file held before and whatever the counter held on entry. -/
theorem save_then_load_reverses :
    (∀ (s : List Firefighter) (mem : Nat) (old : Option (List Firefighter)) (idSeq : Int),
      s.length ≤ mem →
      ∃ c, loadFirefighters mem (saveFirefighters true s old) idSeq = (s.reverse, c) ∧
        s.reverse.Perm s ∧ (s = [] → c = 0) ∧
        (s ≠ [] → (∀ r ∈ s, 0 < r.id) → (∃ r ∈ s, r.id = c) ∧ ∀ r ∈ s, r.id ≤ c)) ∧
    (∀ (s : List Equipment) (mem : Nat) (old : Option (List Equipment)) (idSeq : Int),
      s.length ≤ mem →
      ∃ c, loadEquipments mem (saveEquipments true s old) idSeq = some (s.reverse, c) ∧
        s.reverse.Perm s ∧ (s = [] → c = 0) ∧
        (s ≠ [] → (∀ r ∈ s, 0 < r.id) → (∃ r ∈ s, r.id = c) ∧ ∀ r ∈ s, r.id ≤ c)) ∧
    (∀ (s : List Occurrence) (mem : Nat) (old : Option (List Occurrence)) (idSeq : Int),
      s.length ≤ mem →
      ∃ c, loadOccurrences mem (saveOccurrences true s old) idSeq = some (s.reverse, c) ∧
        s.reverse.Perm s ∧ (s = [] → c = 0) ∧
        (s ≠ [] → (∀ r ∈ s, 0 < r.id) → (∃ r ∈ s, r.id = c) ∧ ∀ r ∈ s, r.id ≤ c)) ∧
    (∀ (s : List Intervention) (mem : Nat) (old : Option (List Intervention)) (idSeq : Int),
      s.length ≤ mem →
      ∃ c, loadInterventions mem (saveInterventions true s old) idSeq = some (s.reverse, c) ∧
        s.reverse.Perm s ∧ (s = [] → c = 0) ∧
        (s ≠ [] → (∀ r ∈ s, 0 < r.id) → (∃ r ∈ s, r.id = c) ∧ ∀ r ∈ s, r.id ≤ c)) := by
  refine ⟨?_, ?_, ?_, ?_⟩
  · intro s mem old idSeq hmem
    refine ⟨scanMax 0 (s.map fun r => r.id), ?_, List.reverse_perm s,
      (scanMax_roundtrip _ s).1, (scanMax_roundtrip _ s).2⟩
    simp [loadFirefighters, saveFirefighters, saveFirefightersLoop_eq,
      loadFirefightersLoop_eq, List.take_of_length_le hmem]
  · intro s mem old idSeq hmem
    refine ⟨scanMax 0 (s.map fun r => r.id), ?_, List.reverse_perm s,
      (scanMax_roundtrip _ s).1, (scanMax_roundtrip _ s).2⟩
    simp [loadEquipments, saveEquipments, saveEquipmentsLoop_eq, loadEquipmentsLoop_eq, hmem]
  · intro s mem old idSeq hmem
    refine ⟨scanMax 0 (s.map fun r => r.id), ?_, List.reverse_perm s,
      (scanMax_roundtrip _ s).1, (scanMax_roundtrip _ s).2⟩
    simp [loadOccurrences, saveOccurrences, saveOccurrencesLoop_eq, loadOccurrencesLoop_eq,
      hmem]
  · intro s mem old idSeq hmem
    refine ⟨scanMax 0 (s.map fun r => r.id), ?_, List.reverse_perm s,
      (scanMax_roundtrip _ s).1, (scanMax_roundtrip _ s).2⟩
    simp [loadInterventions, saveInterventions, saveInterventionsLoop_eq,
      loadInterventionsLoop_eq, hmem]

/-- Witness for C3: the three-record store `sampleCrew`, one record Inactive,
comes back reversed with counter 3. -/
theorem save_then_load_reverses_witness :
    loadFirefighters 5 (saveFirefighters true sampleCrew none) 0 = (sampleCrew.reverse, 3) ∧
    ∃ c, loadFirefighters 5 (saveFirefighters true sampleCrew none) 0 =
        (sampleCrew.reverse, c) ∧
      sampleCrew.reverse.Perm sampleCrew ∧ (sampleCrew = [] → c = 0) ∧
      (sampleCrew ≠ [] → (∀ r ∈ sampleCrew, 0 < r.id) →
        (∃ r ∈ sampleCrew, r.id = c) ∧ ∀ r ∈ sampleCrew, r.id ≤ c) :=
  ⟨by decide, save_then_load_reverses.1 sampleCrew 5 none 0 (by decide)⟩

/-! ## C4: soft delete -/

theorem scanUpdate_present {α : Type} (p : α → Prop) [DecidablePred p] (f : α → α)
    (l : List α) (h : ∃ x ∈ l, p x) :
    ∃ pre r post, l = pre ++ r :: post ∧ (∀ x ∈ pre, ¬ p x) ∧ p r ∧
      scanUpdate p f l = (pre ++ f r :: post, .done) := by
  obtain ⟨pre, r, post, rfl, hpre, hr⟩ := exists_first_split p l h
  exact ⟨pre, r, post, rfl, hpre, hr, scanUpdate_found p f pre post r hpre hr⟩

theorem scanUpdate_idem {α : Type} (p : α → Prop) [DecidablePred p] (f : α → α)
    (hp : ∀ x, p x → p (f x)) (hf : ∀ x, f (f x) = f x) (l : List α) :
    scanUpdate p f (scanUpdate p f l).1 = scanUpdate p f l := by
  induction l with
  | nil => rfl
  | cons x xs ih =>
    by_cases h : p x
    · simp [scanUpdate, h, hp x h, hf]
    · simp [scanUpdate, h, ih]

theorem deleteFirefighter_idem (head : List Firefighter) (id : Int) :
    deleteFirefighter (deleteFirefighter head id).1 id = deleteFirefighter head id := by
  simp only [deleteFirefighter_eq]
  apply scanUpdate_idem
  · intro x hx; exact hx
  · intro x; rfl

theorem deleteFirefighter_present (head : List Firefighter) (id : Int) (h : ∃ x ∈ head, x.id = id) :
    ∃ pre r post, head = pre ++ r :: post ∧ (∀ x ∈ pre, x.id ≠ id) ∧ r.id = id ∧
      deleteFirefighter head id = (pre ++ { r with status := .FIREFIGHTER_INACTIVE } :: post, .done) := by
  rw [deleteFirefighter_eq]
  exact scanUpdate_present (fun c : Firefighter => c.id = id)
    (fun c => { c with status := .FIREFIGHTER_INACTIVE }) head h

theorem deleteEquipment_idem (head : List Equipment) (id : Int) :
    deleteEquipment (deleteEquipment head id).1 id = deleteEquipment head id := by
  simp only [deleteEquipment_eq]
  apply scanUpdate_idem
  · intro x hx; exact hx
  · intro x; rfl

theorem deleteEquipment_present (head : List Equipment) (id : Int) (h : ∃ x ∈ head, x.id = id) :
    ∃ pre r post, head = pre ++ r :: post ∧ (∀ x ∈ pre, x.id ≠ id) ∧ r.id = id ∧
      deleteEquipment head id = (pre ++ { r with status := .EQUIPMENT_INACTIVE } :: post, .done) := by
  rw [deleteEquipment_eq]
  exact scanUpdate_present (fun c : Equipment => c.id = id)
    (fun c => { c with status := .EQUIPMENT_INACTIVE }) head h

theorem deleteOccurrence_idem (head : List Occurrence) (id : Int) :
    deleteOccurrence (deleteOccurrence head id).1 id = deleteOccurrence head id := by
  simp only [deleteOccurrence_eq]
  apply scanUpdate_idem
  · intro x hx; exact hx
  · intro x; rfl

theorem deleteOccurrence_present (head : List Occurrence) (id : Int) (h : ∃ x ∈ head, x.id = id) :
    ∃ pre r post, head = pre ++ r :: post ∧ (∀ x ∈ pre, x.id ≠ id) ∧ r.id = id ∧
      deleteOccurrence head id = (pre ++ { r with status := .OCCURRENCE_INACTIVE } :: post, .done) := by
  rw [deleteOccurrence_eq]
  exact scanUpdate_present (fun c : Occurrence => c.id = id)
    (fun c => { c with status := .OCCURRENCE_INACTIVE }) head h

theorem deleteIntervention_idem (head : List Intervention) (id : Int) :
    deleteIntervention (deleteIntervention head id).1 id = deleteIntervention head id := by
  simp only [deleteIntervention_eq]
  apply scanUpdate_idem
  · intro x hx; exact hx
  · intro x; rfl

theorem deleteIntervention_present (head : List Intervention) (id : Int) (h : ∃ x ∈ head, x.id = id) :
    ∃ pre r post, head = pre ++ r :: post ∧ (∀ x ∈ pre, x.id ≠ id) ∧ r.id = id ∧
      deleteIntervention head id = (pre ++ { r with status := .INTERVENTION_INACTIVE } :: post, .done) := by
  rw [deleteIntervention_eq]
  exact scanUpdate_present (fun c : Intervention => c.id = id)
    (fun c => { c with status := .INTERVENTION_INACTIVE }) head h

/-- C4: for every kind, every store and every id carried by some record of it,
the soft delete takes the success exit and rewrites the first record with that
id to the same record with status Inactive, every other record and every other
field staying as it was; when that record is already Inactive the store is
returned unchanged, still with the success exit; and deleting the same id a
second time gives the same store and exit as deleting it once. -/
theorem softDelete_sets_inactive :
    (∀ (head : List Firefighter) (id : Int), (∃ x ∈ head, x.id = id) →
      ∃ pre r post, head = pre ++ r :: post ∧ (∀ x ∈ pre, x.id ≠ id) ∧ r.id = id ∧
        deleteFirefighter head id =
          (pre ++ { r with status := .FIREFIGHTER_INACTIVE } :: post, .done) ∧
        (r.status = .FIREFIGHTER_INACTIVE → deleteFirefighter head id = (head, .done)) ∧
        deleteFirefighter (deleteFirefighter head id).1 id = deleteFirefighter head id) ∧
    (∀ (head : List Equipment) (id : Int), (∃ x ∈ head, x.id = id) →
      ∃ pre r post, head = pre ++ r :: post ∧ (∀ x ∈ pre, x.id ≠ id) ∧ r.id = id ∧
        deleteEquipment head id =
          (pre ++ { r with status := .EQUIPMENT_INACTIVE } :: post, .done) ∧
        (r.status = .EQUIPMENT_INACTIVE → deleteEquipment head id = (head, .done)) ∧
        deleteEquipment (deleteEquipment head id).1 id = deleteEquipment head id) ∧
    (∀ (head : List Occurrence) (id : Int), (∃ x ∈ head, x.id = id) →
      ∃ pre r post, head = pre ++ r :: post ∧ (∀ x ∈ pre, x.id ≠ id) ∧ r.id = id ∧
        deleteOccurrence head id =
          (pre ++ { r with status := .OCCURRENCE_INACTIVE } :: post, .done) ∧
        (r.status = .OCCURRENCE_INACTIVE → deleteOccurrence head id = (head, .done)) ∧
        deleteOccurrence (deleteOccurrence head id).1 id = deleteOccurrence head id) ∧
    (∀ (head : List Intervention) (id : Int), (∃ x ∈ head, x.id = id) →
      ∃ pre r post, head = pre ++ r :: post ∧ (∀ x ∈ pre, x.id ≠ id) ∧ r.id = id ∧
        deleteIntervention head id =
          (pre ++ { r with status := .INTERVENTION_INACTIVE } :: post, .done) ∧
        (r.status = .INTERVENTION_INACTIVE → deleteIntervention head id = (head, .done)) ∧
        deleteIntervention (deleteIntervention head id).1 id = deleteIntervention head id) := by
  refine ⟨?_, ?_, ?_, ?_⟩
  · intro head id h
    obtain ⟨pre, r, post, rfl, hpre, hr, hd⟩ := deleteFirefighter_present head id h
    refine ⟨pre, r, post, rfl, hpre, hr, hd, fun hs => ?_, deleteFirefighter_idem _ id⟩
    rw [hd]; cases r; simp_all
  · intro head id h
    obtain ⟨pre, r, post, rfl, hpre, hr, hd⟩ := deleteEquipment_present head id h
    refine ⟨pre, r, post, rfl, hpre, hr, hd, fun hs => ?_, deleteEquipment_idem _ id⟩
    rw [hd]; cases r; simp_all
  · intro head id h
    obtain ⟨pre, r, post, rfl, hpre, hr, hd⟩ := deleteOccurrence_present head id h
    refine ⟨pre, r, post, rfl, hpre, hr, hd, fun hs => ?_, deleteOccurrence_idem _ id⟩
    rw [hd]; cases r; simp_all
  · intro head id h
    obtain ⟨pre, r, post, rfl, hpre, hr, hd⟩ := deleteIntervention_present head id h
    refine ⟨pre, r, post, rfl, hpre, hr, hd, fun hs => ?_, deleteIntervention_idem _ id⟩
    rw [hd]; cases r; simp_all

/-- Witness for C4: deleting id 2 of `sampleCrew`, whose record is already
Inactive, succeeds and returns the store unchanged. -/
theorem softDelete_sets_inactive_witness :
    deleteFirefighter sampleCrew 2 = (sampleCrew, .done) ∧
    ∃ pre r post, sampleCrew = pre ++ r :: post ∧ (∀ x ∈ pre, x.id ≠ 2) ∧ r.id = 2 ∧
      deleteFirefighter sampleCrew 2 =
        (pre ++ { r with status := .FIREFIGHTER_INACTIVE } :: post, .done) ∧
      (r.status = .FIREFIGHTER_INACTIVE → deleteFirefighter sampleCrew 2 = (sampleCrew, .done)) ∧
      deleteFirefighter (deleteFirefighter sampleCrew 2).1 2 = deleteFirefighter sampleCrew 2 :=
  ⟨by decide, softDelete_sets_inactive.1 sampleCrew 2 ⟨⟨2, "Rui", "Condutor",
    .FIREFIGHTER_INACTIVE, 1, 0⟩, by decide, rfl⟩⟩

/-! ## C5: listings -/

theorem listFirefightersLoop_eq (head : List Firefighter) :
    listFirefightersLoop head =
      (head.filter fun r => decide (r.status ≠ .FIREFIGHTER_INACTIVE)).map
        (fun r => (⟨r.id, r.name, r.specialty, r.status, r.totalInterventions⟩ : FirefighterRow)) := by
  induction head with
  | nil => rfl
  | cons c next ih =>
    by_cases h : c.status = .FIREFIGHTER_INACTIVE <;> simp [listFirefightersLoop, h, ih]

theorem listFirefighters_rows (head : List Firefighter) :
    (listFirefighters head).rows = listFirefightersLoop head := by
  cases head <;> rfl

theorem listFirefighters_rows_append (pre post : List Firefighter) :
    (listFirefighters (pre ++ post)).rows = (listFirefighters pre).rows ++ (listFirefighters post).rows := by
  simp only [listFirefighters_rows, listFirefightersLoop_eq, List.filter_append, List.map_append]

theorem listFirefighters_after_delete (head : List Firefighter) (id : Int) (h : ∃ x ∈ head, x.id = id) :
    ∃ pre r post, head = pre ++ r :: post ∧ (∀ x ∈ pre, x.id ≠ id) ∧ r.id = id ∧
      { r with status := .FIREFIGHTER_INACTIVE } ∈ (deleteFirefighter head id).1 ∧
      (listFirefighters (deleteFirefighter head id).1).rows = (listFirefighters pre).rows ++ (listFirefighters post).rows := by
  obtain ⟨pre, r, post, rfl, hpre, hr, hd⟩ := deleteFirefighter_present head id h
  refine ⟨pre, r, post, rfl, hpre, hr, by rw [hd]; simp, ?_⟩
  rw [hd, listFirefighters_rows_append]
  congr 1
  simp [listFirefighters_rows, listFirefightersLoop]

theorem listEquipmentsLoop_eq (head : List Equipment) :
    listEquipmentsLoop head =
      (head.filter fun r => decide (r.status ≠ .EQUIPMENT_INACTIVE)).map
        (fun r => (⟨r.id, r.designation, r.type, r.status⟩ : EquipmentRow)) := by
  induction head with
  | nil => rfl
  | cons c next ih =>
    by_cases h : c.status = .EQUIPMENT_INACTIVE <;> simp [listEquipmentsLoop, h, ih]

theorem listEquipments_rows (head : List Equipment) :
    (listEquipments head).rows = listEquipmentsLoop head := by
  cases head <;> rfl

theorem listEquipments_rows_append (pre post : List Equipment) :
    (listEquipments (pre ++ post)).rows = (listEquipments pre).rows ++ (listEquipments post).rows := by
  simp only [listEquipments_rows, listEquipmentsLoop_eq, List.filter_append, List.map_append]

theorem listEquipments_after_delete (head : List Equipment) (id : Int) (h : ∃ x ∈ head, x.id = id) :
    ∃ pre r post, head = pre ++ r :: post ∧ (∀ x ∈ pre, x.id ≠ id) ∧ r.id = id ∧
      { r with status := .EQUIPMENT_INACTIVE } ∈ (deleteEquipment head id).1 ∧
      (listEquipments (deleteEquipment head id).1).rows = (listEquipments pre).rows ++ (listEquipments post).rows := by
  obtain ⟨pre, r, post, rfl, hpre, hr, hd⟩ := deleteEquipment_present head id h
  refine ⟨pre, r, post, rfl, hpre, hr, by rw [hd]; simp, ?_⟩
  rw [hd, listEquipments_rows_append]
  congr 1
  simp [listEquipments_rows, listEquipmentsLoop]

theorem listOccurrencesLoop_eq (head : List Occurrence) :
    listOccurrencesLoop head =
      (head.filter fun r => decide (r.status ≠ .OCCURRENCE_INACTIVE)).map
        (fun r => (⟨r.id, r.location, r.priority, r.status⟩ : OccurrenceRow)) := by
  induction head with
  | nil => rfl
  | cons c next ih =>
    by_cases h : c.status = .OCCURRENCE_INACTIVE <;> simp [listOccurrencesLoop, h, ih]

theorem listOccurrences_rows (head : List Occurrence) :
    (listOccurrences head).rows = listOccurrencesLoop head := by
  cases head <;> rfl

theorem listOccurrences_rows_append (pre post : List Occurrence) :
    (listOccurrences (pre ++ post)).rows = (listOccurrences pre).rows ++ (listOccurrences post).rows := by
  simp only [listOccurrences_rows, listOccurrencesLoop_eq, List.filter_append, List.map_append]

theorem listOccurrences_after_delete (head : List Occurrence) (id : Int) (h : ∃ x ∈ head, x.id = id) :
    ∃ pre r post, head = pre ++ r :: post ∧ (∀ x ∈ pre, x.id ≠ id) ∧ r.id = id ∧
      { r with status := .OCCURRENCE_INACTIVE } ∈ (deleteOccurrence head id).1 ∧
      (listOccurrences (deleteOccurrence head id).1).rows = (listOccurrences pre).rows ++ (listOccurrences post).rows := by
  obtain ⟨pre, r, post, rfl, hpre, hr, hd⟩ := deleteOccurrence_present head id h
  refine ⟨pre, r, post, rfl, hpre, hr, by rw [hd]; simp, ?_⟩
  rw [hd, listOccurrences_rows_append]
  congr 1
  simp [listOccurrences_rows, listOccurrencesLoop]

theorem listInterventionsLoop_eq (head : List Intervention) :
    listInterventionsLoop head =
      (head.filter fun r => decide (r.status ≠ .INTERVENTION_INACTIVE)).map
        (fun r => (⟨r.id, r.idOccurrence,
            if r.status = .IN_PLANNING then "Planeamento"
            else if r.status = .RUNNING then "Em Curso" else "Concluída"⟩ : InterventionRow)) := by
  induction head with
  | nil => rfl
  | cons c next ih =>
    by_cases h : c.status = .INTERVENTION_INACTIVE <;> simp [listInterventionsLoop, h, ih]

theorem listInterventions_rows (head : List Intervention) :
    (listInterventions head).rows = listInterventionsLoop head := by
  cases head <;> rfl

theorem listInterventions_rows_append (pre post : List Intervention) :
    (listInterventions (pre ++ post)).rows = (listInterventions pre).rows ++ (listInterventions post).rows := by
  simp only [listInterventions_rows, listInterventionsLoop_eq, List.filter_append, List.map_append]

theorem listInterventions_after_delete (head : List Intervention) (id : Int) (h : ∃ x ∈ head, x.id = id) :
    ∃ pre r post, head = pre ++ r :: post ∧ (∀ x ∈ pre, x.id ≠ id) ∧ r.id = id ∧
      { r with status := .INTERVENTION_INACTIVE } ∈ (deleteIntervention head id).1 ∧
      (listInterventions (deleteIntervention head id).1).rows = (listInterventions pre).rows ++ (listInterventions post).rows := by
  obtain ⟨pre, r, post, rfl, hpre, hr, hd⟩ := deleteIntervention_present head id h
  refine ⟨pre, r, post, rfl, hpre, hr, by rw [hd]; simp, ?_⟩
  rw [hd, listInterventions_rows_append]
  congr 1
  simp [listInterventions_rows, listInterventionsLoop]

/-- C5: for every kind and every store, the rows printed by the listing are
exactly those of the records whose status is not Inactive, one row per such
record and in store order; the listing action leaves the session as it was; and
after a soft delete of an id present in the store the record made Inactive is
still in the store while the listing prints the rows of the records before it
followed by the rows of the records after it, with no row for it. -/
theorem listing_shows_active_records :
    ((∀ head : List Firefighter,
        (listFirefighters head).rows =
          (head.filter fun r => decide (r.status ≠ .FIREFIGHTER_INACTIVE)).map
            (fun r => (⟨r.id, r.name, r.specialty, r.status, r.totalInterventions⟩ : FirefighterRow))) ∧
      (∀ s : System, step s .listFirefighters = some s) ∧
      (∀ (head : List Firefighter) (id : Int), (∃ x ∈ head, x.id = id) →
        ∃ pre r post, head = pre ++ r :: post ∧ (∀ x ∈ pre, x.id ≠ id) ∧ r.id = id ∧
          { r with status := .FIREFIGHTER_INACTIVE } ∈ (deleteFirefighter head id).1 ∧
          (listFirefighters (deleteFirefighter head id).1).rows =
            (listFirefighters pre).rows ++ (listFirefighters post).rows)) ∧
    ((∀ head : List Equipment,
        (listEquipments head).rows =
          (head.filter fun r => decide (r.status ≠ .EQUIPMENT_INACTIVE)).map
            (fun r => (⟨r.id, r.designation, r.type, r.status⟩ : EquipmentRow))) ∧
      (∀ s : System, step s .listEquipments = some s) ∧
      (∀ (head : List Equipment) (id : Int), (∃ x ∈ head, x.id = id) →
        ∃ pre r post, head = pre ++ r :: post ∧ (∀ x ∈ pre, x.id ≠ id) ∧ r.id = id ∧
          { r with status := .EQUIPMENT_INACTIVE } ∈ (deleteEquipment head id).1 ∧
          (listEquipments (deleteEquipment head id).1).rows =
            (listEquipments pre).rows ++ (listEquipments post).rows)) ∧
    ((∀ head : List Occurrence,
        (listOccurrences head).rows =
          (head.filter fun r => decide (r.status ≠ .OCCURRENCE_INACTIVE)).map
            (fun r => (⟨r.id, r.location, r.priority, r.status⟩ : OccurrenceRow))) ∧
      (∀ s : System, step s .listOccurrences = some s) ∧
      (∀ (head : List Occurrence) (id : Int), (∃ x ∈ head, x.id = id) →
        ∃ pre r post, head = pre ++ r :: post ∧ (∀ x ∈ pre, x.id ≠ id) ∧ r.id = id ∧
          { r with status := .OCCURRENCE_INACTIVE } ∈ (deleteOccurrence head id).1 ∧
          (listOccurrences (deleteOccurrence head id).1).rows =
            (listOccurrences pre).rows ++ (listOccurrences post).rows)) ∧
    ((∀ head : List Intervention,
        (listInterventions head).rows =
          (head.filter fun r => decide (r.status ≠ .INTERVENTION_INACTIVE)).map
            (fun r => (⟨r.id, r.idOccurrence,
            if r.status = .IN_PLANNING then "Planeamento"
            else if r.status = .RUNNING then "Em Curso" else "Concluída"⟩ : InterventionRow))) ∧
      (∀ s : System, step s .listInterventions = some s) ∧
      (∀ (head : List Intervention) (id : Int), (∃ x ∈ head, x.id = id) →
        ∃ pre r post, head = pre ++ r :: post ∧ (∀ x ∈ pre, x.id ≠ id) ∧ r.id = id ∧
          { r with status := .INTERVENTION_INACTIVE } ∈ (deleteIntervention head id).1 ∧
          (listInterventions (deleteIntervention head id).1).rows =
            (listInterventions pre).rows ++ (listInterventions post).rows)) :=
  ⟨⟨fun head => by rw [listFirefighters_rows, listFirefightersLoop_eq], fun _ => rfl,
      listFirefighters_after_delete⟩,
    ⟨fun head => by rw [listEquipments_rows, listEquipmentsLoop_eq], fun _ => rfl,
      listEquipments_after_delete⟩,
    ⟨fun head => by rw [listOccurrences_rows, listOccurrencesLoop_eq], fun _ => rfl,
      listOccurrences_after_delete⟩,
    ⟨fun head => by rw [listInterventions_rows, listInterventionsLoop_eq], fun _ => rfl,
      listInterventions_after_delete⟩⟩

/-- Witness for C5: after deleting id 3 of `sampleCrew` the listing shows only
the firefighter with id 1, although three records remain stored. -/
theorem listing_shows_active_records_witness :
    (listFirefighters (deleteFirefighter sampleCrew 3).1).rows =
      [⟨1, "Ana", "Resgate", .AVAILABLE, 4⟩] ∧
    (deleteFirefighter sampleCrew 3).1.length = 3 ∧
    ∃ pre r post, sampleCrew = pre ++ r :: post ∧ (∀ x ∈ pre, x.id ≠ 3) ∧ r.id = 3 ∧
      { r with status := .FIREFIGHTER_INACTIVE } ∈ (deleteFirefighter sampleCrew 3).1 ∧
      (listFirefighters (deleteFirefighter sampleCrew 3).1).rows =
        (listFirefighters pre).rows ++ (listFirefighters post).rows :=
  ⟨by decide, by decide,
    listing_shows_active_records.1.2.2 sampleCrew 3 ⟨⟨3, "Eva", "Chefe", .BUSY, 2, 0⟩,
      by decide, rfl⟩⟩

/-! ## C6: an id that no record carries -/

theorem updateFirefighter_absent (head : List Firefighter) (id : Int) (st : Fin 3)
    (h : ∀ x ∈ head, x.id ≠ id) : updateFirefighter head id st = (head, .notFound) := by
  rw [updateFirefighter_eq]
  apply scanUpdate_absent
  intro x hx hp
  exact h x hx hp.1

theorem deleteFirefighter_absent (head : List Firefighter) (id : Int) (h : ∀ x ∈ head, x.id ≠ id) :
    deleteFirefighter head id = (head, .notFound) := by
  rw [deleteFirefighter_eq]
  exact scanUpdate_absent _ _ _ h

theorem updateEquipment_absent (head : List Equipment) (id : Int) (st : Fin 3)
    (h : ∀ x ∈ head, x.id ≠ id) : updateEquipment head id st = (head, .notFound) := by
  rw [updateEquipment_eq]
  apply scanUpdate_absent
  intro x hx hp
  exact h x hx hp.1

theorem deleteEquipment_absent (head : List Equipment) (id : Int) (h : ∀ x ∈ head, x.id ≠ id) :
    deleteEquipment head id = (head, .notFound) := by
  rw [deleteEquipment_eq]
  exact scanUpdate_absent _ _ _ h

theorem updateOccurrence_absent (head : List Occurrence) (id : Int) (st : Fin 3) (endedAt : DateTime)
    (h : ∀ x ∈ head, x.id ≠ id) : updateOccurrence head id st endedAt = (head, .notFound) := by
  rw [updateOccurrence_eq]
  apply scanUpdate_absent
  intro x hx hp
  exact h x hx hp.1

theorem deleteOccurrence_absent (head : List Occurrence) (id : Int) (h : ∀ x ∈ head, x.id ≠ id) :
    deleteOccurrence head id = (head, .notFound) := by
  rw [deleteOccurrence_eq]
  exact scanUpdate_absent _ _ _ h

theorem updateIntervention_absent (head : List Intervention) (id : Int) (st : Fin 3) (day hour minute : Int)
    (h : ∀ x ∈ head, x.id ≠ id) : updateIntervention head id st day hour minute = (head, .notFound) := by
  rw [updateIntervention_eq]
  apply scanUpdate_absent
  intro x hx hp
  exact h x hx hp

theorem deleteIntervention_absent (head : List Intervention) (id : Int) (h : ∀ x ∈ head, x.id ≠ id) :
    deleteIntervention head id = (head, .notFound) := by
  rw [deleteIntervention_eq]
  exact scanUpdate_absent _ _ _ h

/-- C6: for every kind, every store and every id that no record of the store
carries, the status update (whatever the values typed for it) and the soft
delete both fall through their loop and return the store exactly as it was. -/
theorem absent_id_is_not_found :
    (∀ (head : List Firefighter) (id : Int) (st : Fin 3), (∀ x ∈ head, x.id ≠ id) →
      updateFirefighter head id st = (head, .notFound) ∧
      deleteFirefighter head id = (head, .notFound)) ∧
    (∀ (head : List Equipment) (id : Int) (st : Fin 3), (∀ x ∈ head, x.id ≠ id) →
      updateEquipment head id st = (head, .notFound) ∧
      deleteEquipment head id = (head, .notFound)) ∧
    (∀ (head : List Occurrence) (id : Int) (st : Fin 3) (endedAt : DateTime),
      (∀ x ∈ head, x.id ≠ id) →
      updateOccurrence head id st endedAt = (head, .notFound) ∧
      deleteOccurrence head id = (head, .notFound)) ∧
    (∀ (head : List Intervention) (id : Int) (st : Fin 3) (day hour minute : Int),
      (∀ x ∈ head, x.id ≠ id) →
      updateIntervention head id st day hour minute = (head, .notFound) ∧
      deleteIntervention head id = (head, .notFound)) :=
  ⟨fun head id st h => ⟨updateFirefighter_absent head id st h, deleteFirefighter_absent head id h⟩,
    fun head id st h => ⟨updateEquipment_absent head id st h, deleteEquipment_absent head id h⟩,
    fun head id st endedAt h =>
      ⟨updateOccurrence_absent head id st endedAt h, deleteOccurrence_absent head id h⟩,
    fun head id st day hour minute h =>
      ⟨updateIntervention_absent head id st day hour minute h,
        deleteIntervention_absent head id h⟩⟩

/-- Witness for C6: id 9 is carried by no record of `sampleCrew`. -/
theorem absent_id_is_not_found_witness :
    (∀ x ∈ sampleCrew, x.id ≠ 9) ∧
    updateFirefighter sampleCrew 9 1 = (sampleCrew, .notFound) ∧
    deleteFirefighter sampleCrew 9 = (sampleCrew, .notFound) :=
  ⟨by decide, absent_id_is_not_found.1 sampleCrew 9 1 (by decide)⟩

/-! ## C7: status updates of firefighters, equipment and occurrences -/

theorem nodup_map_split {α β : Type} (g : α → β) (l : List α) (r : α)
    (hnd : (l.map g).Nodup) (hr : r ∈ l) :
    ∃ pre post, l = pre ++ r :: post ∧ (∀ x ∈ pre, g x ≠ g r) ∧ ∀ x ∈ post, g x ≠ g r := by
  obtain ⟨pre, post, rfl⟩ := List.append_of_mem hr
  refine ⟨pre, post, rfl, ?_, ?_⟩
  · intro x hx heq
    rw [List.map_append, List.map_cons] at hnd
    have hdis := (List.nodup_append.1 hnd).2.2
    exact hdis (List.mem_map.2 ⟨x, hx, rfl⟩) (by rw [heq]; exact List.mem_cons_self _ _)
  · intro x hx heq
    rw [List.map_append, List.map_cons] at hnd
    have hc := (List.nodup_cons.1 (List.nodup_append.1 hnd).2.1).1
    exact hc (by rw [← heq]; exact List.mem_map.2 ⟨x, hx, rfl⟩)

theorem updateFirefighter_unique (head : List Firefighter) (id : Int) (st : Fin 3) (r : Firefighter)
    (hnd : (head.map fun x => x.id).Nodup) (hr : r ∈ head) (hid : r.id = id) :
    (r.status = .FIREFIGHTER_INACTIVE → updateFirefighter head id st = (head, .notFound)) ∧
    (r.status ≠ .FIREFIGHTER_INACTIVE →
      ∃ pre post, head = pre ++ r :: post ∧
        updateFirefighter head id st =
          (pre ++ { r with status := FirefighterStatus.ofInput st } :: post, .done)) := by
  obtain ⟨pre, post, rfl, hpre, hpost⟩ := nodup_map_split (fun x : Firefighter => x.id) head r hnd hr
  simp only [hid] at hpre hpost
  rw [updateFirefighter_eq]
  refine ⟨fun hs => ?_, fun hs => ⟨pre, post, rfl, ?_⟩⟩
  · apply scanUpdate_absent
    intro x hx hp
    rcases List.mem_append.1 hx with h | h
    · exact hpre x h hp.1
    · rcases List.mem_cons.1 h with rfl | h
      · exact hp.2 hs
      · exact hpost x h hp.1
  · exact scanUpdate_found _ _ pre post r (fun x hx hp => hpre x hx hp.1) ⟨hid, hs⟩

theorem updateEquipment_unique (head : List Equipment) (id : Int) (st : Fin 3) (r : Equipment)
    (hnd : (head.map fun x => x.id).Nodup) (hr : r ∈ head) (hid : r.id = id) :
    (r.status = .EQUIPMENT_INACTIVE → updateEquipment head id st = (head, .notFound)) ∧
    (r.status ≠ .EQUIPMENT_INACTIVE →
      ∃ pre post, head = pre ++ r :: post ∧
        updateEquipment head id st =
          (pre ++ { r with status := EquipmentStatus.ofInput st } :: post, .done)) := by
  obtain ⟨pre, post, rfl, hpre, hpost⟩ := nodup_map_split (fun x : Equipment => x.id) head r hnd hr
  simp only [hid] at hpre hpost
  rw [updateEquipment_eq]
  refine ⟨fun hs => ?_, fun hs => ⟨pre, post, rfl, ?_⟩⟩
  · apply scanUpdate_absent
    intro x hx hp
    rcases List.mem_append.1 hx with h | h
    · exact hpre x h hp.1
    · rcases List.mem_cons.1 h with rfl | h
      · exact hp.2 hs
      · exact hpost x h hp.1
  · exact scanUpdate_found _ _ pre post r (fun x hx hp => hpre x hx hp.1) ⟨hid, hs⟩

theorem updateOccurrence_unique (head : List Occurrence) (id : Int) (st : Fin 3) (endedAt : DateTime) (r : Occurrence)
    (hnd : (head.map fun x => x.id).Nodup) (hr : r ∈ head) (hid : r.id = id) :
    (r.status = .OCCURRENCE_INACTIVE → updateOccurrence head id st endedAt = (head, .notFound)) ∧
    (r.status ≠ .OCCURRENCE_INACTIVE →
      ∃ pre post, head = pre ++ r :: post ∧
        updateOccurrence head id st endedAt =
          (pre ++ { r with
                status := OccurrenceStatus.ofInput st,
                endedAt := if st = 2 then endedAt else r.endedAt } :: post, .done)) := by
  obtain ⟨pre, post, rfl, hpre, hpost⟩ := nodup_map_split (fun x : Occurrence => x.id) head r hnd hr
  simp only [hid] at hpre hpost
  rw [updateOccurrence_eq]
  refine ⟨fun hs => ?_, fun hs => ⟨pre, post, rfl, ?_⟩⟩
  · apply scanUpdate_absent
    intro x hx hp
    rcases List.mem_append.1 hx with h | h
    · exact hpre x h hp.1
    · rcases List.mem_cons.1 h with rfl | h
      · exact hp.2 hs
      · exact hpost x h hp.1
  · exact scanUpdate_found _ _ pre post r (fun x hx hp => hpre x hx hp.1) ⟨hid, hs⟩

/-- C7: in a firefighter, equipment or occurrence store with pairwise distinct
ids, a status update aimed at the id of a record that is Inactive falls through
to the not-found exit and returns the store unchanged, while aimed at the id of
a record that is not Inactive it takes the success exit and replaces exactly
that record by the same record with the new status (for an occurrence, also
with the typed end date when the new status is Resolved); every other record
stays as it was. -/
theorem update_guards_inactive :
    (∀ (head : List Firefighter) (id : Int) (st : Fin 3) (r : Firefighter),
      (head.map fun x => x.id).Nodup → r ∈ head → r.id = id →
      (r.status = .FIREFIGHTER_INACTIVE → updateFirefighter head id st = (head, .notFound)) ∧
      (r.status ≠ .FIREFIGHTER_INACTIVE →
        ∃ pre post, head = pre ++ r :: post ∧
          updateFirefighter head id st =
            (pre ++ { r with status := FirefighterStatus.ofInput st } :: post, .done))) ∧
    (∀ (head : List Equipment) (id : Int) (st : Fin 3) (r : Equipment),
      (head.map fun x => x.id).Nodup → r ∈ head → r.id = id →
      (r.status = .EQUIPMENT_INACTIVE → updateEquipment head id st = (head, .notFound)) ∧
      (r.status ≠ .EQUIPMENT_INACTIVE →
        ∃ pre post, head = pre ++ r :: post ∧
          updateEquipment head id st =
            (pre ++ { r with status := EquipmentStatus.ofInput st } :: post, .done))) ∧
    (∀ (head : List Occurrence) (id : Int) (st : Fin 3) (endedAt : DateTime) (r : Occurrence),
      (head.map fun x => x.id).Nodup → r ∈ head → r.id = id →
      (r.status = .OCCURRENCE_INACTIVE → updateOccurrence head id st endedAt = (head, .notFound)) ∧
      (r.status ≠ .OCCURRENCE_INACTIVE →
        ∃ pre post, head = pre ++ r :: post ∧
          updateOccurrence head id st endedAt =
            (pre ++ { r with
                status := OccurrenceStatus.ofInput st,
                endedAt := if st = 2 then endedAt else r.endedAt } :: post, .done))) :=
  ⟨updateFirefighter_unique, updateEquipment_unique, updateOccurrence_unique⟩

/-- Witness for C7: in `sampleFleet` the update of id 2 (Inactive) is refused and
the update of id 1 (in use) sets its status to Maintenance. -/
theorem update_guards_inactive_witness :
    updateEquipment sampleFleet 2 0 = (sampleFleet, .notFound) ∧
    ∃ pre post, sampleFleet = pre ++ ⟨1, "Autotanque", "Viatura", .IN_USE⟩ :: post ∧
      updateEquipment sampleFleet 1 2 =
        (pre ++ { (⟨1, "Autotanque", "Viatura", .IN_USE⟩ : Equipment) with
                  status := EquipmentStatus.ofInput 2 } :: post, .done) :=
  ⟨(update_guards_inactive.2.1 sampleFleet 2 0 ⟨2, "Mangueira 20m", "Mangueira",
      .EQUIPMENT_INACTIVE⟩ (by decide) (by decide) rfl).1 rfl,
    (update_guards_inactive.2.1 sampleFleet 1 2 ⟨1, "Autotanque", "Viatura", .IN_USE⟩
      (by decide) (by decide) rfl).2 (by decide)⟩

/-! ## C8: status update of an Inactive intervention -/

/-- C8 fails on the code: `updateIntervention` has no Inactive guard.  Aimed at
the cancelled intervention of `sampleCancelled` with new status 2 and end
5 10:30, it takes the success exit, makes the record Finished again and
overwrites the day, hour and minute of its end. -/
theorem updateIntervention_revives_inactive :
    updateIntervention sampleCancelled 1 2 5 10 30 =
      ([⟨1, 10, ⟨3, 5, 2025, 8, 0⟩, ⟨5, 0, 0, 10, 30⟩, .FINISHED, 7⟩], .done) ∧
    (updateIntervention sampleCancelled 1 2 5 10 30).2 ≠ .notFound ∧
    (updateIntervention sampleCancelled 1 2 5 10 30).1 ≠ sampleCancelled ∧
    updateFirefighter [⟨1, "Ana", "Resgate", .FIREFIGHTER_INACTIVE, 0, 0⟩] 1 0 =
      ([⟨1, "Ana", "Resgate", .FIREFIGHTER_INACTIVE, 0, 0⟩], .notFound) := by
  decide

/-! ## C9: the intervention counter of a firefighter -/

theorem firefighter_add_zero (r : Firefighter) :
    { r with totalInterventions := r.totalInterventions + ((0 : Nat) : Int) } = r := by
  cases r; simp

theorem step_interventionAction (s : System) (op : Op) (f : Int)
    (pre post : List Firefighter) (r : Firefighter)
    (hs : s.listFirefighters = pre ++ r :: post) (hpre : ∀ x ∈ pre, x.id ≠ f)
    (hid : r.id = f) (hop : interventionActionFor f op = true) :
    (∀ s1, step s op = some s1 →
      s1.listFirefighters =
        pre ++ { r with totalInterventions :=
                   r.totalInterventions + ((if createsIntervention op then 1 else 0 : Nat) : Int) }
          :: post ∧
      s1.idIntervention =
        s.idIntervention + ((if createsIntervention op then 1 else 0 : Nat) : Int)) ∧
    (r.totalInterventions + ((if createsIntervention op then 1 else 0 : Nat) : Int) ≤ INT_MAX →
      s.idIntervention + ((if createsIntervention op then 1 else 0 : Nat) : Int) ≤ INT_MAX →
      ∃ s1, step s op = some s1) := by
  cases op with
  | createIntervention alloc occId start fId uninit =>
    have hf : fId = f := by simpa [interventionActionFor] using hop
    subst hf
    cases alloc with
    | false =>
      simp only [step, createIntervention, createsIntervention]
      refine ⟨fun s1 h1 => ?_, fun _ _ => ⟨_, rfl⟩⟩
      simp at h1; subst h1
      simp [hs, firefighter_add_zero]
    | true =>
      have hfound := createInterventionAssign_found pre post r fId hpre hid
      simp only [createsIntervention, if_true, Nat.cast_one]
      refine ⟨fun s1 h1 => ?_, fun h1 h2 => ?_⟩
      · simp only [step] at h1
        cases hc : createIntervention true s.listInterventions s.listOccurrences
            s.listFirefighters s.listEquipments s.idIntervention occId start fId uninit with
        | none => simp [hc] at h1
        | some res =>
          simp only [hc, Option.some.injEq] at h1; subst h1
          obtain ⟨_, fire, hfire, rfl⟩ := (createIntervention_eq_some _ _ _ _ _ _ _ _ _ _).1 hc
          rw [hs, hfound] at hfire
          by_cases hlt : r.totalInterventions < INT_MAX
          · simp only [hlt, if_true, Option.some.injEq] at hfire
            subst hfire
            exact ⟨rfl, rfl⟩
          · simp [hlt] at hfire
      · have hlt : r.totalInterventions < INT_MAX := by omega
        have hlt2 : s.idIntervention < INT_MAX := by omega
        have hfire : createInterventionAssign s.listFirefighters fId =
            some (pre ++ { r with totalInterventions := r.totalInterventions + 1 } :: post) := by
          rw [hs, hfound]; simp [hlt]
        have hc := (createIntervention_eq_some s.listInterventions s.listOccurrences
          s.listFirefighters s.listEquipments s.idIntervention occId fId start uninit _).2
          ⟨hlt2, _, hfire, rfl⟩
        simp only [step, hc]
        exact ⟨_, rfl⟩
  | updateIntervention id st day hour minute =>
    simp only [step, createsIntervention]
    refine ⟨fun s1 h1 => ?_, fun _ _ => ⟨_, rfl⟩⟩
    simp at h1; subst h1
    simp [hs, firefighter_add_zero]
  | deleteIntervention id =>
    simp only [step, createsIntervention]
    refine ⟨fun s1 h1 => ?_, fun _ _ => ⟨_, rfl⟩⟩
    simp at h1; subst h1
    simp [hs, firefighter_add_zero]
  | _ => simp [interventionActionFor] at hop

theorem run_interventionActions (ops : List Op) (f : Int) (pre post : List Firefighter)
    (hpre : ∀ x ∈ pre, x.id ≠ f) :
    ∀ (s : System) (r : Firefighter), s.listFirefighters = pre ++ r :: post → r.id = f →
      (∀ op ∈ ops, interventionActionFor f op = true) →
      (∀ s', run s ops = some s' →
        s'.listFirefighters =
          pre ++ { r with totalInterventions :=
                     r.totalInterventions + ((ops.countP createsIntervention : Nat) : Int) }
            :: post) ∧
      (r.totalInterventions + ((ops.countP createsIntervention : Nat) : Int) ≤ INT_MAX →
        s.idIntervention + ((ops.countP createsIntervention : Nat) : Int) ≤ INT_MAX →
        ∃ s', run s ops = some s') := by
  induction ops with
  | nil =>
    intro s r hs hid _
    refine ⟨fun s' h => ?_, fun _ _ => ⟨s, rfl⟩⟩
    simp [run] at h; subst h
    simp [hs, firefighter_add_zero]
  | cons op ops ih =>
    intro s r hs hid hops
    have hop := hops op (List.mem_cons_self _ _)
    have hrest : ∀ o ∈ ops, interventionActionFor f o = true :=
      fun o ho => hops o (List.mem_cons_of_mem _ ho)
    obtain ⟨hstep, hdef⟩ := step_interventionAction s op f pre post r hs hpre hid hop
    have hcount : ((List.countP createsIntervention (op :: ops) : Nat) : Int) =
        ((if createsIntervention op then 1 else 0 : Nat) : Int) +
          ((ops.countP createsIntervention : Nat) : Int) := by
      rw [List.countP_cons]; push_cast; ring
    rw [hcount]
    refine ⟨fun s' h => ?_, fun h1 h2 => ?_⟩
    · simp only [run] at h
      cases hs1 : step s op with
      | none => simp [hs1] at h
      | some s1 =>
        simp only [hs1] at h
        obtain ⟨hl, _⟩ := hstep s1 hs1
        have := (ih s1 _ hl hid hrest).1 s' h
        rw [this]
        simp only [add_assoc]
    · have hk : (0 : Int) ≤ ((ops.countP createsIntervention : Nat) : Int) :=
        Int.ofNat_nonneg _
      obtain ⟨s1, hs1⟩ := hdef (by omega) (by omega)
      obtain ⟨hl, hi⟩ := hstep s1 hs1
      obtain ⟨s', hs'⟩ := (ih s1 _ hl hid hrest).2 (by simp only; omega) (by rw [hi]; omega)
      exact ⟨s', by simp only [run, hs1, hs']⟩

theorem map_bump_split (f : Int) (n : Int) (pre post : List Firefighter) (r : Firefighter)
    (hpre : ∀ x ∈ pre, x.id ≠ f) (hpost : ∀ x ∈ post, x.id ≠ f) (hid : r.id = f) :
    (pre ++ r :: post).map
        (fun x => if x.id = f then
            { x with totalInterventions := x.totalInterventions + n } else x) =
      pre ++ { r with totalInterventions := r.totalInterventions + n } :: post := by
  have h1 : ∀ l : List Firefighter, (∀ x ∈ l, x.id ≠ f) →
      l.map (fun x => if x.id = f then
        { x with totalInterventions := x.totalInterventions + n } else x) = l := by
    intro l hl
    induction l with
    | nil => rfl
    | cons x xs ih =>
      have hx := hl x (List.mem_cons_self _ _)
      simp [hx, ih (fun y hy => hl y (List.mem_cons_of_mem _ hy))]
  simp [List.map_append, h1 pre hpre, h1 post hpost, hid]

/-- C9: in a firefighter store with pairwise distinct ids that holds a
firefighter with id `f` (of any status), a sequence of intervention-menu actions
— creates assigning `f`, status updates and soft deletes of interventions, in
any order — that creates `n` interventions leaves every firefighter as it was
except that the `totalInterventions` of firefighter `f` has grown by exactly
`n`, no other field of it changing; the sequence runs to completion whenever
that counter and the id counter have room for `n` increments. -/
theorem intervention_creates_bump_counter (s : System) (ops : List Op) (f : Int)
    (r : Firefighter) (hnd : (s.listFirefighters.map fun x => x.id).Nodup)
    (hr : r ∈ s.listFirefighters) (hid : r.id = f)
    (hops : ∀ op ∈ ops, interventionActionFor f op = true) :
    (r.totalInterventions + ((ops.countP createsIntervention : Nat) : Int) ≤ INT_MAX →
      s.idIntervention + ((ops.countP createsIntervention : Nat) : Int) ≤ INT_MAX →
      (run s ops).isSome = true) ∧
    ∀ s', run s ops = some s' →
      s'.listFirefighters =
        s.listFirefighters.map
          (fun x => if x.id = f then
            { x with totalInterventions :=
                x.totalInterventions + ((ops.countP createsIntervention : Nat) : Int) }
            else x) := by
  obtain ⟨pre, post, hs, hpre, hpost⟩ :=
    nodup_map_split (fun x : Firefighter => x.id) s.listFirefighters r hnd hr
  simp only [hid] at hpre hpost
  obtain ⟨hres, hdef⟩ := run_interventionActions ops f pre post hpre s r hs hid hops
  refine ⟨fun h1 h2 => ?_, fun s' h => ?_⟩
  · obtain ⟨s', hs'⟩ := hdef h1 h2
    rw [hs']; rfl
  · rw [hres s' h, hs, map_bump_split f _ pre post r hpre hpost hid]

/-- Witness for C9: two interventions created for firefighter 7, one later
finished and reopened and the other cancelled, raise that firefighter's counter
from 3 to 5 and leave firefighter 8 untouched. -/
theorem intervention_creates_bump_counter_witness :
    run sampleBrigade sampleDispatch = some sampleDispatched ∧
    sampleDispatch.countP createsIntervention = 2 ∧
    sampleDispatched.listFirefighters =
      [⟨8, "Eva", "Chefe", .AVAILABLE, 0, 0⟩, ⟨7, "Rui", "Condutor", .BUSY, 3 + 2, 0⟩] ∧
    sampleDispatched.listFirefighters =
      sampleBrigade.listFirefighters.map
        (fun x => if x.id = 7 then
          { x with totalInterventions :=
              x.totalInterventions + ((sampleDispatch.countP createsIntervention : Nat) : Int) }
          else x) :=
  ⟨by decide, by decide, by decide,
    (intervention_creates_bump_counter sampleBrigade sampleDispatch 7
      ⟨7, "Rui", "Condutor", .BUSY, 3, 0⟩ (by decide) (by decide) rfl (by decide)).2
      sampleDispatched (by decide)⟩

/-! ## C10: dangling references -/

/-- C10: an intervention is created whatever its references point to.  With the
node allocated and the id counter `n` below `INT_MAX`: when no firefighter has
the id `fId`, then for every occurrence store (so also when `occId` matches no
occurrence) the result is the new record with id `n + 1`, status InPlanning and
`occId` and `fId` stored as typed, linked in front of the store, the firefighter
store exactly as it was and the counter `n + 1`; when the firefighter counters
have room the same record is created for every `occId` and `fId`, the
firefighter store keeping its ids.  The creation of an intervention never
changes the occurrence store, its counter, the equipment store or its counter. -/
theorem dangling_references_accepted :
    (∀ (head : List Intervention) (occHead : List Occurrence) (fireHead : List Firefighter)
      (equipHead : List Equipment) (n occId : Int) (start : DateTime) (fId : Int)
      (uninit : DateTime),
      n < INT_MAX → (∀ x ∈ fireHead, x.id ≠ fId) →
      createIntervention true head occHead fireHead equipHead n occId start fId uninit =
        some ({ id := n + 1, idOccurrence := occId, start := start,
                «end» := { uninit with day := 0, year := 0 }, status := .IN_PLANNING,
                assignedFirefighterId := fId } :: head, fireHead, n + 1)) ∧
    (∀ (head : List Intervention) (occHead : List Occurrence) (fireHead : List Firefighter)
      (equipHead : List Equipment) (n occId : Int) (start : DateTime) (fId : Int)
      (uninit : DateTime),
      n < INT_MAX → (∀ x ∈ fireHead, x.totalInterventions < INT_MAX) →
      ∃ fire, fire.map (fun x => x.id) = fireHead.map (fun x => x.id) ∧
        createIntervention true head occHead fireHead equipHead n occId start fId uninit =
          some ({ id := n + 1, idOccurrence := occId, start := start,
                  «end» := { uninit with day := 0, year := 0 }, status := .IN_PLANNING,
                  assignedFirefighterId := fId } :: head, fire, n + 1)) ∧
    (∀ (s s' : System) (alloc : Bool) (occId : Int) (start : DateTime) (fId : Int)
      (uninit : DateTime),
      step s (.createIntervention alloc occId start fId uninit) = some s' →
      s'.listOccurrences = s.listOccurrences ∧ s'.idOccurrence = s.idOccurrence ∧
      s'.listEquipments = s.listEquipments ∧ s'.idEquipment = s.idEquipment) := by
  refine ⟨?_, ?_, ?_⟩
  · intro head occHead fireHead equipHead n occId start fId uninit hn hf
    exact (createIntervention_eq_some head occHead fireHead equipHead n occId fId start
      uninit _).2 ⟨hn, fireHead, createInterventionAssign_absent hf, rfl⟩
  · intro head occHead fireHead equipHead n occId start fId uninit hn hf
    obtain ⟨fire, hfire⟩ := createInterventionAssign_isSome fireHead fId hf
    exact ⟨fire, createInterventionAssign_map_id hfire,
      (createIntervention_eq_some head occHead fireHead equipHead n occId fId start
        uninit _).2 ⟨hn, fire, hfire, rfl⟩⟩
  · intro s s' alloc occId start fId uninit h
    simp only [step] at h
    cases hc : createIntervention alloc s.listInterventions s.listOccurrences
        s.listFirefighters s.listEquipments s.idIntervention occId start fId uninit with
    | none => simp [hc] at h
    | some r =>
      simp only [hc, Option.some.injEq] at h
      subst h
      exact ⟨rfl, rfl, rfl, rfl⟩

/-- Witness for C10: with no occurrence at all and no firefighter with id 42, an
intervention referring to occurrence 99 and firefighter 42 is created with id 1
and `sampleCrew` is left as it was. -/
theorem dangling_references_accepted_witness :
    (∀ x ∈ sampleCrew, x.id ≠ 42) ∧
    createIntervention true [] [] sampleCrew [] 0 99 ⟨3, 5, 2025, 8, 0⟩ 42 ⟨1, 1, 1, 1, 1⟩ =
      some ([⟨1, 99, ⟨3, 5, 2025, 8, 0⟩, ⟨0, 1, 0, 1, 1⟩, .IN_PLANNING, 42⟩], sampleCrew, 0 + 1) :=
  ⟨by decide,
    dangling_references_accepted.1 [] [] sampleCrew [] 0 99 ⟨3, 5, 2025, 8, 0⟩ 42
      ⟨1, 1, 1, 1, 1⟩ (by decide) (by decide)⟩

/-! ## Shared lemmas: checked arithmetic and durations -/

theorem mulInt_eq_some {a b c : Int} :
    mulInt a b = some c ↔ (INT_MIN ≤ a * b ∧ a * b ≤ INT_MAX) ∧ c = a * b := by
  unfold mulInt
  split <;> simp_all [eq_comm]

theorem addInt_eq_some {a b c : Int} :
    addInt a b = some c ↔ (INT_MIN ≤ a + b ∧ a + b ≤ INT_MAX) ∧ c = a + b := by
  unfold addInt
  split <;> simp_all [eq_comm]

theorem addInt_of_range {a b : Int} (h : INT_MIN ≤ a + b ∧ a + b ≤ INT_MAX) :
    addInt a b = some (a + b) :=
  addInt_eq_some.2 ⟨h, rfl⟩

theorem mulInt_of_range {a b : Int} (h : INT_MIN ≤ a * b ∧ a * b ≤ INT_MAX) :
    mulInt a b = some (a * b) :=
  mulInt_eq_some.2 ⟨h, rfl⟩

/-- When the `int` expression has a value, it is the linearized minutes. -/
theorem minutesExpr_eq_some {t : DateTime} {v : Int} (h : minutesExpr t = some v) :
    v = linearizedMinutes t := by
  unfold minutesExpr at h
  cases hy : mulInt t.year 525600 with
  | none => simp [hy] at h
  | some y =>
    cases hm : mulInt t.month 43200 with
    | none => simp [hy, hm] at h
    | some m =>
      cases hd : mulInt t.day 1440 with
      | none => simp [hy, hm, hd] at h
      | some d =>
        cases hh : mulInt t.hour 60 with
        | none => simp [hy, hm, hd, hh] at h
        | some hr =>
          simp only [hy, hm, hd, hh] at h
          cases h1 : addInt y m with
          | none => simp [h1] at h
          | some ym =>
            simp only [h1] at h
            cases h2 : addInt ym d with
            | none => simp [h2] at h
            | some ymd =>
              simp only [h2] at h
              cases h3 : addInt ymd hr with
              | none => simp [h3] at h
              | some ymdh =>
                simp only [h3] at h
                have e1 := (mulInt_eq_some.1 hy).2
                have e2 := (mulInt_eq_some.1 hm).2
                have e3 := (mulInt_eq_some.1 hd).2
                have e4 := (mulInt_eq_some.1 hh).2
                have e5 := (addInt_eq_some.1 h1).2
                have e6 := (addInt_eq_some.1 h2).2
                have e7 := (addInt_eq_some.1 h3).2
                have e8 := (addInt_eq_some.1 h).2
                unfold linearizedMinutes
                omega

/-- In the ranges of `readDateTime` every product and every partial sum of the
`int` expression is representable. -/
theorem minutesExpr_valid {t : DateTime} (h : ValidDateTime t) :
    minutesExpr t = some (linearizedMinutes t) := by
  obtain ⟨⟨d1, d2⟩, ⟨m1, m2⟩, ⟨y1, y2⟩, ⟨h1, h2⟩, ⟨n1, n2⟩⟩ := h
  unfold minutesExpr linearizedMinutes
  rw [mulInt_of_range (by simp only [INT_MIN, INT_MAX]; omega),
    mulInt_of_range (by simp only [INT_MIN, INT_MAX]; omega),
    mulInt_of_range (by simp only [INT_MIN, INT_MAX]; omega),
    mulInt_of_range (by simp only [INT_MIN, INT_MAX]; omega)]
  simp only
  rw [addInt_of_range (by simp only [INT_MIN, INT_MAX]; omega)]
  simp only
  rw [addInt_of_range (by simp only [INT_MIN, INT_MAX]; omega)]
  simp only
  rw [addInt_of_range (by simp only [INT_MIN, INT_MAX]; omega)]
  simp only
  rw [addInt_of_range (by simp only [INT_MIN, INT_MAX]; omega)]

theorem linearizedMinutes_valid_bounds {t : DateTime} (h : ValidDateTime t) :
    1061756640 ≤ linearizedMinutes t ∧ linearizedMinutes t ≤ 1067532479 := by
  obtain ⟨⟨d1, d2⟩, ⟨m1, m2⟩, ⟨y1, y2⟩, ⟨h1, h2⟩, ⟨n1, n2⟩⟩ := h
  unfold linearizedMinutes
  constructor <;> omega

theorem calcMinutes_eq_diffMinutes (s e : DateTime) : calcMinutes s e = diffMinutes s e := rfl

theorem diffMinutes_eq_some {s e : DateTime} {d : Int} (h : diffMinutes s e = some d) :
    d = linearizedMinutes e - linearizedMinutes s ∧ INT_MIN ≤ d ∧ d ≤ INT_MAX := by
  unfold diffMinutes at h
  cases h1 : minutesExpr s with
  | none => simp [h1] at h
  | some t1 =>
    cases h2 : minutesExpr e with
    | none => simp [h1, h2] at h
    | some t2 =>
      simp only [h1, h2] at h
      have e1 := minutesExpr_eq_some h1
      have e2 := minutesExpr_eq_some h2
      split at h
      · simp only [Option.some.injEq] at h
        subst h e1 e2
        rename_i hr
        exact ⟨rfl, hr.1, hr.2⟩
      · simp at h

theorem diffMinutes_of_minutes {s e : DateTime}
    (hs : minutesExpr s = some (linearizedMinutes s))
    (he : minutesExpr e = some (linearizedMinutes e))
    (hr : INT_MIN ≤ linearizedMinutes e - linearizedMinutes s ∧
      linearizedMinutes e - linearizedMinutes s ≤ INT_MAX) :
    diffMinutes s e = some (linearizedMinutes e - linearizedMinutes s) := by
  unfold diffMinutes
  simp only [hs, he, if_pos hr]

theorem diffMinutes_valid {s e : DateTime} (hs : ValidDateTime s) (he : ValidDateTime e) :
    diffMinutes s e = some (linearizedMinutes e - linearizedMinutes s) := by
  have b1 := linearizedMinutes_valid_bounds hs
  have b2 := linearizedMinutes_valid_bounds he
  apply diffMinutes_of_minutes (minutesExpr_valid hs) (minutesExpr_valid he)
  simp only [INT_MIN, INT_MAX]
  constructor <;> omega

/-! ## C14: the two duration helpers -/

/-- C14: `calcMinutes` and `diffMinutes` are the same function, and for all
date-times `s` and `e` whose fields lie in the ranges of `readDateTime` each
product and partial sum of the `int` expression is representable (the
expression has the value of the linearized minutes, between 1061756640 and
1067532479) and the result is `L e - L s` with
`L t = year*525600 + month*43200 + day*1440 + hour*60 + minute`; from
2025-01-01 08:00 to 2025-01-01 09:30 the result is 90. -/
theorem duration_helpers_agree :
    (∀ s e : DateTime, calcMinutes s e = diffMinutes s e) ∧
    (∀ s e : DateTime, ValidDateTime s → ValidDateTime e →
      minutesExpr s = some (linearizedMinutes s) ∧
      minutesExpr e = some (linearizedMinutes e) ∧
      (0 ≤ linearizedMinutes s ∧ linearizedMinutes s ≤ INT_MAX) ∧
      (0 ≤ linearizedMinutes e ∧ linearizedMinutes e ≤ INT_MAX) ∧
      calcMinutes s e = some (linearizedMinutes e - linearizedMinutes s) ∧
      diffMinutes s e = some (linearizedMinutes e - linearizedMinutes s)) ∧
    calcMinutes ⟨1, 1, 2025, 8, 0⟩ ⟨1, 1, 2025, 9, 30⟩ = some 90 ∧
    diffMinutes ⟨1, 1, 2025, 8, 0⟩ ⟨1, 1, 2025, 9, 30⟩ = some 90 := by
  refine ⟨fun _ _ => rfl, fun s e hs he => ?_, by decide, by decide⟩
  have b1 := linearizedMinutes_valid_bounds hs
  have b2 := linearizedMinutes_valid_bounds he
  refine ⟨minutesExpr_valid hs, minutesExpr_valid he, ⟨by omega, ?_⟩, ⟨by omega, ?_⟩,
    diffMinutes_valid hs he, diffMinutes_valid hs he⟩
  · simp only [INT_MAX]; omega
  · simp only [INT_MAX]; omega

/-- Witness for C14: from 2025-01-01 08:00 to 2025-01-01 09:30 both helpers
give 90. -/
theorem duration_helpers_agree_witness :
    calcMinutes ⟨1, 1, 2025, 8, 0⟩ ⟨1, 1, 2025, 9, 30⟩ = some 90 ∧
    diffMinutes ⟨1, 1, 2025, 8, 0⟩ ⟨1, 1, 2025, 9, 30⟩ = some 90 ∧
    calcMinutes ⟨1, 1, 2025, 8, 0⟩ ⟨1, 1, 2025, 9, 30⟩ =
      some (linearizedMinutes ⟨1, 1, 2025, 9, 30⟩ - linearizedMinutes ⟨1, 1, 2025, 8, 0⟩) :=
  ⟨by decide, by decide,
    (duration_helpers_agree.2.1 ⟨1, 1, 2025, 8, 0⟩ ⟨1, 1, 2025, 9, 30⟩ (by decide)
      (by decide)).2.2.2.2.1⟩

/-! ## Shared lemmas: intervention statistics -/

theorem positiveDurations_cons (r : Intervention) (next : List Intervention) :
    positiveDurations (r :: next) =
      if r.status = .FINISHED ∧ 0 < linearizedMinutes r.«end» - linearizedMinutes r.start then
        (linearizedMinutes r.«end» - linearizedMinutes r.start) :: positiveDurations next
      else positiveDurations next := by
  unfold positiveDurations
  by_cases h1 : r.status = .FINISHED
  · by_cases h2 : 0 < linearizedMinutes r.«end» - linearizedMinutes r.start
    · simp [h1, h2]
    · simp [h1, h2]
  · simp [h1]

theorem positiveDurations_pos (head : List Intervention) :
    ∀ d ∈ positiveDurations head, 0 < d := by
  intro d hd
  unfold positiveDurations at hd
  simpa using (List.mem_filter.1 hd).2

theorem positiveDurations_sum_nonneg (head : List Intervention) :
    0 ≤ (positiveDurations head).sum :=
  List.sum_nonneg fun d hd => le_of_lt (positiveDurations_pos head d hd)

theorem positiveDurations_length_le_sum (head : List Intervention) :
    ((positiveDurations head).length : Int) ≤ (positiveDurations head).sum := by
  induction head with
  | nil => simp [positiveDurations]
  | cons r next ih =>
    rw [positiveDurations_cons]
    split
    · rename_i h
      simp only [List.length_cons, List.sum_cons, Nat.cast_add, Nat.cast_one]
      omega
    · exact ih

/-- When the loop has a result, its counter has grown by the number of positive
durations and its sum by their sum. -/
theorem reportInterventionStatsLoop_eq_some (head : List Intervention) :
    ∀ (count total : Int) (r : Int × Int),
      reportInterventionStatsLoop head count total = some r →
      r = (count + (positiveDurations head).length, total + (positiveDurations head).sum) := by
  induction head with
  | nil =>
    intro count total r h
    simp [reportInterventionStatsLoop] at h
    subst h
    simp [positiveDurations]
  | cons data next ih =>
    intro count total r h
    unfold reportInterventionStatsLoop at h
    rw [positiveDurations_cons]
    by_cases hs : data.status = .FINISHED
    · simp only [hs, if_true] at h
      cases hd : diffMinutes data.start data.«end» with
      | none => simp [hd] at h
      | some dur =>
        simp only [hd] at h
        obtain ⟨hdur, _, _⟩ := diffMinutes_eq_some hd
        by_cases hp : dur > 0
        · simp only [hp, if_true] at h
          cases ha : addInt total dur with
          | none => simp [ha] at h
          | some t =>
            cases hc : incInt count with
            | none => simp [ha, hc] at h
            | some c =>
              simp only [ha, hc] at h
              have e1 := (addInt_eq_some.1 ha).2
              have e2 := (incInt_eq_some.1 hc).2
              have := ih c t r h
              rw [this, if_pos ⟨hs, by omega⟩]
              simp only [List.length_cons, List.sum_cons, Nat.cast_add, Nat.cast_one, ← hdur,
                Prod.mk.injEq]
              constructor <;> omega
        · simp only [hp, if_false] at h
          have := ih count total r h
          rw [this, if_neg (by intro hc; omega)]
    · simp only [hs, if_false] at h
      have := ih count total r h
      rw [this, if_neg (by intro hc; exact hs hc.1)]

/-- The loop has a result when every Finished intervention has a duration and
the counter and the sum have room. -/
theorem reportInterventionStatsLoop_isSome (head : List Intervention)
    (hd : ∀ r ∈ head, r.status = .FINISHED → (diffMinutes r.start r.«end»).isSome = true) :
    ∀ (count total : Int), 0 ≤ count → 0 ≤ total →
      count + (positiveDurations head).length ≤ INT_MAX →
      total + (positiveDurations head).sum ≤ INT_MAX →
      ∃ r, reportInterventionStatsLoop head count total = some r := by
  induction head with
  | nil => intro count total _ _ _ _; exact ⟨_, rfl⟩
  | cons data next ih =>
    intro count total hc0 ht0 hc ht
    have hnext : ∀ r ∈ next, r.status = .FINISHED →
        (diffMinutes r.start r.«end»).isSome = true :=
      fun r hr => hd r (List.mem_cons_of_mem _ hr)
    have hlen := positiveDurations_length_le_sum next
    have hsum := positiveDurations_sum_nonneg next
    rw [positiveDurations_cons] at hc ht
    unfold reportInterventionStatsLoop
    by_cases hs : data.status = .FINISHED
    · have hsome := hd data (List.mem_cons_self _ _) hs
      obtain ⟨dur, hdur⟩ := Option.isSome_iff_exists.1 hsome
      obtain ⟨hval, _, _⟩ := diffMinutes_eq_some hdur
      simp only [hs, if_true, hdur]
      by_cases hp : dur > 0
      · have hpos : 0 < linearizedMinutes data.«end» - linearizedMinutes data.start := by omega
        rw [if_pos ⟨hs, hpos⟩] at hc ht
        simp only [List.length_cons, List.sum_cons, Nat.cast_add, Nat.cast_one] at hc ht
        have ha : addInt total dur = some (total + dur) :=
          addInt_of_range ⟨by simp only [INT_MIN]; omega, by omega⟩
        have hi : incInt count = some (count + 1) := incInt_of_lt (by omega)
        simp only [hp, if_true, ha, hi]
        exact ih hnext _ _ (by omega) (by omega) (by omega) (by omega)
      · rw [if_neg (by intro hc'; omega)] at hc ht
        simp only [hp, if_false]
        exact ih hnext _ _ hc0 ht0 hc ht
    · rw [if_neg (by intro hc'; exact hs hc'.1)] at hc ht
      simp only [hs, if_false]
      exact ih hnext _ _ hc0 ht0 hc ht

theorem reportInterventionStats_eq_some (head : List Intervention) (stats : InterventionStats)
    (h : reportInterventionStats head = some stats) :
    stats.total = (positiveDurations head).length ∧
    stats.average =
      if positiveDurations head = [] then none
      else some ((positiveDurations head).sum / (positiveDurations head).length) := by
  unfold reportInterventionStats at h
  cases hl : reportInterventionStatsLoop head 0 0 with
  | none => simp [hl] at h
  | some r =>
    simp only [hl, Option.some.injEq] at h
    have hr := reportInterventionStatsLoop_eq_some head 0 0 r hl
    subst hr h
    simp only [zero_add, true_and]
    by_cases he : positiveDurations head = []
    · simp [he]
    · have hlen : 0 < (positiveDurations head).length := List.length_pos.2 he
      have hpos : (0 : Int) < ((positiveDurations head).length : Int) := by exact_mod_cast hlen
      rw [if_pos hpos, if_neg he,
        Int.tdiv_eq_ediv (positiveDurations_sum_nonneg head) (le_of_lt hpos)]

theorem reportInterventionStats_isSome (head : List Intervention)
    (hd : ∀ r ∈ head, r.status = .FINISHED → (diffMinutes r.start r.«end»).isSome = true)
    (hs : (positiveDurations head).sum ≤ INT_MAX) :
    (reportInterventionStats head).isSome = true := by
  have hlen := positiveDurations_length_le_sum head
  obtain ⟨r, hr⟩ := reportInterventionStatsLoop_isSome head hd 0 0 le_rfl le_rfl
    (by omega) (by omega)
  unfold reportInterventionStats
  rw [hr]; rfl

/-! ## C16: the count printed by the intervention statistics -/

/-- C16 fails on the code: for `sampleFinished`, whose only intervention is
Finished with a negative duration, the report prints "Nenhuma intervenção
concluída" and a total of 0, although one intervention is Finished; so the
printed count is not the raw number of Finished interventions. -/
theorem intervention_count_not_raw :
    reportInterventionStats sampleFinished = some { average := none, total := 0 } ∧
    (sampleFinished.filter fun r => decide (r.status = .FINISHED)).length = 1 ∧
    ¬ ∀ stats, reportInterventionStats sampleFinished = some stats →
        stats.total = ((sampleFinished.filter fun r => decide (r.status = .FINISHED)).length : Int) := by
  refine ⟨by decide, by decide, fun h => ?_⟩
  have := h { average := none, total := 0 } (by decide)
  revert this
  decide

/-- C16, amended: the count printed by the intervention statistics is the number
of Finished interventions whose duration is strictly positive, the same number
that divides the sum in the average; it never exceeds the number of Finished
interventions.  The report has a result whenever every Finished intervention has
a duration and the sum of the positive durations is representable. -/
theorem intervention_count_is_filtered (head : List Intervention) :
    (∀ stats, reportInterventionStats head = some stats →
      stats.total = (positiveDurations head).length ∧
      stats.total ≤ ((head.filter fun r => decide (r.status = .FINISHED)).length : Int)) ∧
    ((∀ r ∈ head, r.status = .FINISHED → (diffMinutes r.start r.«end»).isSome = true) →
      (positiveDurations head).sum ≤ INT_MAX →
      (reportInterventionStats head).isSome = true) := by
  refine ⟨fun stats h => ?_, reportInterventionStats_isSome head⟩
  have h1 := (reportInterventionStats_eq_some head stats h).1
  refine ⟨h1, ?_⟩
  rw [h1]
  have : (positiveDurations head).length ≤
      (head.filter fun r => decide (r.status = .FINISHED)).length := by
    unfold positiveDurations
    exact le_trans (List.length_filter_le _ _) (by rw [List.length_map])
  exact_mod_cast this

/-- Witness for C16 amended: `sampleInterventions` has three Finished
interventions, two of positive duration, and the printed count is 2. -/
theorem intervention_count_is_filtered_witness :
    reportInterventionStats sampleInterventions = some { average := some 67, total := 2 } ∧
    (sampleInterventions.filter fun r => decide (r.status = .FINISHED)).length = 3 ∧
    (({ average := some 67, total := 2 } : InterventionStats).total =
        (positiveDurations sampleInterventions).length ∧
      ({ average := some 67, total := 2 } : InterventionStats).total ≤
        ((sampleInterventions.filter fun r => decide (r.status = .FINISHED)).length : Int)) :=
  ⟨by decide, by decide,
    (intervention_count_is_filtered sampleInterventions).1 _ (by decide)⟩

/-! ## C17: the average printed by the intervention statistics -/

/-- C17: let `D` be the list of the strictly positive durations
`L end - L start` of the interventions with status Finished.  Whenever the report
has a result, it prints no average (the line "Nenhuma intervenção concluída")
when `D` is empty and the integer quotient `sum D / length D` otherwise; records
that are not Finished and Finished records of non-positive duration are in
neither.  The report has a result whenever every Finished intervention has a
duration and the sum of `D` is representable. -/
theorem intervention_average (head : List Intervention) :
    (∀ stats, reportInterventionStats head = some stats →
      stats.average =
        if positiveDurations head = [] then none
        else some ((positiveDurations head).sum / (positiveDurations head).length)) ∧
    (∀ r ∈ head, r.status ≠ .FINISHED → positiveDurations (r :: []) = []) ∧
    (∀ r ∈ head, linearizedMinutes r.«end» - linearizedMinutes r.start ≤ 0 →
      positiveDurations (r :: []) = []) ∧
    ((∀ r ∈ head, r.status = .FINISHED → (diffMinutes r.start r.«end»).isSome = true) →
      (positiveDurations head).sum ≤ INT_MAX →
      (reportInterventionStats head).isSome = true) := by
  refine ⟨fun stats h => (reportInterventionStats_eq_some head stats h).2, ?_, ?_,
    reportInterventionStats_isSome head⟩
  · intro r _ hs
    rw [positiveDurations_cons, if_neg (fun hc => hs hc.1)]
    rfl
  · intro r _ hd
    rw [positiveDurations_cons, if_neg (fun hc => by omega)]
    rfl

/-- Witness for C17: in `sampleInterventions` the positive durations are 90 and
45, and the average printed is 135 / 2 = 67. -/
theorem intervention_average_witness :
    positiveDurations sampleInterventions = [90, 45] ∧
    reportInterventionStats sampleInterventions = some { average := some 67, total := 2 } ∧
    ({ average := some 67, total := 2 } : InterventionStats).average =
      if positiveDurations sampleInterventions = [] then none
      else some ((positiveDurations sampleInterventions).sum /
        (positiveDurations sampleInterventions).length) :=
  ⟨by decide, by decide, (intervention_average sampleInterventions).1 _ (by decide)⟩

/-! ## C18 and C19: the firefighter ranking -/

theorem listFirefighterRanking_eq (head : List Firefighter) :
    listFirefighterRanking head =
      (head.filter fun r => decide (r.status ≠ .FIREFIGHTER_INACTIVE)).map
        (fun r => (⟨r.name, r.totalInterventions⟩ : RankingRow)) := by
  induction head with
  | nil => rfl
  | cons c next ih =>
    by_cases h : c.status = .FIREFIGHTER_INACTIVE <;> simp [listFirefighterRanking, h, ih]

/-- C18: the firefighter activity listing does not sort: for every firefighter
store its lines are exactly the pairs (name, totalInterventions) of the
firefighters whose status is not Inactive, in store order, whatever the values of
totalInterventions; and the report action leaves the session as it was. -/
theorem ranking_is_store_order :
    (∀ head : List Firefighter,
      listFirefighterRanking head =
        (head.filter fun r => decide (r.status ≠ .FIREFIGHTER_INACTIVE)).map
          (fun r => (⟨r.name, r.totalInterventions⟩ : RankingRow))) ∧
    (∀ s : System, step s .report = some s) :=
  ⟨listFirefighterRanking_eq, fun _ => rfl⟩

/-- C19 fails on the code: the header announces firefighters ranked by their
number of interventions, but for `sampleCrew` the lines are Eva with 2 followed
by Ana with 4, which is not a non-increasing order. -/
theorem ranking_is_not_ranked :
    listFirefighterRanking sampleCrew = [⟨"Eva", 2⟩, ⟨"Ana", 4⟩] ∧
    ¬ ((listFirefighterRanking sampleCrew).map fun l => l.totalInterventions).Pairwise
        (fun a b => b ≤ a) := by
  decide

/-! ## C20: the record built by a create -/

/-- C20: for each kind, a create whose node was allocated succeeds exactly when
the counter is below `INT_MAX`, and its result is then the new record followed by
the previous store unchanged, so the new record is also listed first.  The new
record carries the values typed by the operator and the defaults of its kind: a
firefighter is Available with `totalInterventions = 0` and
`totalResponseTime = 0`; an equipment item is Operational; an occurrence is
Reported with `endedAt.year = 0`; an intervention is InPlanning with
`end.year = 0` and `end.day = 0`. -/
theorem create_builds_defaults :
    (∀ (head : List Firefighter) (n : Int) (name specialty : String)
      (r : List Firefighter × Int),
      (createFirefighter true head n name specialty = some r ↔
        n < INT_MAX ∧
        r = (⟨n + 1, name, specialty, .AVAILABLE, 0, 0⟩ :: head, n + 1)) ∧
      (listFirefighters (⟨n + 1, name, specialty, .AVAILABLE, 0, 0⟩ :: head)).rows =
        ⟨n + 1, name, specialty, .AVAILABLE, 0⟩ :: (listFirefighters head).rows) ∧
    (∀ (head : List Equipment) (n : Int) (designation type : String)
      (r : List Equipment × Int),
      (createEquipment true head n designation type = some r ↔
        n < INT_MAX ∧ r = (⟨n + 1, designation, type, .OPERATIONAL⟩ :: head, n + 1)) ∧
      (listEquipments (⟨n + 1, designation, type, .OPERATIONAL⟩ :: head)).rows =
        ⟨n + 1, designation, type, .OPERATIONAL⟩ :: (listEquipments head).rows) ∧
    (∀ (head : List Occurrence) (n : Int) (location : String) (type priority : Fin 3)
      (timestamp uninit : DateTime) (r : List Occurrence × Int),
      (createOccurrence true head n location type priority timestamp uninit = some r ↔
        n < INT_MAX ∧
        r = (⟨n + 1, location, timestamp,
              ⟨uninit.day, uninit.month, 0, uninit.hour, uninit.minute⟩,
              OccurrenceType.ofInput type, Priority.ofInput priority, .REPORTED⟩ :: head,
            n + 1)) ∧
      (listOccurrences (⟨n + 1, location, timestamp,
          ⟨uninit.day, uninit.month, 0, uninit.hour, uninit.minute⟩,
          OccurrenceType.ofInput type, Priority.ofInput priority, .REPORTED⟩ :: head)).rows =
        ⟨n + 1, location, Priority.ofInput priority, .REPORTED⟩ ::
          (listOccurrences head).rows) ∧
    (∀ (head : List Intervention) (occHead : List Occurrence) (fireHead : List Firefighter)
      (equipHead : List Equipment) (n occId : Int) (start : DateTime) (fId : Int)
      (uninit : DateTime) (r : List Intervention × List Firefighter × Int),
      (createIntervention true head occHead fireHead equipHead n occId start fId uninit =
          some r ↔
        n < INT_MAX ∧ ∃ fire, createInterventionAssign fireHead fId = some fire ∧
          r = (⟨n + 1, occId, start, ⟨0, uninit.month, 0, uninit.hour, uninit.minute⟩,
                .IN_PLANNING, fId⟩ :: head, fire, n + 1)) ∧
      (listInterventions (⟨n + 1, occId, start,
          ⟨0, uninit.month, 0, uninit.hour, uninit.minute⟩, .IN_PLANNING, fId⟩ :: head)).rows =
        ⟨n + 1, occId, "Planeamento"⟩ :: (listInterventions head).rows) := by
  refine ⟨?_, ?_, ?_, ?_⟩
  · intro head n name specialty r
    refine ⟨createFirefighter_eq_some head n name specialty r, ?_⟩
    simp [listFirefighters_rows, listFirefightersLoop]
  · intro head n designation type r
    refine ⟨createEquipment_eq_some head n designation type r, ?_⟩
    simp [listEquipments_rows, listEquipmentsLoop]
  · intro head n location type priority timestamp uninit r
    refine ⟨createOccurrence_eq_some head n location type priority timestamp uninit r, ?_⟩
    simp [listOccurrences_rows, listOccurrencesLoop]
  · intro head occHead fireHead equipHead n occId start fId uninit r
    refine ⟨createIntervention_eq_some head occHead fireHead equipHead n occId fId start
      uninit r, ?_⟩
    simp [listInterventions_rows, listInterventionsLoop]

/-- Witness for C20: creating the occurrence "Sector A" (urban, high priority)
from counter 0 in an empty store. -/
theorem create_builds_defaults_witness :
    createOccurrence true [] 0 "Sector A" 1 2 ⟨1, 1, 2025, 8, 0⟩ ⟨9, 9, 9, 9, 9⟩ =
      some ([⟨0 + 1, "Sector A", ⟨1, 1, 2025, 8, 0⟩, ⟨9, 9, 0, 9, 9⟩, .URBAN, .HIGH,
        .REPORTED⟩], 0 + 1) :=
  ((create_builds_defaults.2.2.1 [] 0 "Sector A" 1 2 ⟨1, 1, 2025, 8, 0⟩ ⟨9, 9, 9, 9, 9⟩
    _).1).2 ⟨by decide, rfl⟩

/-! ## Shared lemmas: the efficiency report -/

theorem efficiencyDurations_cons (T : OccurrenceType) (o : Occurrence)
    (next : List Occurrence) :
    efficiencyDurations T (o :: next) =
      if o.type = T ∧ o.status = .RESOLVED ∧ o.endedAt.year ≠ 0 then
        max 0 (linearizedMinutes o.endedAt - linearizedMinutes o.timestamp) ::
          efficiencyDurations T next
      else efficiencyDurations T next := by
  unfold efficiencyDurations
  by_cases h : o.type = T ∧ o.status = .RESOLVED ∧ o.endedAt.year ≠ 0
  · simp [h]
  · rw [List.filter_cons_of_neg (by simpa using h), if_neg h]

theorem efficiencyDurations_sum_nonneg (T : OccurrenceType) (head : List Occurrence) :
    0 ≤ (efficiencyDurations T head).sum := by
  apply List.sum_nonneg
  intro d hd
  unfold efficiencyDurations at hd
  obtain ⟨o, _, rfl⟩ := List.mem_map.1 hd
  exact le_max_left _ _

/-- The accumulators that the loop of the efficiency report reaches from `acc`
over `head`, in exact arithmetic. -/
theorem reportOperationalEfficiencyLoop_eq_some (head : List Occurrence) :
    ∀ (acc res : EfficiencyTotals), reportOperationalEfficiencyLoop head acc = some res →
      res.forestTime = acc.forestTime + (efficiencyDurations .FOREST head).sum ∧
      res.forestCount = acc.forestCount + (efficiencyDurations .FOREST head).length ∧
      res.urbanTime = acc.urbanTime + (efficiencyDurations .URBAN head).sum ∧
      res.urbanCount = acc.urbanCount + (efficiencyDurations .URBAN head).length ∧
      res.indTime = acc.indTime + (efficiencyDurations .INDUSTRIAL head).sum ∧
      res.indCount = acc.indCount + (efficiencyDurations .INDUSTRIAL head).length := by
  induction head with
  | nil =>
    intro acc res h
    simp [reportOperationalEfficiencyLoop] at h
    subst h
    simp [efficiencyDurations]
  | cons data next ih =>
    intro acc res h
    unfold reportOperationalEfficiencyLoop at h
    simp only [efficiencyDurations_cons]
    by_cases hskip : data.status = .OCCURRENCE_INACTIVE ∨ data.endedAt.year = 0
    · rw [if_pos hskip] at h
      have hno : ∀ T : OccurrenceType,
          ¬ (data.type = T ∧ data.status = .RESOLVED ∧ data.endedAt.year ≠ 0) := by
        intro T hc
        rcases hskip with h1 | h1
        · rw [h1] at hc; exact absurd hc.2.1 (by decide)
        · exact hc.2.2 h1
      simp only [hno, if_false]
      exact ih acc res h
    · rw [if_neg hskip] at h
      have hyear : data.endedAt.year ≠ 0 := fun hc => hskip (Or.inr hc)
      by_cases hres : data.status = .RESOLVED
      · rw [if_pos hres] at h
        cases hcalc : calcMinutes data.timestamp data.endedAt with
        | none => simp [hcalc] at h
        | some minutes =>
          simp only [hcalc] at h
          obtain ⟨hmin, _, _⟩ := diffMinutes_eq_some hcalc
          have hdur : (if minutes < 0 then 0 else minutes) =
              max 0 (linearizedMinutes data.endedAt - linearizedMinutes data.timestamp) := by
            rw [← hmin]; split <;> omega
          rw [hdur] at h
          cases htype : data.type with
          | FOREST =>
            simp only [htype, if_true] at h
            cases ha : addInt acc.forestTime
                (max 0 (linearizedMinutes data.endedAt - linearizedMinutes data.timestamp)) with
            | none => simp [ha] at h
            | some time =>
              cases hc : incInt acc.forestCount with
              | none => simp [ha, hc] at h
              | some count =>
                simp only [ha, hc] at h
                have e1 := (addInt_eq_some.1 ha).2
                have e2 := (incInt_eq_some.1 hc).2
                have := ih _ res h
                simp only [hres, hyear, ne_eq, not_false_eq_true, and_self, and_true, if_true,
                  reduceCtorEq, false_and, if_false, List.sum_cons, List.length_cons,
                  Nat.cast_add, Nat.cast_one]
                simp only at this
                omega
          | URBAN =>
            simp only [htype, reduceCtorEq, if_false, if_true] at h
            cases ha : addInt acc.urbanTime
                (max 0 (linearizedMinutes data.endedAt - linearizedMinutes data.timestamp)) with
            | none => simp [ha] at h
            | some time =>
              cases hc : incInt acc.urbanCount with
              | none => simp [ha, hc] at h
              | some count =>
                simp only [ha, hc] at h
                have e1 := (addInt_eq_some.1 ha).2
                have e2 := (incInt_eq_some.1 hc).2
                have := ih _ res h
                simp only [hres, hyear, ne_eq, not_false_eq_true, and_self, and_true, if_true,
                  reduceCtorEq, false_and, if_false, List.sum_cons, List.length_cons,
                  Nat.cast_add, Nat.cast_one]
                simp only at this
                omega
          | INDUSTRIAL =>
            simp only [htype, reduceCtorEq, if_false, if_true] at h
            cases ha : addInt acc.indTime
                (max 0 (linearizedMinutes data.endedAt - linearizedMinutes data.timestamp)) with
            | none => simp [ha] at h
            | some time =>
              cases hc : incInt acc.indCount with
              | none => simp [ha, hc] at h
              | some count =>
                simp only [ha, hc] at h
                have e1 := (addInt_eq_some.1 ha).2
                have e2 := (incInt_eq_some.1 hc).2
                have := ih _ res h
                simp only [hres, hyear, ne_eq, not_false_eq_true, and_self, and_true, if_true,
                  reduceCtorEq, false_and, if_false, List.sum_cons, List.length_cons,
                  Nat.cast_add, Nat.cast_one]
                simp only at this
                omega
      · rw [if_neg hres] at h
        have hno : ∀ T : OccurrenceType,
            ¬ (data.type = T ∧ data.status = .RESOLVED ∧ data.endedAt.year ≠ 0) :=
          fun T hc => hres hc.2.1
        simp only [hno, if_false]
        exact ih acc res h

/-- The loop of the efficiency report has a result when every occurrence it
measures has a duration and the six accumulators have room. -/
theorem reportOperationalEfficiencyLoop_isSome (head : List Occurrence)
    (hcalc : ∀ o ∈ head, o.status = .RESOLVED → o.endedAt.year ≠ 0 →
      (calcMinutes o.timestamp o.endedAt).isSome = true) :
    ∀ acc : EfficiencyTotals,
      (0 ≤ acc.forestTime ∧ 0 ≤ acc.forestCount ∧ 0 ≤ acc.urbanTime ∧ 0 ≤ acc.urbanCount ∧
        0 ≤ acc.indTime ∧ 0 ≤ acc.indCount) →
      (acc.forestTime + (efficiencyDurations .FOREST head).sum ≤ INT_MAX ∧
        acc.forestCount + (efficiencyDurations .FOREST head).length ≤ INT_MAX ∧
        acc.urbanTime + (efficiencyDurations .URBAN head).sum ≤ INT_MAX ∧
        acc.urbanCount + (efficiencyDurations .URBAN head).length ≤ INT_MAX ∧
        acc.indTime + (efficiencyDurations .INDUSTRIAL head).sum ≤ INT_MAX ∧
        acc.indCount + (efficiencyDurations .INDUSTRIAL head).length ≤ INT_MAX) →
      ∃ res, reportOperationalEfficiencyLoop head acc = some res := by
  induction head with
  | nil => intro acc _ _; exact ⟨acc, rfl⟩
  | cons data next ih =>
    intro acc hpos hroom
    have hnext : ∀ o ∈ next, o.status = .RESOLVED → o.endedAt.year ≠ 0 →
        (calcMinutes o.timestamp o.endedAt).isSome = true :=
      fun o ho => hcalc o (List.mem_cons_of_mem _ ho)
    have sF := efficiencyDurations_sum_nonneg .FOREST next
    have sU := efficiencyDurations_sum_nonneg .URBAN next
    have sI := efficiencyDurations_sum_nonneg .INDUSTRIAL next
    simp only [efficiencyDurations_cons] at hroom
    unfold reportOperationalEfficiencyLoop
    by_cases hskip : data.status = .OCCURRENCE_INACTIVE ∨ data.endedAt.year = 0
    · rw [if_pos hskip]
      have hno : ∀ T : OccurrenceType,
          ¬ (data.type = T ∧ data.status = .RESOLVED ∧ data.endedAt.year ≠ 0) := by
        intro T hc
        rcases hskip with h1 | h1
        · rw [h1] at hc; exact absurd hc.2.1 (by decide)
        · exact hc.2.2 h1
      simp only [hno, if_false] at hroom
      exact ih hnext acc hpos hroom
    · rw [if_neg hskip]
      have hyear : data.endedAt.year ≠ 0 := fun hc => hskip (Or.inr hc)
      by_cases hres : data.status = .RESOLVED
      · rw [if_pos hres]
        obtain ⟨minutes, hmin⟩ := Option.isSome_iff_exists.1
          (hcalc data (List.mem_cons_self _ _) hres hyear)
        obtain ⟨hval, _, hub⟩ := diffMinutes_eq_some hmin
        have hdur : (if minutes < 0 then 0 else minutes) =
            max 0 (linearizedMinutes data.endedAt - linearizedMinutes data.timestamp) := by
          rw [← hval]; split <;> omega
        have hd0 : 0 ≤ max 0 (linearizedMinutes data.endedAt -
            linearizedMinutes data.timestamp) := le_max_left _ _
        simp only [hmin, hdur]
        cases htype : data.type with
        | FOREST =>
          simp only [htype, hres, hyear, ne_eq, not_false_eq_true, and_self, and_true, if_true,
            reduceCtorEq, false_and, if_false, List.sum_cons, List.length_cons,
            Nat.cast_add, Nat.cast_one] at hroom
          rw [addInt_of_range ⟨by simp only [INT_MIN]; omega, by omega⟩,
            incInt_of_lt (by omega)]
          simp only [if_true]
          exact ih hnext _ (by simp only; omega) (by simp only; omega)
        | URBAN =>
          simp only [htype, hres, hyear, ne_eq, not_false_eq_true, and_self, and_true, if_true,
            reduceCtorEq, false_and, if_false, List.sum_cons, List.length_cons,
            Nat.cast_add, Nat.cast_one] at hroom
          simp only [reduceCtorEq, if_false, if_true]
          rw [addInt_of_range ⟨by simp only [INT_MIN]; omega, by omega⟩,
            incInt_of_lt (by omega)]
          exact ih hnext _ (by simp only; omega) (by simp only; omega)
        | INDUSTRIAL =>
          simp only [htype, hres, hyear, ne_eq, not_false_eq_true, and_self, and_true, if_true,
            reduceCtorEq, false_and, if_false, List.sum_cons, List.length_cons,
            Nat.cast_add, Nat.cast_one] at hroom
          simp only [reduceCtorEq, if_false, if_true]
          rw [addInt_of_range ⟨by simp only [INT_MIN]; omega, by omega⟩,
            incInt_of_lt (by omega)]
          exact ih hnext _ (by simp only; omega) (by simp only; omega)
      · rw [if_neg hres]
        have hno : ∀ T : OccurrenceType,
            ¬ (data.type = T ∧ data.status = .RESOLVED ∧ data.endedAt.year ≠ 0) :=
          fun T hc => hres hc.2.1
        simp only [hno, if_false] at hroom
        exact ih hnext acc hpos hroom

theorem efficiencyLine_eq (l : List Int) (h : ∀ d ∈ l, 0 ≤ d) :
    efficiencyLine l.sum l.length =
      { average := if l = [] then 0 else l.sum / l.length, count := l.length } := by
  unfold efficiencyLine
  by_cases he : l = []
  · subst he; simp
  · have hlen : 0 < l.length := List.length_pos.2 he
    have hpos : (0 : Int) < (l.length : Int) := by exact_mod_cast hlen
    rw [if_pos (ne_of_gt hpos), if_neg he,
      Int.tdiv_eq_ediv (List.sum_nonneg h) (le_of_lt hpos)]

theorem efficiencyDurations_nonneg (T : OccurrenceType) (head : List Occurrence) :
    ∀ d ∈ efficiencyDurations T head, 0 ≤ d := by
  intro d hd
  unfold efficiencyDurations at hd
  obtain ⟨o, _, rfl⟩ := List.mem_map.1 hd
  exact le_max_left _ _

theorem efficiencyDurations_length_le (T : OccurrenceType) (head : List Occurrence) :
    (efficiencyDurations T head).length ≤ head.length := by
  unfold efficiencyDurations
  rw [List.length_map]
  exact List.length_filter_le _ _

/-! ## C13: the operational efficiency report -/

/-- C13: for every occurrence store and each type `T`, whenever the report has
a result, its accumulated count for `T` is the number of occurrences of type `T`
with status Resolved and `endedAt.year ≠ 0`, its accumulated sum is the sum over
those occurrences of `max 0 (L endedAt - L timestamp)`, and the printed line
holds that count and the integer quotient sum / count, or 0 when the count is 0.
The report has a result whenever every occurrence it measures has a duration,
the three sums are representable and the store has at most `INT_MAX` records. -/
theorem efficiency_report_per_type (head : List Occurrence) :
    (∀ res, reportOperationalEfficiencyLoop head ⟨0, 0, 0, 0, 0, 0⟩ = some res →
      res.forestCount = (efficiencyDurations .FOREST head).length ∧
      res.forestTime = (efficiencyDurations .FOREST head).sum ∧
      res.urbanCount = (efficiencyDurations .URBAN head).length ∧
      res.urbanTime = (efficiencyDurations .URBAN head).sum ∧
      res.indCount = (efficiencyDurations .INDUSTRIAL head).length ∧
      res.indTime = (efficiencyDurations .INDUSTRIAL head).sum) ∧
    (∀ rep, reportOperationalEfficiency head = some rep →
      rep.forest =
        { average := if efficiencyDurations .FOREST head = [] then 0
            else (efficiencyDurations .FOREST head).sum /
              (efficiencyDurations .FOREST head).length,
          count := (efficiencyDurations .FOREST head).length } ∧
      rep.urban =
        { average := if efficiencyDurations .URBAN head = [] then 0
            else (efficiencyDurations .URBAN head).sum /
              (efficiencyDurations .URBAN head).length,
          count := (efficiencyDurations .URBAN head).length } ∧
      rep.industrial =
        { average := if efficiencyDurations .INDUSTRIAL head = [] then 0
            else (efficiencyDurations .INDUSTRIAL head).sum /
              (efficiencyDurations .INDUSTRIAL head).length,
          count := (efficiencyDurations .INDUSTRIAL head).length }) ∧
    ((∀ o ∈ head, o.status = .RESOLVED → o.endedAt.year ≠ 0 →
        (calcMinutes o.timestamp o.endedAt).isSome = true) →
      (∀ T, (efficiencyDurations T head).sum ≤ INT_MAX) →
      (head.length : Int) ≤ INT_MAX →
      (reportOperationalEfficiency head).isSome = true) := by
  refine ⟨fun res h => ?_, fun rep h => ?_, fun hcalc hsum hlen => ?_⟩
  · have := reportOperationalEfficiencyLoop_eq_some head _ res h
    simp only [zero_add] at this
    tauto
  · unfold reportOperationalEfficiency at h
    cases hl : reportOperationalEfficiencyLoop head ⟨0, 0, 0, 0, 0, 0⟩ with
    | none => simp [hl] at h
    | some res =>
      simp only [hl, Option.some.injEq] at h
      have := reportOperationalEfficiencyLoop_eq_some head _ res hl
      simp only [zero_add] at this
      obtain ⟨h1, h2, h3, h4, h5, h6⟩ := this
      subst h
      simp only [h1, h2, h3, h4, h5, h6]
      exact ⟨efficiencyLine_eq _ (efficiencyDurations_nonneg _ head),
        efficiencyLine_eq _ (efficiencyDurations_nonneg _ head),
        efficiencyLine_eq _ (efficiencyDurations_nonneg _ head)⟩
  · have lF := efficiencyDurations_length_le .FOREST head
    have lU := efficiencyDurations_length_le .URBAN head
    have lI := efficiencyDurations_length_le .INDUSTRIAL head
    have hF := hsum .FOREST
    have hU := hsum .URBAN
    have hI := hsum .INDUSTRIAL
    obtain ⟨res, hres⟩ := reportOperationalEfficiencyLoop_isSome head hcalc ⟨0, 0, 0, 0, 0, 0⟩
      (by simp) (by simp only [zero_add]; omega)
    unfold reportOperationalEfficiency
    rw [hres]; rfl

/-- Witness for C13: in `sampleOccurrences` two forest fires are resolved after
90 and 31 minutes (average 60), one urban occurrence is resolved with a negative
duration counted as 0, and the Inactive industrial occurrence is not counted. -/
theorem efficiency_report_per_type_witness :
    reportOperationalEfficiency sampleOccurrences =
      some { forest := ⟨60, 2⟩, urban := ⟨0, 1⟩, industrial := ⟨0, 0⟩ } ∧
    efficiencyDurations .FOREST sampleOccurrences = [90, 31] ∧
    efficiencyDurations .URBAN sampleOccurrences = [0] ∧
    efficiencyDurations .INDUSTRIAL sampleOccurrences = [] ∧
    (({ forest := ⟨60, 2⟩, urban := ⟨0, 1⟩, industrial := ⟨0, 0⟩ } : EfficiencyReport).forest =
      { average := if efficiencyDurations .FOREST sampleOccurrences = [] then 0
          else (efficiencyDurations .FOREST sampleOccurrences).sum /
            (efficiencyDurations .FOREST sampleOccurrences).length,
        count := (efficiencyDurations .FOREST sampleOccurrences).length }) :=
  ⟨by decide, by decide, by decide, by decide,
    ((efficiency_report_per_type sampleOccurrences).2.1 _ (by decide)).1⟩

/-! ## Shared lemmas: the location statistics -/

theorem activeLocations_cons (o : Occurrence) (next : List Occurrence) :
    activeLocations (o :: next) =
      if o.status = .OCCURRENCE_INACTIVE then activeLocations next
      else o.location :: activeLocations next := by
  unfold activeLocations
  by_cases h : o.status = .OCCURRENCE_INACTIVE <;> simp [h]

theorem activeLocations_append (l₁ l₂ : List Occurrence) :
    activeLocations (l₁ ++ l₂) = activeLocations l₁ ++ activeLocations l₂ := by
  simp [activeLocations]

theorem activeLocations_length_le (l : List Occurrence) :
    (activeLocations l).length ≤ l.length := by
  unfold activeLocations
  rw [List.length_map]
  exact List.length_filter_le _ _

theorem mem_firstSeen (l : List String) (x : String) : x ∈ firstSeen l ↔ x ∈ l := by
  induction l with
  | nil => simp [firstSeen]
  | cons y ys ih =>
    simp only [firstSeen, List.mem_cons, List.mem_filter, ih, decide_eq_true_eq]
    by_cases h : x = y <;> simp [h]

theorem firstSeen_nodup (l : List String) : (firstSeen l).Nodup := by
  induction l with
  | nil => simp [firstSeen]
  | cons y ys ih =>
    simp only [firstSeen, List.nodup_cons, List.mem_filter, decide_eq_true_eq]
    exact ⟨fun h => h.2 rfl, ih.filter _⟩

theorem firstSeen_sublist (l : List String) : (firstSeen l).Sublist l := by
  induction l with
  | nil => simp [firstSeen]
  | cons y ys ih =>
    simp only [firstSeen]
    exact ((List.filter_sublist _).trans ih).cons₂ y

theorem filter_ne_filter_not_mem (l b : List String) (x : String) :
    (l.filter fun y => decide (y ≠ x)).filter (fun y => decide (y ∉ b)) =
      l.filter fun y => decide (y ∉ b ++ [x]) := by
  rw [List.filter_filter]
  apply List.filter_congr
  intro y _
  by_cases h1 : y = x <;> by_cases h2 : y ∈ b <;> simp [h1, h2]

theorem listOccurrenceStatsDuplicate_eq (before : List Occurrence) (location : String) :
    listOccurrenceStatsDuplicate before location =
      decide (location ∈ activeLocations before) := by
  induction before with
  | nil => simp [listOccurrenceStatsDuplicate, activeLocations]
  | cons c next ih =>
    unfold listOccurrenceStatsDuplicate
    rw [activeLocations_cons]
    by_cases hs : c.status = .OCCURRENCE_INACTIVE
    · simp [hs, ih]
    · by_cases hl : c.location = location
      · simp [hs, hl]
      · have hl2 : ¬ location = c.location := fun h => hl h.symm
        simp [hs, hl, hl2, ih]

theorem listOccurrenceStatsCount_eq_some (l : List Occurrence) (location : String) :
    ∀ (count r : Int), listOccurrenceStatsCount l location count = some r →
      r = count + ((activeLocations l).count location : Nat) := by
  induction l with
  | nil =>
    intro count r h
    simp [listOccurrenceStatsCount] at h
    subst h
    simp [activeLocations]
  | cons c next ih =>
    intro count r h
    unfold listOccurrenceStatsCount at h
    rw [activeLocations_cons]
    by_cases hm : c.location = location ∧ c.status ≠ .OCCURRENCE_INACTIVE
    · rw [if_pos hm] at h
      cases hi : incInt count with
      | none => simp [hi] at h
      | some cnt =>
        simp only [hi] at h
        have e := (incInt_eq_some.1 hi).2
        rw [ih cnt r h, if_neg hm.2, hm.1, List.count_cons_self]
        push_cast
        omega
    · rw [if_neg hm] at h
      rw [ih count r h]
      by_cases hs : c.status = .OCCURRENCE_INACTIVE
      · rw [if_pos hs]
      · have hl : c.location ≠ location := fun hc => hm ⟨hc, hs⟩
        rw [if_neg hs, List.count_cons_of_ne hl.symm]

theorem listOccurrenceStatsCount_isSome (l : List Occurrence) (location : String) :
    ∀ count : Int, count + (l.length : Int) ≤ INT_MAX →
      ∃ r, listOccurrenceStatsCount l location count = some r := by
  induction l with
  | nil => intro count _; exact ⟨count, rfl⟩
  | cons c next ih =>
    intro count h
    simp only [List.length_cons, Nat.cast_add, Nat.cast_one] at h
    unfold listOccurrenceStatsCount
    split
    · rw [incInt_of_lt (by omega)]
      exact ih _ (by omega)
    · exact ih _ (by omega)

/-- The lines that the outer loop prints from `outer` on, when `before` are the
records already passed. -/
theorem listOccurrenceStatsLoop_eq_some (rest : List Occurrence) :
    ∀ (before : List Occurrence) (lines : List LocationLine),
      listOccurrenceStatsLoop before rest = some lines →
      lines =
        ((firstSeen (activeLocations rest)).filter
            fun y => decide (y ∉ activeLocations before)).map
          fun loc => ⟨loc, ((activeLocations (before ++ rest)).count loc : Nat)⟩ := by
  induction rest with
  | nil =>
    intro before lines h
    simp [listOccurrenceStatsLoop] at h
    subst h
    simp [activeLocations, firstSeen]
  | cons outer next ih =>
    intro before lines h
    unfold listOccurrenceStatsLoop at h
    have happ : (before ++ [outer]) ++ next = before ++ outer :: next := by simp
    by_cases hs : outer.status = .OCCURRENCE_INACTIVE
    · rw [if_pos hs] at h
      have := ih _ lines h
      rw [happ, activeLocations_append before [outer]] at this
      rw [this, activeLocations_cons outer next, if_pos hs]
      simp [activeLocations, hs]
    · rw [if_neg hs, listOccurrenceStatsDuplicate_eq] at h
      have hbefore : activeLocations (before ++ [outer]) =
          activeLocations before ++ [outer.location] := by
        rw [activeLocations_append]
        simp [activeLocations, hs]
      rw [activeLocations_cons outer next, if_neg hs]
      simp only [firstSeen]
      by_cases hd : outer.location ∈ activeLocations before
      · simp only [hd, decide_True, Bool.true_eq_false, if_false] at h
        have := ih _ lines h
        rw [happ, hbefore] at this
        rw [this, List.filter_cons_of_neg (by simpa using hd), filter_ne_filter_not_mem]
      · simp only [hd, decide_False, if_true] at h
        cases hc : listOccurrenceStatsCount (outer :: next) outer.location 0 with
        | none => simp [hc] at h
        | some count =>
          simp only [hc] at h
          cases hl : listOccurrenceStatsLoop (before ++ [outer]) next with
          | none => simp [hl] at h
          | some rest =>
            simp only [hl, Option.some.injEq] at h
            have hcount := listOccurrenceStatsCount_eq_some _ _ 0 count hc
            have := ih _ rest hl
            rw [happ, hbefore] at this
            rw [← h, this, List.filter_cons_of_pos (by simpa using hd),
              filter_ne_filter_not_mem, List.map_cons, hcount, activeLocations_append,
              List.count_append, List.count_eq_zero_of_not_mem hd]
            simp

theorem listOccurrenceStatsLoop_isSome (rest : List Occurrence) :
    ∀ before : List Occurrence, (rest.length : Int) ≤ INT_MAX →
      ∃ lines, listOccurrenceStatsLoop before rest = some lines := by
  induction rest with
  | nil => intro before _; exact ⟨[], rfl⟩
  | cons outer next ih =>
    intro before h
    have hnext : (next.length : Int) ≤ INT_MAX := by
      simp only [List.length_cons, Nat.cast_add, Nat.cast_one] at h; omega
    obtain ⟨lines, hl⟩ := ih (before ++ [outer]) hnext
    obtain ⟨count, hc⟩ := listOccurrenceStatsCount_isSome (outer :: next) outer.location 0
      (by omega)
    unfold listOccurrenceStatsLoop
    split
    · exact ⟨lines, hl⟩
    · split
      · rw [hc, hl]; exact ⟨_, rfl⟩
      · exact ⟨lines, hl⟩

theorem count_activeLocations (head : List Occurrence) (loc : String) :
    (activeLocations head).count loc =
      (head.filter fun o =>
        decide (o.status ≠ .OCCURRENCE_INACTIVE ∧ o.location = loc)).length := by
  induction head with
  | nil => simp [activeLocations]
  | cons o next ih =>
    rw [activeLocations_cons]
    by_cases hs : o.status = .OCCURRENCE_INACTIVE
    · simp [hs, ih]
    · by_cases hl : o.location = loc
      · simp [hs, hl, ih]
      · rw [if_neg hs, List.count_cons_of_ne (fun h => hl h.symm), ih,
          List.filter_cons_of_neg (by simp [hl])]

theorem mem_activeLocations (head : List Occurrence) (loc : String) :
    loc ∈ activeLocations head ↔
      ∃ o ∈ head, o.status ≠ .OCCURRENCE_INACTIVE ∧ o.location = loc := by
  unfold activeLocations
  simp only [List.mem_map, List.mem_filter, decide_eq_true_eq]
  constructor
  · rintro ⟨o, ⟨ho, hs⟩, hl⟩; exact ⟨o, ho, hs, hl⟩
  · rintro ⟨o, ho, hs, hl⟩; exact ⟨o, ⟨ho, hs⟩, hl⟩

theorem listOccurrenceStats_rows (head : List Occurrence) (out : Listing LocationLine)
    (h : listOccurrenceStats head = some out) :
    out.rows =
      (firstSeen (activeLocations head)).map
        fun loc => ⟨loc, ((activeLocations head).count loc : Nat)⟩ := by
  cases head with
  | nil =>
    simp [listOccurrenceStats] at h
    subst h
    simp [Listing.rows, activeLocations, firstSeen]
  | cons o next =>
    simp only [listOccurrenceStats] at h
    cases hl : listOccurrenceStatsLoop [] (o :: next) with
    | none => simp [hl] at h
    | some lines =>
      simp only [hl, Option.some.injEq] at h
      subst h
      have := listOccurrenceStatsLoop_eq_some (o :: next) [] lines hl
      simp only [Listing.rows]
      rw [this]
      simp [activeLocations]

/-! ## C15: the location frequency report -/

/-- C15: for every occurrence store, whenever the report has a result, its lines
are, in this order, the distinct locations of the occurrences that are not
Inactive in first-seen order, each with the number of occurrences of the whole
store that are not Inactive and have exactly that location.  Hence no location
is printed twice, a location is printed exactly when some occurrence that is not
Inactive carries it, and the printed locations follow the store order.  The
report has a result whenever the store has at most `INT_MAX` records. -/
theorem location_frequency (head : List Occurrence) :
    (∀ out, listOccurrenceStats head = some out →
      out.rows =
        (firstSeen (activeLocations head)).map
          (fun loc => ⟨loc, ((head.filter fun o =>
            decide (o.status ≠ .OCCURRENCE_INACTIVE ∧ o.location = loc)).length : Nat)⟩) ∧
      (out.rows.map fun l => l.location).Nodup ∧
      (∀ loc, loc ∈ (out.rows.map fun l => l.location) ↔
        ∃ o ∈ head, o.status ≠ .OCCURRENCE_INACTIVE ∧ o.location = loc) ∧
      (out.rows.map fun l => l.location).Sublist (activeLocations head)) ∧
    ((head.length : Int) ≤ INT_MAX → (listOccurrenceStats head).isSome = true) := by
  refine ⟨fun out h => ?_, fun hlen => ?_⟩
  · have hrows := listOccurrenceStats_rows head out h
    have hloc : (out.rows.map fun l => l.location) = firstSeen (activeLocations head) := by
      rw [hrows, List.map_map]
      exact (List.map_congr_left fun _ _ => rfl).trans (List.map_id _)
    refine ⟨?_, ?_, ?_, ?_⟩
    · rw [hrows]
      exact List.map_congr_left fun loc _ => by rw [count_activeLocations]
    · rw [hloc]; exact firstSeen_nodup _
    · intro loc
      rw [hloc, mem_firstSeen, mem_activeLocations]
    · rw [hloc]; exact firstSeen_sublist _
  · cases head with
    | nil => rfl
    | cons o next =>
      obtain ⟨lines, hl⟩ := listOccurrenceStatsLoop_isSome (o :: next) [] hlen
      simp only [listOccurrenceStats, hl]
      rfl

/-- Witness for C15: for three active occurrences at "Sector A", one Inactive at
"Sector A" and one active at "Sector B" the report prints Sector A: 3 and
Sector B: 1. -/
theorem location_frequency_witness :
    listOccurrenceStats sampleSectors = some (.table [⟨"Sector A", 3⟩, ⟨"Sector B", 1⟩]) ∧
    ((Listing.table [⟨"Sector A", 3⟩, ⟨"Sector B", 1⟩] : Listing LocationLine).rows.map
      fun l => l.location).Nodup :=
  ⟨by decide, ((location_frequency sampleSectors).1 _ (by decide)).2.1⟩

/-! ## Shared lemmas: rounding to nearest, ties to even -/

theorem roundHalfEven_intCast (z : ℤ) : roundHalfEven (z : ℚ) = z := by
  unfold roundHalfEven
  simp

theorem roundHalfEven_of_abs_lt (t : ℚ) (m : ℤ) (h : |t - m| < 1 / 2) :
    roundHalfEven t = m := by
  rw [abs_lt] at h
  obtain ⟨h1, h2⟩ := h
  unfold roundHalfEven
  by_cases hge : (m : ℚ) ≤ t
  · have hf : ⌊t⌋ = m := Int.floor_eq_iff.2 ⟨hge, by linarith⟩
    rw [hf, if_pos (by linarith)]
  · push_neg at hge
    have hf : ⌊t⌋ = m - 1 := Int.floor_eq_iff.2 ⟨by push_cast; linarith, by push_cast; linarith⟩
    rw [hf]
    push_cast
    rw [if_neg (by linarith), if_pos (by linarith)]
    ring

theorem roundHalfEven_bounds (t : ℚ) : (⌊t⌋ ≤ roundHalfEven t) ∧ roundHalfEven t ≤ ⌊t⌋ + 1 := by
  unfold roundHalfEven
  split_ifs <;> constructor <;> omega

theorem roundHalfEven_mono {t t' : ℚ} (h : t ≤ t') : roundHalfEven t ≤ roundHalfEven t' := by
  have hfl : ⌊t⌋ ≤ ⌊t'⌋ := Int.floor_mono h
  rcases lt_or_eq_of_le hfl with hlt | heq
  · have := (roundHalfEven_bounds t).2
    have := (roundHalfEven_bounds t').1
    omega
  · unfold roundHalfEven
    rw [← heq]
    split_ifs <;> first | omega | linarith

theorem log_two_eq {x : ℚ} {e : ℤ} (hlo : (2 : ℚ) ^ e ≤ x) (hhi : x < (2 : ℚ) ^ (e + 1)) :
    Int.log 2 x = e := by
  have hx : 0 < x := lt_of_lt_of_le (by positivity) hlo
  have h1 : e ≤ Int.log 2 x :=
    (Int.zpow_le_iff_le_log (by norm_num : 1 < 2) hx).1 (by simpa using hlo)
  have h2 : Int.log 2 x < e + 1 :=
    (Int.lt_zpow_iff_log_lt (by norm_num : 1 < 2) hx).1 (by simpa using hhi)
  omega

theorem log_two_bounds {x : ℚ} (hx : 0 < x) :
    (2 : ℚ) ^ Int.log 2 x ≤ x ∧ x < (2 : ℚ) ^ (Int.log 2 x + 1) := by
  have h1 := Int.zpow_log_le_self (by norm_num : 1 < 2) hx
  have h2 := Int.lt_zpow_succ_log_self (by norm_num : 1 < 2) x
  exact ⟨by simpa using h1, by simpa using h2⟩

theorem roundSig_of_bounds (p : ℕ) {x : ℚ} {e : ℤ} (hlo : (2 : ℚ) ^ e ≤ x)
    (hhi : x < (2 : ℚ) ^ (e + 1)) :
    roundSig p x =
      roundHalfEven (x / (2 : ℚ) ^ (e - ((p : ℤ) - 1))) * (2 : ℚ) ^ (e - ((p : ℤ) - 1)) := by
  have hx : 0 < x := lt_of_lt_of_le (by positivity) hlo
  unfold roundSig
  rw [if_neg (ne_of_gt hx), abs_of_pos hx, log_two_eq hlo hhi]

/-- Certificate for a rounding that is not a tie. -/
theorem roundSig_eq_of_near (p : ℕ) {x : ℚ} (e m : ℤ) (hlo : (2 : ℚ) ^ e ≤ x)
    (hhi : x < (2 : ℚ) ^ (e + 1))
    (hm : |x / (2 : ℚ) ^ (e - ((p : ℤ) - 1)) - m| < 1 / 2) :
    roundSig p x = m * (2 : ℚ) ^ (e - ((p : ℤ) - 1)) := by
  rw [roundSig_of_bounds p hlo hhi, roundHalfEven_of_abs_lt _ m hm]

theorem roundSig_zero (p : ℕ) : roundSig p 0 = 0 := by
  simp [roundSig]

/-- A positive number rounds into the closure of its binade. -/
theorem roundSig_binade (p : ℕ) (hp : 1 ≤ p) {x : ℚ} {e : ℤ} (hlo : (2 : ℚ) ^ e ≤ x)
    (hhi : x < (2 : ℚ) ^ (e + 1)) :
    (2 : ℚ) ^ e ≤ roundSig p x ∧ roundSig p x ≤ (2 : ℚ) ^ (e + 1) := by
  rw [roundSig_of_bounds p hlo hhi]
  have hu : (0 : ℚ) < (2 : ℚ) ^ (e - ((p : ℤ) - 1)) := by positivity
  obtain ⟨k, hk⟩ : ∃ k : ℕ, ((p : ℤ) - 1) = k := ⟨p - 1, by omega⟩
  have e1 : (2 : ℚ) ^ e = ((2 ^ k : ℤ) : ℚ) * (2 : ℚ) ^ (e - ((p : ℤ) - 1)) := by
    rw [hk]
    push_cast
    rw [← zpow_natCast, ← zpow_add₀ (by norm_num : (2 : ℚ) ≠ 0)]
    congr 1; ring
  have e2 : (2 : ℚ) ^ (e + 1) = ((2 ^ (k + 1) : ℤ) : ℚ) * (2 : ℚ) ^ (e - ((p : ℤ) - 1)) := by
    rw [hk]
    push_cast
    rw [← zpow_natCast, ← zpow_add₀ (by norm_num : (2 : ℚ) ≠ 0)]
    congr 1; push_cast; ring
  constructor
  · rw [e1]
    apply mul_le_mul_of_nonneg_right _ (le_of_lt hu)
    have : ((2 ^ k : ℤ) : ℚ) ≤ x / (2 : ℚ) ^ (e - ((p : ℤ) - 1)) := by
      rw [le_div_iff₀ hu, ← e1]; exact hlo
    have := roundHalfEven_mono this
    rw [roundHalfEven_intCast] at this
    exact_mod_cast this
  · rw [e2]
    apply mul_le_mul_of_nonneg_right _ (le_of_lt hu)
    have : x / (2 : ℚ) ^ (e - ((p : ℤ) - 1)) ≤ ((2 ^ (k + 1) : ℤ) : ℚ) := by
      rw [div_le_iff₀ hu, ← e2]; exact le_of_lt hhi
    have := roundHalfEven_mono this
    rw [roundHalfEven_intCast] at this
    exact_mod_cast this

theorem roundSig_nonneg (p : ℕ) (hp : 1 ≤ p) {x : ℚ} (hx : 0 ≤ x) : 0 ≤ roundSig p x := by
  rcases eq_or_lt_of_le hx with h | h
  · rw [← h, roundSig_zero]
  · obtain ⟨h1, h2⟩ := log_two_bounds h
    exact le_trans (by positivity) (roundSig_binade p hp h1 h2).1

/-- Rounding is monotone on the nonnegative numbers. -/
theorem roundSig_mono (p : ℕ) (hp : 1 ≤ p) {x y : ℚ} (hx : 0 ≤ x) (hxy : x ≤ y) :
    roundSig p x ≤ roundSig p y := by
  rcases eq_or_lt_of_le hx with h | h
  · rw [← h, roundSig_zero]
    exact roundSig_nonneg p hp (le_trans hx hxy)
  · have hy : 0 < y := lt_of_lt_of_le h hxy
    obtain ⟨x1, x2⟩ := log_two_bounds h
    obtain ⟨y1, y2⟩ := log_two_bounds hy
    have hlog : Int.log 2 x ≤ Int.log 2 y := Int.log_mono_right h hxy
    rcases lt_or_eq_of_le hlog with hlt | heq
    · have a := (roundSig_binade p hp x1 x2).2
      have b := (roundSig_binade p hp y1 y2).1
      have c : (2 : ℚ) ^ (Int.log 2 x + 1) ≤ (2 : ℚ) ^ Int.log 2 y :=
        zpow_le_zpow_right₀ (by norm_num) (by omega)
      linarith
    · rw [roundSig_of_bounds p x1 x2, roundSig_of_bounds p y1 y2, heq]
      have hu : (0 : ℚ) < (2 : ℚ) ^ (Int.log 2 y - ((p : ℤ) - 1)) := by positivity
      apply mul_le_mul_of_nonneg_right _ (le_of_lt hu)
      have : x / (2 : ℚ) ^ (Int.log 2 y - ((p : ℤ) - 1)) ≤
          y / (2 : ℚ) ^ (Int.log 2 y - ((p : ℤ) - 1)) :=
        div_le_div_of_nonneg_right hxy (le_of_lt hu)
      exact_mod_cast roundHalfEven_mono this

theorem roundSig_eq_self_of_int (p : ℕ) {x : ℚ} (e m : ℤ) (hlo : (2 : ℚ) ^ e ≤ x)
    (hhi : x < (2 : ℚ) ^ (e + 1)) (hm : x = m * (2 : ℚ) ^ (e - ((p : ℤ) - 1))) :
    roundSig p x = x := by
  have hu : (2 : ℚ) ^ (e - ((p : ℤ) - 1)) ≠ 0 := by positivity
  rw [roundSig_eq_of_near p e m hlo hhi, ← hm]
  rw [hm, mul_div_assoc, div_self hu, mul_one, sub_self, abs_zero]
  norm_num

/-- An integer of at most `p` bits, or the power `2 ^ p`, is its own rounding. -/
theorem roundSig_natCast (p : ℕ) (hp : 1 ≤ p) (n : ℕ) (hn : n ≤ 2 ^ p) :
    roundSig p (n : ℚ) = n := by
  rcases Nat.eq_zero_or_pos n with h0 | hpos
  · subst h0; simp [roundSig_zero]
  · have hx : (0 : ℚ) < n := by exact_mod_cast hpos
    obtain ⟨h1, h2⟩ := log_two_bounds hx
    have he0 : 0 ≤ Int.log 2 (n : ℚ) := by
      rw [Int.log_natCast]; exact Int.natCast_nonneg _
    have hnp : (n : ℚ) ≤ (2 : ℚ) ^ (p : ℤ) := by
      rw [zpow_natCast]; exact_mod_cast hn
    have hep : Int.log 2 (n : ℚ) ≤ p := by
      by_contra hgt
      push_neg at hgt
      have : (2 : ℚ) ^ ((p : ℤ) + 1) ≤ (2 : ℚ) ^ Int.log 2 (n : ℚ) :=
        zpow_le_zpow_right₀ (by norm_num) (by omega)
      have : (2 : ℚ) ^ (p : ℤ) < (2 : ℚ) ^ ((p : ℤ) + 1) :=
        zpow_lt_zpow_right₀ (by norm_num) (by omega)
      linarith
    rcases lt_or_eq_of_le hep with hlt | heq
    · obtain ⟨k, hk⟩ : ∃ k : ℕ, ((p : ℤ) - 1) - Int.log 2 (n : ℚ) = k :=
        ⟨(((p : ℤ) - 1) - Int.log 2 (n : ℚ)).toNat, by omega⟩
      apply roundSig_eq_self_of_int p _ ((n : ℤ) * 2 ^ k) h1 h2
      have hexp : Int.log 2 (n : ℚ) - ((p : ℤ) - 1) = -(k : ℤ) := by omega
      rw [hexp, zpow_neg, zpow_natCast]
      push_cast
      field_simp
    · have hn2 : (n : ℚ) = (2 : ℚ) ^ (p : ℤ) := by
        apply le_antisymm hnp
        rw [← heq]; exact h1
      obtain ⟨k, hk⟩ : ∃ k : ℕ, p = k + 1 := ⟨p - 1, by omega⟩
      apply roundSig_eq_self_of_int p _ (2 ^ k) h1 h2
      have hexp : Int.log 2 (n : ℚ) - ((p : ℤ) - 1) = 1 := by omega
      rw [hexp, hn2, hk]
      push_cast
      rw [zpow_add₀ (by norm_num : (2 : ℚ) ≠ 0), zpow_natCast]

theorem toFloat_natCast (n : ℕ) (hn : n ≤ 2 ^ 24) : toFloat (n : ℚ) = n :=
  roundSig_natCast 24 (by norm_num) n hn

theorem toFloat_intCast_natCast (n : ℕ) (hn : n ≤ 2 ^ 24) : toFloat (((n : ℤ) : ℚ)) = n := by
  rw [Int.cast_natCast]; exact toFloat_natCast n hn

theorem toFloat_mono {x y : ℚ} (hx : 0 ≤ x) (hxy : x ≤ y) : toFloat x ≤ toFloat y :=
  roundSig_mono 24 (by norm_num) hx hxy

theorem toFloat_nonneg {x : ℚ} (hx : 0 ≤ x) : 0 ≤ toFloat x :=
  roundSig_nonneg 24 (by norm_num) hx

theorem toFloat_hundred : toFloat 100 = 100 := by
  have := toFloat_natCast 100 (by norm_num)
  simpa using this

theorem toDouble_twenty : toDouble 20 = 20 := by
  have := roundSig_natCast 53 (by norm_num) 20 (by norm_num)
  simpa [toDouble] using this

theorem toFloat_one_fifth : toFloat (1 / 5) = 13421773 / 67108864 := by
  unfold toFloat
  rw [roundSig_eq_of_near 24 (-3) 13421773 (by norm_num) (by norm_num) (by norm_num [abs_lt])]
  norm_num

theorem toFloat_fifth_times_hundred : toFloat (13421773 / 67108864 * 100) = 20 := by
  unfold toFloat
  rw [roundSig_eq_of_near 24 4 10485760 (by norm_num) (by norm_num) (by norm_num [abs_lt])]
  norm_num

theorem toFloat_below_fifth : toFloat (3355443 / 16777216) = 3355443 / 16777216 := by
  unfold toFloat
  rw [roundSig_eq_of_near 24 (-3) 13421772 (by norm_num) (by norm_num) (by norm_num [abs_lt])]
  norm_num

theorem toFloat_below_fifth_times_hundred :
    toFloat (3355443 / 16777216 * 100) = 10485759 / 524288 := by
  unfold toFloat
  rw [roundSig_eq_of_near 24 4 10485759 (by norm_num) (by norm_num) (by norm_num [abs_lt])]
  norm_num

theorem toFloat_three_tenths : toFloat (3 / 10) = 5033165 / 16777216 := by
  unfold toFloat
  rw [roundSig_eq_of_near 24 (-2) 10066330 (by norm_num) (by norm_num) (by norm_num [abs_lt])]
  norm_num

theorem toFloat_below_three_tenths :
    toFloat (50331647 / 167772160) = 10066329 / 33554432 := by
  unfold toFloat
  rw [roundSig_eq_of_near 24 (-2) 10066329 (by norm_num) (by norm_num) (by norm_num [abs_lt])]
  norm_num

/-- The `double` constant `0.3`. -/
theorem toDouble_three_tenths : toDouble (3 / 10) = 5404319552844595 / 18014398509481984 := by
  unfold toDouble
  rw [roundSig_eq_of_near 53 (-2) 5404319552844595 (by norm_num) (by norm_num)
    (by norm_num [abs_lt])]
  norm_num

/-- The test `perc < 20.0` of the capacity monitor, for a category of at most
`2 ^ 24` active records. -/
theorem percentFloat_lt_twenty_iff (free total : ℕ) (hpos : 0 < total) (hbig : total ≤ 2 ^ 24)
    (hle : free ≤ total) :
    percentFloat free total < toDouble 20 ↔ 100 * free < 20 * total := by
  have hfree : free ≤ 2 ^ 24 := le_trans hle hbig
  have htq : (0 : ℚ) < total := by exact_mod_cast hpos
  unfold percentFloat
  rw [toFloat_intCast_natCast free hfree, toFloat_intCast_natCast total hbig, toFloat_hundred,
    toDouble_twenty]
  have hr0 : (0 : ℚ) ≤ (free : ℚ) / total := by positivity
  constructor
  · intro h
    by_contra hnot
    have h5 : total ≤ 5 * free := by omega
    have hge : (1 : ℚ) / 5 ≤ (free : ℚ) / total := by
      rw [div_le_div_iff₀ (by norm_num) htq]
      have : (total : ℚ) ≤ 5 * free := by exact_mod_cast h5
      linarith
    have hq := toFloat_mono (by norm_num) hge
    rw [toFloat_one_fifth] at hq
    have hp := toFloat_mono (by norm_num : (0 : ℚ) ≤ 13421773 / 67108864 * 100)
      (mul_le_mul_of_nonneg_right hq (by norm_num : (0 : ℚ) ≤ 100))
    rw [toFloat_fifth_times_hundred] at hp
    linarith
  · intro h
    have h5 : 16777216 * free ≤ 3355443 * total := by
      have : (2 : ℕ) ^ 24 = 16777216 := by norm_num
      omega
    have hle' : (free : ℚ) / total ≤ 3355443 / 16777216 := by
      rw [div_le_div_iff₀ htq (by norm_num)]
      have : ((16777216 * free : ℕ) : ℚ) ≤ ((3355443 * total : ℕ) : ℚ) := by exact_mod_cast h5
      push_cast at this
      linarith
    have hq := toFloat_mono hr0 hle'
    rw [toFloat_below_fifth] at hq
    have hq0 := toFloat_nonneg hr0
    have hp := toFloat_mono (mul_nonneg hq0 (by norm_num : (0 : ℚ) ≤ 100))
      (mul_le_mul_of_nonneg_right hq (by norm_num : (0 : ℚ) ≤ 100))
    rw [toFloat_below_fifth_times_hundred] at hp
    have : (10485759 : ℚ) / 524288 < 20 := by norm_num
    linarith

/-- The test `(float) maintenance / total > 0.3` of the strain report, for a
fleet of at most `2 ^ 24` active units: it holds from exactly 30% on. -/
theorem strain_test_iff (maintenance total : ℕ) (hpos : 0 < total) (hbig : total ≤ 2 ^ 24)
    (hle : maintenance ≤ total) :
    toDouble (3 / 10) < toFloat (toFloat (maintenance : ℤ) / toFloat (total : ℤ)) ↔
      3 * total ≤ 10 * maintenance := by
  have hm : maintenance ≤ 2 ^ 24 := le_trans hle hbig
  have htq : (0 : ℚ) < total := by exact_mod_cast hpos
  rw [toFloat_intCast_natCast maintenance hm, toFloat_intCast_natCast total hbig,
    toDouble_three_tenths]
  have hr0 : (0 : ℚ) ≤ (maintenance : ℚ) / total := by positivity
  constructor
  · intro h
    by_contra hnot
    have h5 : 167772160 * maintenance ≤ 50331647 * total := by
      have : (2 : ℕ) ^ 24 = 16777216 := by norm_num
      omega
    have hle' : (maintenance : ℚ) / total ≤ 50331647 / 167772160 := by
      rw [div_le_div_iff₀ htq (by norm_num)]
      have : ((167772160 * maintenance : ℕ) : ℚ) ≤ ((50331647 * total : ℕ) : ℚ) := by
        exact_mod_cast h5
      push_cast at this
      linarith
    have hq := toFloat_mono hr0 hle'
    rw [toFloat_below_three_tenths] at hq
    have : (10066329 : ℚ) / 33554432 < 5404319552844595 / 18014398509481984 := by norm_num
    linarith
  · intro h
    have hge : (3 : ℚ) / 10 ≤ (maintenance : ℚ) / total := by
      rw [div_le_div_iff₀ (by norm_num) htq]
      have : ((3 * total : ℕ) : ℚ) ≤ ((10 * maintenance : ℕ) : ℚ) := by exact_mod_cast h
      push_cast at this
      linarith
    have hq := toFloat_mono (by norm_num) hge
    rw [toFloat_three_tenths] at hq
    have : (5404319552844595 : ℚ) / 18014398509481984 < 5033165 / 16777216 := by norm_num
    linarith

/-! ## Shared lemmas: the counting loops of the strategic reports -/

theorem showOperationalMonitorFirefighters_eq (head : List Firefighter) :
    ∀ totalF freeF : Int, totalF + head.length ≤ INT_MAX → freeF + head.length ≤ INT_MAX →
      showOperationalMonitorFirefighters head totalF freeF =
        some (totalF + activeFirefighters head, freeF + availableFirefighters head) := by
  induction head with
  | nil =>
    intro totalF freeF _ _
    simp [showOperationalMonitorFirefighters, activeFirefighters, availableFirefighters]
  | cons data next ih =>
    intro totalF freeF h1 h2
    simp only [List.length_cons, Nat.cast_add, Nat.cast_one] at h1 h2
    unfold showOperationalMonitorFirefighters activeFirefighters availableFirefighters
    by_cases hi : data.status = .FIREFIGHTER_INACTIVE
    · rw [if_pos hi, ih totalF freeF (by omega) (by omega)]
      simp [hi, activeFirefighters, availableFirefighters]
    · rw [if_neg hi, incInt_of_lt (by omega)]
      by_cases ha : data.status = .AVAILABLE
      · simp only [ha, if_true]
        rw [incInt_of_lt (by omega)]
        simp only
        rw [ih _ _ (by omega) (by omega)]
        simp [ha, activeFirefighters, availableFirefighters]
        constructor <;> ring
      · simp only [ha, if_false]
        rw [ih _ _ (by omega) (by omega)]
        simp [hi, ha, activeFirefighters, availableFirefighters]
        ring

theorem showOperationalMonitorEquipments_eq (head : List Equipment) :
    ∀ totalE freeE : Int, totalE + head.length ≤ INT_MAX → freeE + head.length ≤ INT_MAX →
      showOperationalMonitorEquipments head totalE freeE =
        some (totalE + activeEquipments head, freeE + operationalEquipments head) := by
  induction head with
  | nil =>
    intro totalE freeE _ _
    simp [showOperationalMonitorEquipments, activeEquipments, operationalEquipments]
  | cons data next ih =>
    intro totalE freeE h1 h2
    simp only [List.length_cons, Nat.cast_add, Nat.cast_one] at h1 h2
    unfold showOperationalMonitorEquipments activeEquipments operationalEquipments
    by_cases hi : data.status = .EQUIPMENT_INACTIVE
    · rw [if_pos hi, ih totalE freeE (by omega) (by omega)]
      simp [hi, activeEquipments, operationalEquipments]
    · rw [if_neg hi, incInt_of_lt (by omega)]
      by_cases ha : data.status = .OPERATIONAL
      · simp only [ha, if_true]
        rw [incInt_of_lt (by omega)]
        simp only
        rw [ih _ _ (by omega) (by omega)]
        simp [ha, activeEquipments, operationalEquipments]
        constructor <;> ring
      · simp only [ha, if_false]
        rw [ih _ _ (by omega) (by omega)]
        simp [hi, ha, activeEquipments, operationalEquipments]
        ring

theorem availableFirefighters_le_active (head : List Firefighter) :
    availableFirefighters head ≤ activeFirefighters head := by
  unfold availableFirefighters activeFirefighters
  apply List.countP_mono_left
  intro r _ h
  simp only [decide_eq_true_eq] at h ⊢
  rw [h]; decide

theorem operationalEquipments_le_active (head : List Equipment) :
    operationalEquipments head ≤ activeEquipments head := by
  unfold operationalEquipments activeEquipments
  apply List.countP_mono_left
  intro r _ h
  simp only [decide_eq_true_eq] at h ⊢
  rw [h]; decide

theorem maintenanceEquipments_le_active (head : List Equipment) :
    maintenanceEquipments head ≤ activeEquipments head := by
  unfold maintenanceEquipments activeEquipments
  apply List.countP_mono_left
  intro r _ h
  simp only [decide_eq_true_eq] at h ⊢
  rw [h]; decide

theorem one_le_toFloat_intCast {total : Int} (h : 0 < total) : 1 ≤ toFloat (total : ℚ) := by
  have h1 : (1 : ℚ) ≤ (total : ℚ) := by exact_mod_cast h
  have h2 := toFloat_mono (by norm_num : (0 : ℚ) ≤ 1) h1
  have h3 : toFloat (1 : ℚ) = 1 := by
    have := toFloat_natCast 1 (by norm_num)
    simpa using this
  rw [h3] at h2
  exact h2

theorem divFloat_eq_none (a b : ℚ) : divFloat a b = none ↔ b = 0 := by
  unfold divFloat
  by_cases h : b = 0 <;> simp [h]

theorem divFloat_of_pos (part total : Int) (h : 0 < total) :
    divFloat (toFloat part) (toFloat total) = some (toFloat (toFloat part / toFloat total)) := by
  have h1 := one_le_toFloat_intCast h
  have h0 : toFloat (total : ℚ) ≠ 0 := ne_of_gt (lt_of_lt_of_le one_pos h1)
  simp only [divFloat, if_neg h0]

theorem percentExpr_of_pos (part total : Int) (h : 0 < total) :
    percentExpr part total = some (percentFloat part total) := by
  simp only [percentExpr, divFloat_of_pos part total h, percentFloat]

theorem activeFirefighters_cons (data : Firefighter) (next : List Firefighter) :
    activeFirefighters (data :: next) =
      activeFirefighters next + (if data.status = .FIREFIGHTER_INACTIVE then 0 else 1) := by
  unfold activeFirefighters
  rw [List.countP_cons]
  by_cases h : data.status = .FIREFIGHTER_INACTIVE <;> simp [h]

theorem availableFirefighters_cons (data : Firefighter) (next : List Firefighter) :
    availableFirefighters (data :: next) =
      availableFirefighters next + (if data.status = .AVAILABLE then 1 else 0) := by
  unfold availableFirefighters
  rw [List.countP_cons]
  by_cases h : data.status = .AVAILABLE <;> simp [h]

theorem activeEquipments_cons (data : Equipment) (next : List Equipment) :
    activeEquipments (data :: next) =
      activeEquipments next + (if data.status = .EQUIPMENT_INACTIVE then 0 else 1) := by
  unfold activeEquipments
  rw [List.countP_cons]
  by_cases h : data.status = .EQUIPMENT_INACTIVE <;> simp [h]

theorem operationalEquipments_cons (data : Equipment) (next : List Equipment) :
    operationalEquipments (data :: next) =
      operationalEquipments next + (if data.status = .OPERATIONAL then 1 else 0) := by
  unfold operationalEquipments
  rw [List.countP_cons]
  by_cases h : data.status = .OPERATIONAL <;> simp [h]

theorem maintenanceEquipments_cons (data : Equipment) (next : List Equipment) :
    maintenanceEquipments (data :: next) =
      maintenanceEquipments next + (if data.status = .MAINTENANCE then 1 else 0) := by
  unfold maintenanceEquipments
  rw [List.countP_cons]
  by_cases h : data.status = .MAINTENANCE <;> simp [h]

/-- The firefighter loop has a result as soon as the counts it reaches are
representable, however many Inactive records the store holds. -/
theorem showOperationalMonitorFirefighters_of_active (head : List Firefighter) :
    ∀ totalF freeF : Int, totalF + activeFirefighters head ≤ INT_MAX →
      freeF + availableFirefighters head ≤ INT_MAX →
      showOperationalMonitorFirefighters head totalF freeF =
        some (totalF + activeFirefighters head, freeF + availableFirefighters head) := by
  induction head with
  | nil =>
    intro totalF freeF _ _
    simp [showOperationalMonitorFirefighters, activeFirefighters, availableFirefighters]
  | cons data next ih =>
    intro totalF freeF h1 h2
    rw [activeFirefighters_cons] at h1 ⊢
    rw [availableFirefighters_cons] at h2 ⊢
    unfold showOperationalMonitorFirefighters
    by_cases hi : data.status = .FIREFIGHTER_INACTIVE
    · have ha : data.status ≠ .AVAILABLE := by rw [hi]; decide
      simp only [hi, ha, if_true, if_false, add_zero] at h1 h2 ⊢
      simp only [reduceCtorEq, if_false, add_zero] at h2 ⊢
      exact ih totalF freeF h1 h2
    · simp only [hi, if_false, Nat.cast_add, Nat.cast_one] at h1 ⊢
      rw [incInt_of_lt (by omega)]
      by_cases ha : data.status = .AVAILABLE
      · simp only [ha, if_true, Nat.cast_add, Nat.cast_one] at h2 ⊢
        rw [incInt_of_lt (by omega)]
        simp only
        rw [ih _ _ (by omega) (by omega), add_right_comm totalF, add_right_comm freeF,
          add_assoc totalF, add_assoc freeF]
      · simp only [ha, if_false, Nat.cast_zero, add_zero] at h2 ⊢
        rw [ih _ _ (by omega) (by omega), add_right_comm totalF, add_assoc totalF]

/-- The equipment loop has a result as soon as the counts it reaches are
representable. -/
theorem showOperationalMonitorEquipments_of_active (head : List Equipment) :
    ∀ totalE freeE : Int, totalE + activeEquipments head ≤ INT_MAX →
      freeE + operationalEquipments head ≤ INT_MAX →
      showOperationalMonitorEquipments head totalE freeE =
        some (totalE + activeEquipments head, freeE + operationalEquipments head) := by
  induction head with
  | nil =>
    intro totalE freeE _ _
    simp [showOperationalMonitorEquipments, activeEquipments, operationalEquipments]
  | cons data next ih =>
    intro totalE freeE h1 h2
    rw [activeEquipments_cons] at h1 ⊢
    rw [operationalEquipments_cons] at h2 ⊢
    unfold showOperationalMonitorEquipments
    by_cases hi : data.status = .EQUIPMENT_INACTIVE
    · have ha : data.status ≠ .OPERATIONAL := by rw [hi]; decide
      simp only [hi, ha, if_true, if_false, add_zero] at h1 h2 ⊢
      simp only [reduceCtorEq, if_false, add_zero] at h2 ⊢
      exact ih totalE freeE h1 h2
    · simp only [hi, if_false, Nat.cast_add, Nat.cast_one] at h1 ⊢
      rw [incInt_of_lt (by omega)]
      by_cases ha : data.status = .OPERATIONAL
      · simp only [ha, if_true, Nat.cast_add, Nat.cast_one] at h2 ⊢
        rw [incInt_of_lt (by omega)]
        simp only
        rw [ih _ _ (by omega) (by omega), add_right_comm totalE, add_right_comm freeE,
          add_assoc totalE, add_assoc freeE]
      · simp only [ha, if_false, Nat.cast_zero, add_zero] at h2 ⊢
        rw [ih _ _ (by omega) (by omega), add_right_comm totalE, add_assoc totalE]

theorem showOperationalMonitor_eq (fHead : List Firefighter) (eHead : List Equipment)
    (hF : (activeFirefighters fHead : Int) ≤ INT_MAX)
    (hE : (activeEquipments eHead : Int) ≤ INT_MAX) :
    showOperationalMonitor fHead eHead =
      match showOperationalMonitorBlock (availableFirefighters fHead) (activeFirefighters fHead),
            showOperationalMonitorBlock (operationalEquipments eHead) (activeEquipments eHead) with
      | some humans, some materials => some (humans, materials)
      | _, _ => none := by
  have hf := availableFirefighters_le_active fHead
  have he := operationalEquipments_le_active eHead
  unfold showOperationalMonitor
  rw [showOperationalMonitorFirefighters_of_active fHead 0 0 (by omega) (by omega),
    showOperationalMonitorEquipments_of_active eHead 0 0 (by omega) (by omega)]
  simp

theorem showOperationalMonitorBlock_zero (free : Int) :
    showOperationalMonitorBlock free 0 = some .noData := by
  simp [showOperationalMonitorBlock]

theorem showOperationalMonitorBlock_of_pos (free total : Int) (hpos : 0 < total) :
    showOperationalMonitorBlock free total =
      some (.capacity free total (percentFloat free total)
        (decide (percentFloat free total < 20))) := by
  unfold showOperationalMonitorBlock
  rw [if_pos hpos, percentExpr_of_pos free total hpos, toDouble_twenty]

theorem showOperationalMonitorBlock_isSome (free total : Int) :
    (showOperationalMonitorBlock free total).isSome = true := by
  by_cases h : 0 < total
  · rw [showOperationalMonitorBlock_of_pos free total h]; rfl
  · unfold showOperationalMonitorBlock
    rw [if_neg h]; rfl

theorem showOperationalMonitorBlock_pos (free total : ℕ) (hpos : 0 < total)
    (hbig : total ≤ 2 ^ 24) (hle : free ≤ total) :
    showOperationalMonitorBlock free total =
      some (.capacity free total (percentFloat free total)
        (decide (100 * free < 20 * total))) := by
  rw [showOperationalMonitorBlock_of_pos _ _ (by exact_mod_cast hpos)]
  congr 2
  have := percentFloat_lt_twenty_iff free total hpos hbig hle
  rw [toDouble_twenty] at this
  exact decide_eq_decide.2 this

theorem toFloat_seven_tenths : toFloat (7 / 10) = 11744051 / 16777216 := by
  unfold toFloat
  rw [roundSig_eq_of_near 24 (-1) 11744051 (by norm_num) (by norm_num) (by norm_num [abs_lt])]
  norm_num

theorem toFloat_seven_tenths_times_hundred : toFloat (11744051 / 16777216 * 100) = 70 := by
  unfold toFloat
  rw [roundSig_eq_of_near 24 6 9175040 (by norm_num) (by norm_num) (by norm_num [abs_lt])]
  norm_num

theorem toFloat_three_tenths_times_hundred :
    toFloat (5033165 / 16777216 * 100) = 15728641 / 524288 := by
  unfold toFloat
  rw [roundSig_eq_of_near 24 4 15728641 (by norm_num) (by norm_num) (by norm_num [abs_lt])]
  norm_num

theorem percentFloat_seven_ten : percentFloat 7 10 = 70 := by
  unfold percentFloat
  have h1 := toFloat_intCast_natCast 7 (by norm_num)
  have h2 := toFloat_intCast_natCast 10 (by norm_num)
  simp only [Nat.cast_ofNat] at h1 h2
  rw [h1, h2, toFloat_hundred, toFloat_seven_tenths, toFloat_seven_tenths_times_hundred]

theorem percentFloat_three_ten : percentFloat 3 10 = 15728641 / 524288 := by
  unfold percentFloat
  have h1 := toFloat_intCast_natCast 3 (by norm_num)
  have h2 := toFloat_intCast_natCast 10 (by norm_num)
  simp only [Nat.cast_ofNat] at h1 h2
  rw [h1, h2, toFloat_hundred, toFloat_three_tenths, toFloat_three_tenths_times_hundred]

theorem reportEquipmentStrainLoop_eq (head : List Equipment) :
    ∀ total maintenance operational : Int, total + head.length ≤ INT_MAX →
      maintenance + head.length ≤ INT_MAX → operational + head.length ≤ INT_MAX →
      reportEquipmentStrainLoop head total maintenance operational =
        some (total + activeEquipments head, maintenance + maintenanceEquipments head,
          operational + operationalEquipments head) := by
  induction head with
  | nil =>
    intro total maintenance operational _ _ _
    simp [reportEquipmentStrainLoop, activeEquipments, maintenanceEquipments,
      operationalEquipments]
  | cons data next ih =>
    intro total maintenance operational h1 h2 h3
    simp only [List.length_cons, Nat.cast_add, Nat.cast_one] at h1 h2 h3
    unfold reportEquipmentStrainLoop activeEquipments maintenanceEquipments
      operationalEquipments
    by_cases hi : data.status = .EQUIPMENT_INACTIVE
    · rw [if_pos hi, ih total maintenance operational (by omega) (by omega) (by omega)]
      simp [hi, activeEquipments, maintenanceEquipments, operationalEquipments]
    · rw [if_neg hi, incInt_of_lt (by omega)]
      by_cases hm : data.status = .MAINTENANCE
      · simp only [hm, if_true, reduceCtorEq, if_false]
        rw [incInt_of_lt (by omega)]
        simp only
        rw [ih _ _ _ (by omega) (by omega) (by omega)]
        simp [hm, activeEquipments, maintenanceEquipments, operationalEquipments]
        constructor <;> ring
      · by_cases ho : data.status = .OPERATIONAL
        · simp only [ho, if_true, reduceCtorEq, if_false]
          rw [incInt_of_lt (by omega)]
          simp only
          rw [ih _ _ _ (by omega) (by omega) (by omega)]
          simp [ho, activeEquipments, maintenanceEquipments, operationalEquipments]
          constructor <;> ring
        · simp only [hm, ho, if_false]
          rw [ih _ _ _ (by omega) (by omega) (by omega)]
          simp [hi, hm, ho, activeEquipments, maintenanceEquipments, operationalEquipments]
          ring

/-- C12: in `sampleTenUnits` ten units are active and three of them are in
maintenance, so the maintenance ratio is exactly 30% and does not exceed it
(`10 * 3 > 3 * 10` is false); yet `reportEquipmentStrain` prints the warning,
because the single-precision quotient 5033165/16777216 is above the
double-precision constant `0.3`. -/
theorem strain_flags_exactly_thirty_percent :
    activeEquipments sampleTenUnits = 10 ∧ maintenanceEquipments sampleTenUnits = 3 ∧
    ¬ (10 * maintenanceEquipments sampleTenUnits > 3 * activeEquipments sampleTenUnits) ∧
    toDouble (3 / 10) < toFloat (toFloat ((3 : Int) : ℚ) / toFloat ((10 : Int) : ℚ)) ∧
    reportEquipmentStrain sampleTenUnits =
      some { total := 10, readiness := 70, maintenanceRatio := 15728641 / 524288,
             overstrained := true } := by
  have h3 := toFloat_intCast_natCast 3 (by norm_num)
  have h10 := toFloat_intCast_natCast 10 (by norm_num)
  simp only [Nat.cast_ofNat] at h3 h10
  have hlt : toDouble (3 / 10) < toFloat (toFloat ((3 : Int) : ℚ) / toFloat ((10 : Int) : ℚ)) := by
    rw [h3, h10, toFloat_three_tenths, toDouble_three_tenths]
    norm_num
  refine ⟨by decide, by decide, by decide, hlt, ?_⟩
  unfold reportEquipmentStrain
  rw [reportEquipmentStrainLoop_eq _ 0 0 0 (by decide) (by decide) (by decide)]
  have ha : activeEquipments sampleTenUnits = 10 := by decide
  have hm : maintenanceEquipments sampleTenUnits = 3 := by decide
  have ho : operationalEquipments sampleTenUnits = 7 := by decide
  simp only [ha, hm, ho, Nat.cast_ofNat, zero_add]
  have e7 := percentExpr_of_pos 7 10 (by norm_num)
  have e3 := percentExpr_of_pos 3 10 (by norm_num)
  have d3 := divFloat_of_pos 3 10 (by norm_num)
  rw [percentFloat_seven_ten] at e7
  rw [percentFloat_three_ten] at e3
  simp only [reportEquipmentStrainTest, ne_eq, OfNat.ofNat_ne_zero, not_false_eq_true, if_true,
    e7, e3, d3, decide_eq_true hlt]

/-! ## Shared lemmas: stores without an active record -/

theorem activeFirefighters_cons_eq_zero {data : Firefighter} {next : List Firefighter}
    (h : activeFirefighters (data :: next) = 0) :
    data.status = .FIREFIGHTER_INACTIVE ∧ activeFirefighters next = 0 := by
  unfold activeFirefighters at h ⊢
  rw [List.countP_cons] at h
  by_cases hi : data.status = .FIREFIGHTER_INACTIVE
  · exact ⟨hi, by simpa [hi] using h⟩
  · simp [hi] at h

theorem activeEquipments_cons_eq_zero {data : Equipment} {next : List Equipment}
    (h : activeEquipments (data :: next) = 0) :
    data.status = .EQUIPMENT_INACTIVE ∧ activeEquipments next = 0 := by
  unfold activeEquipments at h ⊢
  rw [List.countP_cons] at h
  by_cases hi : data.status = .EQUIPMENT_INACTIVE
  · exact ⟨hi, by simpa [hi] using h⟩
  · simp [hi] at h

theorem showOperationalMonitorFirefighters_inactive (head : List Firefighter)
    (h : activeFirefighters head = 0) (totalF freeF : Int) :
    showOperationalMonitorFirefighters head totalF freeF = some (totalF, freeF) := by
  induction head with
  | nil => rfl
  | cons data next ih =>
    obtain ⟨hi, hn⟩ := activeFirefighters_cons_eq_zero h
    unfold showOperationalMonitorFirefighters
    rw [if_pos hi, ih hn]

theorem showOperationalMonitorEquipments_inactive (head : List Equipment)
    (h : activeEquipments head = 0) (totalE freeE : Int) :
    showOperationalMonitorEquipments head totalE freeE = some (totalE, freeE) := by
  induction head with
  | nil => rfl
  | cons data next ih =>
    obtain ⟨hi, hn⟩ := activeEquipments_cons_eq_zero h
    unfold showOperationalMonitorEquipments
    rw [if_pos hi, ih hn]

theorem reportEquipmentStrainLoop_inactive (head : List Equipment)
    (h : activeEquipments head = 0) (total maintenance operational : Int) :
    reportEquipmentStrainLoop head total maintenance operational =
      some (total, maintenance, operational) := by
  induction head with
  | nil => rfl
  | cons data next ih =>
    obtain ⟨hi, hn⟩ := activeEquipments_cons_eq_zero h
    unfold reportEquipmentStrainLoop
    rw [if_pos hi, ih hn]

theorem reportEquipmentStrainLoop_total (head : List Equipment) :
    ∀ total maintenance operational : Int, ∀ r,
      reportEquipmentStrainLoop head total maintenance operational = some r →
      r.1 = total + activeEquipments head := by
  induction head with
  | nil =>
    intro total maintenance operational r h
    simp only [reportEquipmentStrainLoop, Option.some.injEq] at h
    subst h
    simp [activeEquipments]
  | cons data next ih =>
    intro total maintenance operational r h
    unfold reportEquipmentStrainLoop at h
    unfold activeEquipments
    rw [List.countP_cons]
    by_cases hi : data.status = .EQUIPMENT_INACTIVE
    · rw [if_pos hi] at h
      have := ih _ _ _ _ h
      simpa [hi, activeEquipments] using this
    · rw [if_neg hi] at h
      cases ht : incInt total with
      | none => simp [ht] at h
      | some tot =>
        obtain ⟨_, rfl⟩ := incInt_eq_some.1 ht
        cases hm : (if data.status = .MAINTENANCE then incInt maintenance
            else some maintenance) with
        | none => simp [ht, hm] at h
        | some maint =>
          cases ho : (if data.status = .OPERATIONAL then incInt operational
              else some operational) with
          | none => simp [ht, hm, ho] at h
          | some oper =>
            simp only [ht, hm, ho] at h
            have := ih _ _ _ _ h
            rw [this]
            simp [hi, activeEquipments]
            ring

/-- The loop of the strain report has a result as soon as the counts it
reaches are representable. -/
theorem reportEquipmentStrainLoop_of_active (head : List Equipment) :
    ∀ total maintenance operational : Int, total + activeEquipments head ≤ INT_MAX →
      maintenance + maintenanceEquipments head ≤ INT_MAX →
      operational + operationalEquipments head ≤ INT_MAX →
      reportEquipmentStrainLoop head total maintenance operational =
        some (total + activeEquipments head, maintenance + maintenanceEquipments head,
          operational + operationalEquipments head) := by
  induction head with
  | nil =>
    intro total maintenance operational _ _ _
    simp [reportEquipmentStrainLoop, activeEquipments, maintenanceEquipments,
      operationalEquipments]
  | cons data next ih =>
    intro total maintenance operational h1 h2 h3
    rw [activeEquipments_cons] at h1 ⊢
    rw [maintenanceEquipments_cons] at h2 ⊢
    rw [operationalEquipments_cons] at h3 ⊢
    unfold reportEquipmentStrainLoop
    by_cases hi : data.status = .EQUIPMENT_INACTIVE
    · simp only [hi, reduceCtorEq, if_true, if_false, Nat.cast_zero, add_zero] at h1 h2 h3 ⊢
      exact ih total maintenance operational h1 h2 h3
    · simp only [hi, if_false, Nat.cast_add, Nat.cast_one] at h1 ⊢
      rw [incInt_of_lt (by omega)]
      by_cases hm : data.status = .MAINTENANCE
      · simp only [hm, reduceCtorEq, if_true, if_false, Nat.cast_add, Nat.cast_one,
          Nat.cast_zero, add_zero] at h2 h3 ⊢
        rw [incInt_of_lt (by omega)]
        simp only
        rw [ih _ _ _ (by omega) (by omega) (by omega), add_right_comm total,
          add_right_comm maintenance, add_assoc total, add_assoc maintenance]
      · by_cases ho : data.status = .OPERATIONAL
        · simp only [ho, reduceCtorEq, if_true, if_false, Nat.cast_add, Nat.cast_one,
            Nat.cast_zero, add_zero] at h2 h3 ⊢
          rw [incInt_of_lt (by omega)]
          simp only
          rw [ih _ _ _ (by omega) (by omega) (by omega), add_right_comm total,
            add_right_comm operational, add_assoc total, add_assoc operational]
        · simp only [hm, ho, if_false, Nat.cast_zero, add_zero] at h2 h3 ⊢
          rw [ih _ _ _ (by omega) (by omega) (by omega), add_right_comm total, add_assoc total]

theorem reportEquipmentStrain_of_loop (head : List Equipment) (total maintenance operational : Int)
    (hl : reportEquipmentStrainLoop head 0 0 0 = some (total, maintenance, operational)) :
    ∃ rep, reportEquipmentStrain head = some rep ∧ rep.total = total := by
  have ht := reportEquipmentStrainLoop_total head 0 0 0 _ hl
  simp only [zero_add] at ht
  have hnn : (0 : Int) ≤ total := by rw [ht]; exact Int.natCast_nonneg _
  unfold reportEquipmentStrain
  rw [hl]
  by_cases h0 : total = 0
  · subst h0
    simp [reportEquipmentStrainTest]
  · have hpos : 0 < total := by omega
    simp only [reportEquipmentStrainTest, ne_eq, h0, not_false_eq_true, if_true,
      percentExpr_of_pos _ _ hpos, divFloat_of_pos _ _ hpos]
    exact ⟨_, rfl, rfl⟩

/-! ## C21: categories without an active record -/

/-- C21: in the capacity monitor a category without any record that is not
Inactive, however many Inactive records it has, prints the "no data" line, with
no percentage and no alert (the monitor has a result when the other category has
at most `INT_MAX` active records); the equipment strain report of a store without any
record that is not Inactive prints total 0, 0 for both ratios and the "healthy"
line.  No division has a zero divisor: a division by zero is the only case in
which `divFloat` has no result, and the monitor and the strain report lack a
result only when one of their counting loops does, that is when a counter
overflows; both have a result whenever at most `INT_MAX` records are
active. -/
theorem zero_active_is_reported_distinctly :
    (∀ (fHead : List Firefighter) (eHead : List Equipment),
      activeFirefighters fHead = 0 → (activeEquipments eHead : Int) ≤ INT_MAX →
      ∃ materials, showOperationalMonitor fHead eHead = some (.noData, materials)) ∧
    (∀ (fHead : List Firefighter) (eHead : List Equipment),
      activeEquipments eHead = 0 → (activeFirefighters fHead : Int) ≤ INT_MAX →
      ∃ humans, showOperationalMonitor fHead eHead = some (humans, .noData)) ∧
    (∀ head : List Equipment, activeEquipments head = 0 →
      reportEquipmentStrain head =
        some { total := 0, readiness := 0, maintenanceRatio := 0, overstrained := false }) ∧
    (∀ a b : ℚ, divFloat a b = none ↔ b = 0) ∧
    (∀ (fHead : List Firefighter) (eHead : List Equipment),
      showOperationalMonitor fHead eHead = none ↔
        showOperationalMonitorFirefighters fHead 0 0 = none ∨
          showOperationalMonitorEquipments eHead 0 0 = none) ∧
    (∀ head : List Equipment,
      reportEquipmentStrain head = none ↔ reportEquipmentStrainLoop head 0 0 0 = none) ∧
    (∀ (fHead : List Firefighter) (eHead : List Equipment),
      (activeFirefighters fHead : Int) ≤ INT_MAX → (activeEquipments eHead : Int) ≤ INT_MAX →
      (showOperationalMonitor fHead eHead).isSome = true) ∧
    (∀ head : List Equipment, (activeEquipments head : Int) ≤ INT_MAX →
      (reportEquipmentStrain head).isSome = true) := by
  refine ⟨fun fHead eHead h0 hlen => ?_, fun fHead eHead h0 hlen => ?_, fun head h0 => ?_,
    divFloat_eq_none, fun fHead eHead => ?_, fun head => ?_, fun fHead eHead hF hE => ?_,
    fun head hlen => ?_⟩
  · obtain ⟨materials, hm⟩ := Option.isSome_iff_exists.1
      (showOperationalMonitorBlock_isSome (0 + (operationalEquipments eHead : Int))
        (0 + (activeEquipments eHead : Int)))
    refine ⟨materials, ?_⟩
    unfold showOperationalMonitor
    have he := operationalEquipments_le_active eHead
    rw [showOperationalMonitorFirefighters_inactive fHead h0,
      showOperationalMonitorEquipments_of_active eHead 0 0 (by omega) (by omega)]
    simp only [showOperationalMonitorBlock_zero, hm]
  · obtain ⟨humans, hh⟩ := Option.isSome_iff_exists.1
      (showOperationalMonitorBlock_isSome (0 + (availableFirefighters fHead : Int))
        (0 + (activeFirefighters fHead : Int)))
    refine ⟨humans, ?_⟩
    unfold showOperationalMonitor
    have hf := availableFirefighters_le_active fHead
    rw [showOperationalMonitorEquipments_inactive eHead h0,
      showOperationalMonitorFirefighters_of_active fHead 0 0 (by omega) (by omega)]
    simp only [showOperationalMonitorBlock_zero, hh]
  · unfold reportEquipmentStrain
    rw [reportEquipmentStrainLoop_inactive head h0]
    simp [reportEquipmentStrainTest, toFloat, roundSig_zero]
  · unfold showOperationalMonitor
    cases hf : showOperationalMonitorFirefighters fHead 0 0 with
    | none => simp
    | some f =>
      cases he : showOperationalMonitorEquipments eHead 0 0 with
      | none => simp
      | some e =>
        obtain ⟨humans, hh⟩ := Option.isSome_iff_exists.1
          (showOperationalMonitorBlock_isSome f.2 f.1)
        obtain ⟨materials, hm⟩ := Option.isSome_iff_exists.1
          (showOperationalMonitorBlock_isSome e.2 e.1)
        simp [hh, hm]
  · cases hl : reportEquipmentStrainLoop head 0 0 0 with
    | none => simp [reportEquipmentStrain, hl]
    | some r =>
      obtain ⟨total, maintenance, operational⟩ := r
      obtain ⟨rep, hrep, _⟩ := reportEquipmentStrain_of_loop head total maintenance operational hl
      simp [hrep]
  · obtain ⟨humans, hh⟩ := Option.isSome_iff_exists.1
      (showOperationalMonitorBlock_isSome (availableFirefighters fHead)
        (activeFirefighters fHead))
    obtain ⟨materials, hm⟩ := Option.isSome_iff_exists.1
      (showOperationalMonitorBlock_isSome (operationalEquipments eHead)
        (activeEquipments eHead))
    rw [showOperationalMonitor_eq fHead eHead hF hE, hh, hm]
    rfl
  · have hm := maintenanceEquipments_le_active head
    have ho := operationalEquipments_le_active head
    have hl := reportEquipmentStrainLoop_of_active head 0 0 0 (by omega) (by omega) (by omega)
    obtain ⟨rep, hrep, _⟩ := reportEquipmentStrain_of_loop head _ _ _ hl
    rw [hrep]; rfl

/-- Witness for C21: `sampleRetired` and `sampleScrapped` hold only Inactive
records; the monitor prints "no data" for the firefighters next to the fleet
`sampleFleet`, and the strain report of `sampleScrapped` is total 0, both ratios
0, healthy. -/
theorem zero_active_is_reported_distinctly_witness :
    activeFirefighters sampleRetired = 0 ∧ activeEquipments sampleScrapped = 0 ∧
    (∃ materials, showOperationalMonitor sampleRetired sampleFleet = some (.noData, materials)) ∧
    reportEquipmentStrain sampleScrapped =
      some { total := 0, readiness := 0, maintenanceRatio := 0, overstrained := false } :=
  ⟨by decide, by decide,
    zero_active_is_reported_distinctly.1 sampleRetired sampleFleet (by decide) (by decide),
    zero_active_is_reported_distinctly.2.2.1 sampleScrapped (by decide)⟩

/-! ## C22: the end date of an occurrence -/

/-- C22: `updateOccurrence` with the new status Resolved and the end date `t`,
aimed at an id whose first active record is `cur`, replaces `cur` by `cur` with
status Resolved and `endedAt = t` and leaves every other record as it was; when
no active record has the id, the store is returned unchanged.  An update to
Reported or to InProgress, a cancellation and a create leave the `endedAt` of
every existing occurrence unchanged, so an occurrence moved from Resolved to
another status keeps its `endedAt`. -/
theorem endedAt_written_only_on_resolve :
    (∀ (pre post : List Occurrence) (cur : Occurrence) (id : Int) (t : DateTime),
      (∀ x ∈ pre, ¬ (x.id = id ∧ x.status ≠ .OCCURRENCE_INACTIVE)) →
      cur.id = id → cur.status ≠ .OCCURRENCE_INACTIVE →
      updateOccurrence (pre ++ cur :: post) id 2 t =
        (pre ++ { cur with status := .RESOLVED, endedAt := t } :: post, .done)) ∧
    (∀ (head : List Occurrence) (id : Int) (t : DateTime),
      (∀ x ∈ head, ¬ (x.id = id ∧ x.status ≠ .OCCURRENCE_INACTIVE)) →
      updateOccurrence head id 2 t = (head, .notFound)) ∧
    (∀ (head : List Occurrence) (id : Int) (st : Fin 3) (t : DateTime), st ≠ 2 →
      (updateOccurrence head id st t).1.map (fun o => o.endedAt) =
        head.map (fun o => o.endedAt)) ∧
    (∀ (head : List Occurrence) (id : Int),
      (deleteOccurrence head id).1.map (fun o => o.endedAt) =
        head.map (fun o => o.endedAt)) ∧
    (∀ (alloc : Bool) (head : List Occurrence) (n : Int) (location : String)
      (type priority : Fin 3) (timestamp uninit : DateTime) (r : List Occurrence × Int),
      createOccurrence alloc head n location type priority timestamp uninit = some r →
      r.1 = head ∨ ∃ new, r.1 = new :: head) := by
  refine ⟨fun pre post cur id t hpre hid hs => ?_, fun head id t h => ?_,
    fun head id st t hst => ?_, fun head id => ?_,
    fun alloc head n location type priority timestamp uninit r h => ?_⟩
  · rw [updateOccurrence_eq, scanUpdate_found _ _ pre post cur hpre ⟨hid, hs⟩]
    rfl
  · rw [updateOccurrence_eq]
    exact scanUpdate_absent _ _ head h
  · rw [updateOccurrence_eq]
    apply scanUpdate_map
    intro x
    simp only [hst, if_false]
  · rw [deleteOccurrence_eq]
    apply scanUpdate_map
    intro x; rfl
  · cases alloc with
    | false =>
      simp only [createOccurrence, if_true, Option.some.injEq] at h
      left; rw [← h]
    | true =>
      obtain ⟨_, rfl⟩ := (createOccurrence_eq_some head n location type priority timestamp
        uninit r).1 h
      exact Or.inr ⟨_, rfl⟩

/-- Witness for C22: in `sampleOccurrences` the occurrence 3, in progress, is
resolved at 2025-01-02 12:00 and receives that end date; the occurrence 5, moved
from Resolved back to Reported, keeps its end date 2025-01-01 09:30. -/
theorem endedAt_written_only_on_resolve_witness :
    (updateOccurrence sampleOccurrences 3 2 ⟨2, 1, 2025, 12, 0⟩).1.map (fun o => o.endedAt) =
      [⟨1, 1, 2025, 9, 30⟩, ⟨1, 1, 2025, 8, 0⟩, ⟨2, 1, 2025, 12, 0⟩, ⟨3, 1, 2025, 18, 0⟩,
        ⟨4, 1, 2025, 10, 31⟩] ∧
    (updateOccurrence sampleOccurrences 5 0 ⟨2, 1, 2025, 12, 0⟩).1.map (fun o => o.endedAt) =
      sampleOccurrences.map (fun o => o.endedAt) ∧
    (updateOccurrence sampleOccurrences 5 0 ⟨2, 1, 2025, 12, 0⟩).1.map (fun o => o.status) =
      [.REPORTED, .RESOLVED, .IN_PROGRESS, .OCCURRENCE_INACTIVE, .RESOLVED] :=
  ⟨by decide,
    endedAt_written_only_on_resolve.2.2.1 sampleOccurrences 5 0 ⟨2, 1, 2025, 12, 0⟩ (by decide),
    by decide⟩

/-! ## Shared lemmas: a create links its node in front -/

theorem createFirefighter_front (alloc : Bool) (head : List Firefighter) (n : Int)
    (name specialty : String) (r : List Firefighter × Int)
    (h : createFirefighter alloc head n name specialty = some r) :
    (alloc = true → ∃ new, r.1 = new :: head) ∧ (alloc = false → r.1 = head) := by
  cases alloc with
  | false =>
    simp only [createFirefighter, if_true, Option.some.injEq] at h
    subst h
    simp
  | true =>
    obtain ⟨_, rfl⟩ := (createFirefighter_eq_some head n name specialty r).1 h
    simp

theorem createEquipment_front (alloc : Bool) (head : List Equipment) (n : Int)
    (designation type : String) (r : List Equipment × Int)
    (h : createEquipment alloc head n designation type = some r) :
    (alloc = true → ∃ new, r.1 = new :: head) ∧ (alloc = false → r.1 = head) := by
  cases alloc with
  | false =>
    simp only [createEquipment, if_true, Option.some.injEq] at h
    subst h
    simp
  | true =>
    obtain ⟨_, rfl⟩ := (createEquipment_eq_some head n designation type r).1 h
    simp

theorem createOccurrence_front (alloc : Bool) (head : List Occurrence) (n : Int)
    (location : String) (type priority : Fin 3) (timestamp uninit : DateTime)
    (r : List Occurrence × Int)
    (h : createOccurrence alloc head n location type priority timestamp uninit = some r) :
    (alloc = true → ∃ new, r.1 = new :: head) ∧ (alloc = false → r.1 = head) := by
  cases alloc with
  | false =>
    simp only [createOccurrence, if_true, Option.some.injEq] at h
    subst h
    simp
  | true =>
    obtain ⟨_, rfl⟩ :=
      (createOccurrence_eq_some head n location type priority timestamp uninit r).1 h
    simp

theorem createIntervention_front (alloc : Bool) (head : List Intervention)
    (occHead : List Occurrence) (fireHead : List Firefighter) (equipHead : List Equipment)
    (n occId : Int) (start : DateTime) (fId : Int) (uninit : DateTime)
    (r : List Intervention × List Firefighter × Int)
    (h : createIntervention alloc head occHead fireHead equipHead n occId start fId uninit =
      some r) :
    (alloc = true → ∃ new, r.1 = new :: head) ∧ (alloc = false → r.1 = head) ∧
    r.2.1.map (fun f => f.id) = fireHead.map (fun f => f.id) := by
  cases alloc with
  | false =>
    simp only [createIntervention, if_true, Option.some.injEq] at h
    subst h
    simp
  | true =>
    obtain ⟨_, fire, hf, rfl⟩ :=
      (createIntervention_eq_some head occHead fireHead equipHead n occId fId start uninit r).1 h
    simp [createInterventionAssign_map_id hf]

/-! ## C23: records, ids and their order -/

/-- C23: for each of the four kinds, a status update and a cancellation return a
store with the same sequence of ids as before (so no record is removed or
added, no id changes and the order is kept), and a create returns the previous
store with exactly one new record linked in front when its node was allocated,
and the previous store itself when it was not.  The firefighter store that
`createIntervention` returns also has the same sequence of ids as before. -/
theorem ids_and_order_preserved :
    ((∀ (head : List Firefighter) (id : Int) (st : Fin 3),
        (updateFirefighter head id st).1.map (fun r => r.id) = head.map (fun r => r.id)) ∧
      (∀ (head : List Firefighter) (id : Int),
        (deleteFirefighter head id).1.map (fun r => r.id) = head.map (fun r => r.id)) ∧
      (∀ (alloc : Bool) (head : List Firefighter) (n : Int) (name specialty : String)
        (r : List Firefighter × Int),
        createFirefighter alloc head n name specialty = some r →
        (alloc = true → ∃ new, r.1 = new :: head) ∧ (alloc = false → r.1 = head))) ∧
    ((∀ (head : List Equipment) (id : Int) (st : Fin 3),
        (updateEquipment head id st).1.map (fun r => r.id) = head.map (fun r => r.id)) ∧
      (∀ (head : List Equipment) (id : Int),
        (deleteEquipment head id).1.map (fun r => r.id) = head.map (fun r => r.id)) ∧
      (∀ (alloc : Bool) (head : List Equipment) (n : Int) (designation type : String)
        (r : List Equipment × Int),
        createEquipment alloc head n designation type = some r →
        (alloc = true → ∃ new, r.1 = new :: head) ∧ (alloc = false → r.1 = head))) ∧
    ((∀ (head : List Occurrence) (id : Int) (st : Fin 3) (endedAt : DateTime),
        (updateOccurrence head id st endedAt).1.map (fun r => r.id) =
          head.map (fun r => r.id)) ∧
      (∀ (head : List Occurrence) (id : Int),
        (deleteOccurrence head id).1.map (fun r => r.id) = head.map (fun r => r.id)) ∧
      (∀ (alloc : Bool) (head : List Occurrence) (n : Int) (location : String)
        (type priority : Fin 3) (timestamp uninit : DateTime) (r : List Occurrence × Int),
        createOccurrence alloc head n location type priority timestamp uninit = some r →
        (alloc = true → ∃ new, r.1 = new :: head) ∧ (alloc = false → r.1 = head))) ∧
    ((∀ (head : List Intervention) (id : Int) (st : Fin 3) (day hour minute : Int),
        (updateIntervention head id st day hour minute).1.map (fun r => r.id) =
          head.map (fun r => r.id)) ∧
      (∀ (head : List Intervention) (id : Int),
        (deleteIntervention head id).1.map (fun r => r.id) = head.map (fun r => r.id)) ∧
      (∀ (alloc : Bool) (head : List Intervention) (occHead : List Occurrence)
        (fireHead : List Firefighter) (equipHead : List Equipment) (n occId : Int)
        (start : DateTime) (fId : Int) (uninit : DateTime)
        (r : List Intervention × List Firefighter × Int),
        createIntervention alloc head occHead fireHead equipHead n occId start fId uninit =
          some r →
        (alloc = true → ∃ new, r.1 = new :: head) ∧ (alloc = false → r.1 = head) ∧
        r.2.1.map (fun f => f.id) = fireHead.map (fun f => f.id))) :=
  ⟨⟨updateFirefighter_map_id, deleteFirefighter_map_id, createFirefighter_front⟩,
    ⟨updateEquipment_map_id, deleteEquipment_map_id, createEquipment_front⟩,
    ⟨updateOccurrence_map_id, deleteOccurrence_map_id, createOccurrence_front⟩,
    ⟨updateIntervention_map_id, deleteIntervention_map_id, createIntervention_front⟩⟩

/-- Witness for C23: a create on `sampleFleet` with counter 2 links one new
record in front of the two records of the store, and an update and a
cancellation of its id 1 keep the ids 2, 1. -/
theorem ids_and_order_preserved_witness :
    createEquipment true sampleFleet 2 "Escada" "Escada" =
      some (⟨3, "Escada", "Escada", .OPERATIONAL⟩ :: sampleFleet, 3) ∧
    ((true = true → ∃ new, (⟨3, "Escada", "Escada", .OPERATIONAL⟩ :: sampleFleet) =
        new :: sampleFleet) ∧
      (true = false → (⟨3, "Escada", "Escada", .OPERATIONAL⟩ :: sampleFleet) = sampleFleet)) ∧
    (updateEquipment sampleFleet 1 2).1.map (fun r => r.id) = [2, 1] ∧
    (deleteEquipment sampleFleet 1).1.map (fun r => r.id) = [2, 1] :=
  ⟨by decide,
    ids_and_order_preserved.2.1.2.2 true sampleFleet 2 "Escada" "Escada"
      (⟨3, "Escada", "Escada", .OPERATIONAL⟩ :: sampleFleet, 3) (by decide),
    by decide, by decide⟩

/-! ## C24: loading when the file cannot be opened -/

/-- C24 fails on the code: when the file cannot be opened, each load returns the
empty store and leaves the counter as it was, here 7, not 0; the first create
afterwards assigns the id 8, not 1. -/
theorem load_without_file_not_zero :
    loadFirefighters 0 none 7 = ([], 7) ∧
    loadEquipments 0 none 7 = some ([], 7) ∧
    loadOccurrences 0 none 7 = some ([], 7) ∧
    loadInterventions 0 none 7 = some ([], 7) ∧
    createFirefighter true (loadFirefighters 0 none 7).1 (loadFirefighters 0 none 7).2
        "Ana" "Resgate" =
      some ([⟨8, "Ana", "Resgate", .AVAILABLE, 0, 0⟩], 8) ∧
    ¬ (∀ (mem : Nat) (idSeq : Int), (loadFirefighters mem none idSeq).2 = 0) := by
  refine ⟨rfl, rfl, rfl, rfl, by decide, fun h => ?_⟩
  have := h 0 7
  revert this
  decide

/-- C24, amended: when the file of a store cannot be opened, its load returns
the empty store and leaves the counter variable as it was.  `main` sets every
counter to 0 before the loads, so for each of the four kinds a session whose
file could not be opened starts with the empty store and the counter 0, and the
first create afterwards assigns the id 1. -/
theorem load_without_file_keeps_counter :
    ((∀ (mem : Nat) (idSeq : Int), loadFirefighters mem none idSeq = ([], idSeq)) ∧
      (∀ (mem : Nat) (idSeq : Int), loadEquipments mem none idSeq = some ([], idSeq)) ∧
      (∀ (mem : Nat) (idSeq : Int), loadOccurrences mem none idSeq = some ([], idSeq)) ∧
      (∀ (mem : Nat) (idSeq : Int), loadInterventions mem none idSeq = some ([], idSeq))) ∧
    (∀ (memF memO memE memI : Nat) (fpO : Option (List Occurrence))
      (fpE : Option (List Equipment)) (fpI : Option (List Intervention)) (s : System),
      mainLoad memF memO memE memI none fpO fpE fpI = some s →
      s.listFirefighters = [] ∧ s.idFirefighter = 0 ∧
      ∀ name specialty, ∃ s1, step s (.createFirefighter true name specialty) = some s1 ∧
        s1.listFirefighters = [⟨1, name, specialty, .AVAILABLE, 0, 0⟩] ∧
        s1.idFirefighter = 1) ∧
    (∀ (memF memO memE memI : Nat) (fpF : Option (List Firefighter))
      (fpO : Option (List Occurrence)) (fpI : Option (List Intervention)) (s : System),
      mainLoad memF memO memE memI fpF fpO none fpI = some s →
      s.listEquipments = [] ∧ s.idEquipment = 0 ∧
      ∀ designation type, ∃ s1, step s (.createEquipment true designation type) = some s1 ∧
        s1.listEquipments = [⟨1, designation, type, .OPERATIONAL⟩] ∧ s1.idEquipment = 1) ∧
    (∀ (memF memO memE memI : Nat) (fpF : Option (List Firefighter))
      (fpE : Option (List Equipment)) (fpI : Option (List Intervention)) (s : System),
      mainLoad memF memO memE memI fpF none fpE fpI = some s →
      s.listOccurrences = [] ∧ s.idOccurrence = 0 ∧
      ∀ location type priority timestamp uninit,
        ∃ s1, step s (.createOccurrence true location type priority timestamp uninit) =
            some s1 ∧
          s1.listOccurrences.map (fun o => o.id) = [1] ∧ s1.idOccurrence = 1) ∧
    (∀ (memF memO memE memI : Nat) (fpF : Option (List Firefighter))
      (fpO : Option (List Occurrence)) (fpE : Option (List Equipment)) (s : System),
      mainLoad memF memO memE memI fpF fpO fpE none = some s →
      s.listInterventions = [] ∧ s.idIntervention = 0 ∧
      ∀ occId start fId uninit,
        (createInterventionAssign s.listFirefighters fId).isSome = true →
        ∃ s1, step s (.createIntervention true occId start fId uninit) = some s1 ∧
          s1.listInterventions.map (fun i => i.id) = [1] ∧ s1.idIntervention = 1) := by
  refine ⟨⟨fun _ _ => rfl, fun _ _ => rfl, fun _ _ => rfl, fun _ _ => rfl⟩, ?_, ?_, ?_, ?_⟩
  · intro memF memO memE memI fpO fpE fpI s h
    unfold mainLoad at h
    cases ho : loadOccurrences memO fpO System.initial.idOccurrence with
    | none => simp [ho] at h
    | some occ =>
      cases he : loadEquipments memE fpE System.initial.idEquipment with
      | none => simp [ho, he] at h
      | some equip =>
        cases hi : loadInterventions memI fpI System.initial.idIntervention with
        | none => simp [ho, he, hi] at h
        | some interv =>
          simp only [ho, he, hi, Option.some.injEq] at h
          subst h
          refine ⟨rfl, rfl, fun name specialty => ⟨_, rfl, rfl, rfl⟩⟩
  · intro memF memO memE memI fpF fpO fpI s h
    unfold mainLoad at h
    cases ho : loadOccurrences memO fpO System.initial.idOccurrence with
    | none => simp [ho] at h
    | some occ =>
      cases hi : loadInterventions memI fpI System.initial.idIntervention with
      | none => simp [ho, hi, loadEquipments] at h
      | some interv =>
        simp only [ho, hi, loadEquipments, Option.some.injEq] at h
        subst h
        refine ⟨rfl, rfl, fun designation type => ⟨_, rfl, rfl, rfl⟩⟩
  · intro memF memO memE memI fpF fpE fpI s h
    unfold mainLoad at h
    cases he : loadEquipments memE fpE System.initial.idEquipment with
    | none => simp [he, loadOccurrences] at h
    | some equip =>
      cases hi : loadInterventions memI fpI System.initial.idIntervention with
      | none => simp [he, hi, loadOccurrences] at h
      | some interv =>
        simp only [he, hi, loadOccurrences, Option.some.injEq] at h
        subst h
        refine ⟨rfl, rfl, fun location type priority timestamp uninit => ⟨_, rfl, rfl, rfl⟩⟩
  · intro memF memO memE memI fpF fpO fpE s h
    unfold mainLoad at h
    cases ho : loadOccurrences memO fpO System.initial.idOccurrence with
    | none => simp [ho] at h
    | some occ =>
      cases he : loadEquipments memE fpE System.initial.idEquipment with
      | none => simp [ho, he] at h
      | some equip =>
        simp only [ho, he, loadInterventions, Option.some.injEq] at h
        subst h
        refine ⟨rfl, rfl, fun occId start fId uninit hf => ?_⟩
        obtain ⟨fire, hfire⟩ := Option.isSome_iff_exists.1 hf
        simp only at hfire
        refine ⟨⟨fire, occ.1, equip.1,
          [⟨1, occId, start, ⟨0, uninit.month, 0, uninit.hour, uninit.minute⟩, .IN_PLANNING,
            fId⟩], (loadFirefighters memF fpF System.initial.idFirefighter).2, occ.2, equip.2,
          1⟩, ?_, rfl, rfl⟩
        simp only [step, createIntervention, hfire]
        rfl

/-- Witness for C24 amended: with none of the four files a session starts in the
initial state, and the first firefighter created receives the id 1. -/
theorem load_without_file_keeps_counter_witness :
    mainLoad 0 0 0 0 none none none none = some System.initial ∧
    System.initial.listFirefighters = [] ∧ System.initial.idFirefighter = 0 ∧
    ∀ name specialty, ∃ s1,
      step System.initial (.createFirefighter true name specialty) = some s1 ∧
      s1.listFirefighters = [⟨1, name, specialty, .AVAILABLE, 0, 0⟩] ∧ s1.idFirefighter = 1 :=
  ⟨rfl, load_without_file_keeps_counter.2.1 0 0 0 0 none none none System.initial rfl⟩

/-! ## Shared lemmas: how an action changes the intervention store -/

theorem updateIntervention_map_end (head : List Intervention) (id : Int) (st : Fin 3)
    (day hour minute : Int) :
    (updateIntervention head id st day hour minute).1.map
        (fun r => (r.«end».year, r.«end».month)) =
      head.map (fun r => (r.«end».year, r.«end».month)) := by
  rw [updateIntervention_eq]
  apply scanUpdate_map
  intro x
  by_cases h : st = 2 <;> simp [h]

theorem deleteIntervention_map_end (head : List Intervention) (id : Int) :
    (deleteIntervention head id).1.map (fun r => (r.«end».year, r.«end».month)) =
      head.map (fun r => (r.«end».year, r.«end».month)) := by
  rw [deleteIntervention_eq]
  apply scanUpdate_map
  intro x; rfl

theorem updateInterventions_map_end (updates : List (Int × Fin 3 × Int × Int × Int)) :
    ∀ head : List Intervention,
      (updateInterventions head updates).map (fun r => (r.«end».year, r.«end».month)) =
        head.map (fun r => (r.«end».year, r.«end».month)) := by
  induction updates with
  | nil => intro head; rfl
  | cons u us ih =>
    intro head
    unfold updateInterventions
    rw [ih, updateIntervention_map_end]

theorem forall_mem_of_map_eq {α β : Type} (f : α → β) (P : β → Prop) {l l' : List α}
    (h : l'.map f = l.map f) (hl : ∀ x ∈ l, P (f x)) : ∀ x ∈ l', P (f x) := by
  intro x hx
  have : f x ∈ l.map f := by rw [← h]; exact List.mem_map_of_mem f hx
  obtain ⟨y, hy, hxy⟩ := List.mem_map.1 this
  rw [← hxy]
  exact hl y hy

/-- The effect of one action on the intervention store: nothing, a new record
in front whose end year is 0, an update, a cancellation, or the reversal of a
restart. -/
theorem step_listInterventions (s s' : System) (op : Op) (h : step s op = some s') :
    s'.listInterventions = s.listInterventions ∨
    (∃ new : Intervention, new.«end».year = 0 ∧
      s'.listInterventions = new :: s.listInterventions) ∨
    (∃ id st day hour minute,
      s'.listInterventions = (updateIntervention s.listInterventions id st day hour minute).1) ∨
    (∃ id, s'.listInterventions = (deleteIntervention s.listInterventions id).1) ∨
    s'.listInterventions = s.listInterventions.reverse := by
  cases op with
  | createFirefighter alloc name specialty =>
    simp only [step] at h
    cases hc : createFirefighter alloc s.listFirefighters s.idFirefighter name specialty with
    | none => simp [hc] at h
    | some r => simp only [hc, Option.some.injEq] at h; subst h; exact Or.inl rfl
  | listFirefighters => simp only [step, Option.some.injEq] at h; subst h; exact Or.inl rfl
  | updateFirefighter id st =>
    simp only [step, Option.some.injEq] at h; subst h; exact Or.inl rfl
  | deleteFirefighter id =>
    simp only [step, Option.some.injEq] at h; subst h; exact Or.inl rfl
  | createOccurrence alloc location type priority timestamp uninit =>
    simp only [step] at h
    cases hc : createOccurrence alloc s.listOccurrences s.idOccurrence location type priority
        timestamp uninit with
    | none => simp [hc] at h
    | some r => simp only [hc, Option.some.injEq] at h; subst h; exact Or.inl rfl
  | listOccurrences => simp only [step, Option.some.injEq] at h; subst h; exact Or.inl rfl
  | updateOccurrence id st endedAt =>
    simp only [step, Option.some.injEq] at h; subst h; exact Or.inl rfl
  | deleteOccurrence id =>
    simp only [step, Option.some.injEq] at h; subst h; exact Or.inl rfl
  | createEquipment alloc designation type =>
    simp only [step] at h
    cases hc : createEquipment alloc s.listEquipments s.idEquipment designation type with
    | none => simp [hc] at h
    | some r => simp only [hc, Option.some.injEq] at h; subst h; exact Or.inl rfl
  | listEquipments => simp only [step, Option.some.injEq] at h; subst h; exact Or.inl rfl
  | updateEquipment id st =>
    simp only [step, Option.some.injEq] at h; subst h; exact Or.inl rfl
  | deleteEquipment id =>
    simp only [step, Option.some.injEq] at h; subst h; exact Or.inl rfl
  | createIntervention alloc occId start fId uninit =>
    simp only [step] at h
    cases hc : createIntervention alloc s.listInterventions s.listOccurrences
        s.listFirefighters s.listEquipments s.idIntervention occId start fId uninit with
    | none => simp [hc] at h
    | some r =>
      simp only [hc, Option.some.injEq] at h; subst h
      cases alloc with
      | false =>
        simp only [createIntervention, if_true, Option.some.injEq] at hc
        subst hc
        exact Or.inl rfl
      | true =>
        obtain ⟨_, fire, _, rfl⟩ := (createIntervention_eq_some _ _ _ _ _ _ _ _ _ _).1 hc
        exact Or.inr (Or.inl ⟨_, rfl, rfl⟩)
  | listInterventions => simp only [step, Option.some.injEq] at h; subst h; exact Or.inl rfl
  | updateIntervention id st day hour minute =>
    simp only [step, Option.some.injEq] at h; subst h
    exact Or.inr (Or.inr (Or.inl ⟨id, st, day, hour, minute, rfl⟩))
  | deleteIntervention id =>
    simp only [step, Option.some.injEq] at h; subst h
    exact Or.inr (Or.inr (Or.inr (Or.inl ⟨id, rfl⟩)))
  | report => simp only [step, Option.some.injEq] at h; subst h; exact Or.inl rfl
  | restart memF memO memE memI =>
    simp only [step] at h
    obtain ⟨_, _, _, rfl⟩ := (restart_eq_some s s' memF memO memE memI).1 h
    exact Or.inr (Or.inr (Or.inr (Or.inr rfl)))

theorem step_end_year (s s' : System) (op : Op) (h : step s op = some s')
    (hinv : ∀ r ∈ s.listInterventions, r.«end».year = 0) :
    ∀ r ∈ s'.listInterventions, r.«end».year = 0 := by
  rcases step_listInterventions s s' op h with
    he | ⟨new, hn, he⟩ | ⟨id, st, day, hour, minute, he⟩ | ⟨id, he⟩ | he
  · rw [he]; exact hinv
  · rw [he]
    intro r hr
    rcases List.mem_cons.1 hr with rfl | hr
    · exact hn
    · exact hinv r hr
  · rw [he]
    exact forall_mem_of_map_eq (fun r : Intervention => (r.«end».year, r.«end».month))
      (fun p => p.1 = 0) (updateIntervention_map_end _ id st day hour minute) hinv
  · rw [he]
    exact forall_mem_of_map_eq (fun r : Intervention => (r.«end».year, r.«end».month))
      (fun p => p.1 = 0) (deleteIntervention_map_end _ id) hinv
  · rw [he]
    intro r hr
    exact hinv r (List.mem_reverse.1 hr)

theorem run_end_year (ops : List Op) :
    ∀ s s' : System, run s ops = some s' →
      (∀ r ∈ s.listInterventions, r.«end».year = 0) →
      ∀ r ∈ s'.listInterventions, r.«end».year = 0 := by
  induction ops with
  | nil =>
    intro s s' h hinv
    simp only [run, Option.some.injEq] at h
    subst h; exact hinv
  | cons op ops ih =>
    intro s s' h hinv
    unfold run at h
    cases hs : step s op with
    | none => simp [hs] at h
    | some s1 =>
      simp only [hs] at h
      exact ih s1 s' h (step_end_year s s1 op hs hinv)

/-! ## C25: the end date written by `updateIntervention` -/

/-- C25: `updateIntervention` with the new status 2, aimed at an id whose first
record is `cur`, replaces `cur` by `cur` with status Finished and the typed day,
hour and minute in its end, the year and the month of the end staying as they
were; for every new status the years and months of the ends of the whole store
are unchanged, also after any sequence of updates.  Hence the record built by
`createIntervention` still has end year 0 after any sequence of updates, and in
every store reached by a session from the initial state every intervention has
end year 0. -/
theorem update_writes_day_hour_minute :
    (∀ (pre post : List Intervention) (cur : Intervention) (id day hour minute : Int),
      (∀ x ∈ pre, x.id ≠ id) → cur.id = id →
      updateIntervention (pre ++ cur :: post) id 2 day hour minute =
        (pre ++ { cur with
            status := .FINISHED,
            «end» := ⟨day, cur.«end».month, cur.«end».year, hour, minute⟩ } :: post, .done)) ∧
    (∀ (head : List Intervention) (id : Int) (st : Fin 3) (day hour minute : Int),
      (updateIntervention head id st day hour minute).1.map
          (fun r => (r.«end».year, r.«end».month)) =
        head.map (fun r => (r.«end».year, r.«end».month))) ∧
    (∀ (head : List Intervention) (updates : List (Int × Fin 3 × Int × Int × Int)),
      (updateInterventions head updates).map (fun r => (r.«end».year, r.«end».month)) =
        head.map (fun r => (r.«end».year, r.«end».month))) ∧
    (∀ (head : List Intervention) (occHead : List Occurrence) (fireHead : List Firefighter)
      (equipHead : List Equipment) (n occId : Int) (start : DateTime) (fId : Int)
      (uninit : DateTime) (r : List Intervention × List Firefighter × Int)
      (updates : List (Int × Fin 3 × Int × Int × Int)),
      createIntervention true head occHead fireHead equipHead n occId start fId uninit =
        some r →
      ((updateInterventions r.1 updates).map (fun x => x.«end».year)).head? = some 0) ∧
    (∀ (ops : List Op) (s : System), run System.initial ops = some s →
      ∀ r ∈ s.listInterventions, r.«end».year = 0) := by
  refine ⟨fun pre post cur id day hour minute hpre hid => ?_, updateIntervention_map_end,
    fun head updates => updateInterventions_map_end updates head, ?_, fun ops s h => ?_⟩
  · rw [updateIntervention_eq, scanUpdate_found _ _ pre post cur hpre hid]
    rfl
  · intro head occHead fireHead equipHead n occId start fId uninit r updates h
    obtain ⟨_, fire, _, rfl⟩ := (createIntervention_eq_some _ _ _ _ _ _ _ _ _ _).1 h
    have := congrArg (List.map Prod.fst) (updateInterventions_map_end updates
      (({ id := n + 1, idOccurrence := occId, start := start,
          «end» := { uninit with day := 0, year := 0 }, status := .IN_PLANNING,
          assignedFirefighterId := fId } : Intervention) :: head))
    simp only [List.map_map] at this
    have e : (Prod.fst ∘ fun r : Intervention => (r.«end».year, r.«end».month)) =
        fun x => x.«end».year := rfl
    rw [e] at this
    rw [this]
    rfl
  · exact run_end_year ops System.initial s h (by simp [System.initial])

/-- Witness for C25: in `sampleCompletion` an intervention is created and then
finished with day 5, 10:30; its end is day 5, month 9, year 0, 10:30. -/
theorem update_writes_day_hour_minute_witness :
    run System.initial sampleCompletion = some sampleCompleted ∧
    sampleCompleted.listInterventions.map (fun r => r.«end») = [⟨5, 9, 0, 10, 30⟩] ∧
    ∀ r ∈ sampleCompleted.listInterventions, r.«end».year = 0 :=
  ⟨by decide, by decide,
    update_writes_day_hour_minute.2.2.2.2 sampleCompletion sampleCompleted (by decide)⟩

/-! ## Shared lemmas: an end date whose year is 0 -/

theorem minutesExpr_endWithoutYear {e : DateTime} (h : EndWithoutYear e) :
    minutesExpr e = some (linearizedMinutes e) := by
  obtain ⟨y, ⟨m1, m2⟩, ⟨d1, d2⟩, ⟨h1, h2⟩, ⟨n1, n2⟩⟩ := h
  unfold minutesExpr linearizedMinutes
  rw [mulInt_of_range (by simp only [INT_MIN, INT_MAX]; omega),
    mulInt_of_range (by simp only [INT_MIN, INT_MAX]; omega),
    mulInt_of_range (by simp only [INT_MIN, INT_MAX]; omega),
    mulInt_of_range (by simp only [INT_MIN, INT_MAX]; omega)]
  simp only
  rw [addInt_of_range (by simp only [INT_MIN, INT_MAX]; omega)]
  simp only
  rw [addInt_of_range (by simp only [INT_MIN, INT_MAX]; omega)]
  simp only
  rw [addInt_of_range (by simp only [INT_MIN, INT_MAX]; omega)]
  simp only
  rw [addInt_of_range (by simp only [INT_MIN, INT_MAX]; omega)]

theorem linearizedMinutes_endWithoutYear_bounds {e : DateTime} (h : EndWithoutYear e) :
    0 ≤ linearizedMinutes e ∧ linearizedMinutes e ≤ 564479 := by
  obtain ⟨y, ⟨m1, m2⟩, ⟨d1, d2⟩, ⟨h1, h2⟩, ⟨n1, n2⟩⟩ := h
  unfold linearizedMinutes
  constructor <;> omega

theorem diffMinutes_endWithoutYear {s e : DateTime} (hs : ValidDateTime s)
    (he : EndWithoutYear e) :
    diffMinutes s e = some (linearizedMinutes e - linearizedMinutes s) ∧
      linearizedMinutes e - linearizedMinutes s < 0 := by
  have b1 := linearizedMinutes_valid_bounds hs
  have b2 := linearizedMinutes_endWithoutYear_bounds he
  refine ⟨?_, by omega⟩
  apply diffMinutes_of_minutes (minutesExpr_valid hs) (minutesExpr_endWithoutYear he)
  simp only [INT_MIN, INT_MAX]
  constructor <;> omega

theorem reportInterventionStatsLoop_skip (r : Intervention) (next : List Intervention)
    (count totalDuration : Int) (hs : ValidDateTime r.start) (he : EndWithoutYear r.«end») :
    reportInterventionStatsLoop (r :: next) count totalDuration =
      reportInterventionStatsLoop next count totalDuration := by
  obtain ⟨hd, hneg⟩ := diffMinutes_endWithoutYear hs he
  have hle : ¬ linearizedMinutes r.«end» - linearizedMinutes r.start > 0 := by omega
  by_cases hf : r.status = .FINISHED
  · simp only [reportInterventionStatsLoop, hf, hd, if_true, hle, if_false]
  · simp only [reportInterventionStatsLoop, hf, if_false]

theorem reportInterventionStatsLoop_all_skip (head : List Intervention) (count totalDuration : Int)
    (h : ∀ r ∈ head, r.status = .FINISHED ∧ ValidDateTime r.start ∧ EndWithoutYear r.«end») :
    reportInterventionStatsLoop head count totalDuration = some (count, totalDuration) := by
  induction head with
  | nil => rfl
  | cons r next ih =>
    obtain ⟨_, hs, he⟩ := h r (List.mem_cons_self _ _)
    rw [reportInterventionStatsLoop_skip r next count totalDuration hs he]
    exact ih (fun x hx => h x (List.mem_cons_of_mem _ hx))

/-! ## C26: Finished interventions whose end has the year 0 -/

/-- C26: for a start in the ranges of the input and an end whose year is 0, with
month 0..12, day 0..31, hour 0..23 and minute 0..59, `diffMinutes` has the
result `L end - L start`, which is strictly negative.  Hence the statistics loop
passes over such an intervention without changing the count or the sum, it
contributes no positive duration, and for a store made only of Finished
interventions of this kind the report prints no average ("Nenhuma intervenção
concluída") and the count 0. -/
theorem year_zero_end_is_skipped :
    (∀ s e : DateTime, ValidDateTime s → EndWithoutYear e →
      diffMinutes s e = some (linearizedMinutes e - linearizedMinutes s) ∧
      linearizedMinutes e - linearizedMinutes s < 0) ∧
    (∀ (r : Intervention) (next : List Intervention) (count totalDuration : Int),
      r.status = .FINISHED → ValidDateTime r.start → EndWithoutYear r.«end» →
      reportInterventionStatsLoop (r :: next) count totalDuration =
        reportInterventionStatsLoop next count totalDuration ∧
      positiveDurations (r :: next) = positiveDurations next) ∧
    (∀ head : List Intervention,
      (∀ r ∈ head, r.status = .FINISHED ∧ ValidDateTime r.start ∧ EndWithoutYear r.«end») →
      reportInterventionStats head = some { average := none, total := 0 }) := by
  refine ⟨fun s e hs he => diffMinutes_endWithoutYear hs he,
    fun r next count totalDuration _ hs he =>
      ⟨reportInterventionStatsLoop_skip r next count totalDuration hs he, ?_⟩,
    fun head h => ?_⟩
  · rw [positiveDurations_cons, if_neg]
    intro hc
    have := (diffMinutes_endWithoutYear hs he).2
    omega
  · unfold reportInterventionStats
    rw [reportInterventionStatsLoop_all_skip head 0 0 h]
    rfl

/-- Witness for C26: the only intervention of `sampleFinished` is Finished with
start 2025-05-03 08:00 and end day 5, month 0, year 0, 10:30; the report prints
no average and the count 0. -/
theorem year_zero_end_is_skipped_witness :
    (∀ r ∈ sampleFinished,
      r.status = .FINISHED ∧ ValidDateTime r.start ∧ EndWithoutYear r.«end») ∧
    reportInterventionStats sampleFinished = some { average := none, total := 0 } :=
  ⟨by decide, year_zero_end_is_skipped.2.2 sampleFinished (by decide)⟩

/-! ## C27: the linearization at the end of a month -/

theorem reportOperationalEfficiencyLoop_clamped (data : Occurrence) (next : List Occurrence)
    (acc : EfficiencyTotals) (minutes : Int) (hs : data.status = .RESOLVED)
    (hy : data.endedAt.year ≠ 0)
    (hc : calcMinutes data.timestamp data.endedAt = some minutes) (hneg : minutes < 0)
    (hacc : AccumulatorsInRange acc) :
    reportOperationalEfficiencyLoop (data :: next) acc =
      reportOperationalEfficiencyLoop next (countedWithZero acc data.type) := by
  obtain ⟨hf, hu, hi, cf, cu, ci⟩ := hacc
  simp only [reportOperationalEfficiencyLoop, hs, reduceCtorEq, false_or, hy, if_false, if_true,
    hc, hneg]
  cases ht : data.type with
  | FOREST =>
    simp only [if_true, countedWithZero]
    rw [addInt_of_range (by simpa using hf), incInt_of_lt cf]
    simp
  | URBAN =>
    simp only [reduceCtorEq, if_false, if_true, countedWithZero]
    rw [addInt_of_range (by simpa using hu), incInt_of_lt cu]
    simp
  | INDUSTRIAL =>
    simp only [reduceCtorEq, if_false, if_true, countedWithZero]
    rw [addInt_of_range (by simpa using hi), incInt_of_lt ci]
    simp

/-- C27: the linearized minutes do not follow the chronological order on
validated inputs.  31 January 2025 12:00 is chronologically before 1 February
2025 06:00, both in the ranges of the input, and `calcMinutes` gives -360; day
31 of a month at a given time linearizes to the same value as day 1 of the
following month at that time, so that `calcMinutes` gives 0 between them.  The
efficiency report replaces a negative duration by 0 and still counts the
occurrence: the loop goes on with the count of its type incremented and the sums
unchanged, and for the store `sampleMonthEnd` the report is average 0, count 1
for the forest fires. -/
theorem linearization_not_chronological :
    (ValidDateTime ⟨31, 1, 2025, 12, 0⟩ ∧ ValidDateTime ⟨1, 2, 2025, 6, 0⟩ ∧
      ChronologicallyBefore ⟨31, 1, 2025, 12, 0⟩ ⟨1, 2, 2025, 6, 0⟩ ∧
      calcMinutes ⟨31, 1, 2025, 12, 0⟩ ⟨1, 2, 2025, 6, 0⟩ = some (-360)) ∧
    (∀ month year hour minute : Int,
      linearizedMinutes ⟨31, month, year, hour, minute⟩ =
        linearizedMinutes ⟨1, month + 1, year, hour, minute⟩) ∧
    (∀ month year hour minute : Int,
      ValidDateTime ⟨31, month, year, hour, minute⟩ →
      ValidDateTime ⟨1, month + 1, year, hour, minute⟩ →
      ChronologicallyBefore ⟨31, month, year, hour, minute⟩ ⟨1, month + 1, year, hour, minute⟩ ∧
      calcMinutes ⟨31, month, year, hour, minute⟩ ⟨1, month + 1, year, hour, minute⟩ =
        some 0) ∧
    (∀ (data : Occurrence) (next : List Occurrence) (acc : EfficiencyTotals) (minutes : Int),
      data.status = .RESOLVED → data.endedAt.year ≠ 0 →
      calcMinutes data.timestamp data.endedAt = some minutes → minutes < 0 →
      AccumulatorsInRange acc →
      reportOperationalEfficiencyLoop (data :: next) acc =
        reportOperationalEfficiencyLoop next (countedWithZero acc data.type)) ∧
    reportOperationalEfficiency sampleMonthEnd =
      some { forest := { average := 0, count := 1 }, urban := { average := 0, count := 0 },
             industrial := { average := 0, count := 0 } } := by
  refine ⟨⟨by decide, by decide, by decide, by decide⟩, ?_, ?_,
    reportOperationalEfficiencyLoop_clamped, by decide⟩
  · intro month year hour minute
    simp only [linearizedMinutes]
    ring
  · intro month year hour minute hs he
    refine ⟨?_, ?_⟩
    · unfold ChronologicallyBefore
      simp
    · have := diffMinutes_valid hs he
      rw [calcMinutes_eq_diffMinutes, this]
      simp only [linearizedMinutes, Option.some.injEq]
      ring

/-- Witness for C27: from 31 March 2024 23:59 to 1 April 2024 23:59 the helper
gives 0, and the occurrence of `sampleMonthEnd`, whose duration is -360, is
counted with the duration 0. -/
theorem linearization_not_chronological_witness :
    (ChronologicallyBefore ⟨31, 3, 2024, 23, 59⟩ ⟨1, 3 + 1, 2024, 23, 59⟩ ∧
      calcMinutes ⟨31, 3, 2024, 23, 59⟩ ⟨1, 3 + 1, 2024, 23, 59⟩ = some 0) ∧
    reportOperationalEfficiencyLoop sampleMonthEnd ⟨0, 0, 0, 0, 0, 0⟩ =
      some ⟨0, 1, 0, 0, 0, 0⟩ :=
  ⟨linearization_not_chronological.2.2.1 3 2024 23 59 (by decide) (by decide), by decide⟩

/-! ## Shared lemmas: how an action changes the occurrence store -/

theorem scanUpdate_forall {α : Type} (p : α → Prop) [DecidablePred p] (f : α → α)
    (P : α → Prop) (hf : ∀ x, P x → p x → P (f x)) (l : List α) (hl : ∀ x ∈ l, P x) :
    ∀ x ∈ (scanUpdate p f l).1, P x := by
  induction l with
  | nil => intro x hx; simp [scanUpdate] at hx
  | cons a as ih =>
    have ha : P a := hl a (List.mem_cons_self _ _)
    have has : ∀ x ∈ as, P x := fun x hx => hl x (List.mem_cons_of_mem _ hx)
    intro x hx
    unfold scanUpdate at hx
    by_cases hp : p a
    · rw [if_pos hp] at hx
      rcases List.mem_cons.1 hx with rfl | hx
      · exact hf a ha hp
      · exact has x hx
    · rw [if_neg hp] at hx
      rcases List.mem_cons.1 hx with rfl | hx
      · exact ha
      · exact ih has x hx

theorem updateOccurrence_resolvedHasEnd (head : List Occurrence) (id : Int) (st : Fin 3)
    (endedAt : DateTime) (hv : st = 2 → ValidDateTime endedAt)
    (h : ∀ o ∈ head, ResolvedHasEnd o) :
    ∀ o ∈ (updateOccurrence head id st endedAt).1, ResolvedHasEnd o := by
  rw [updateOccurrence_eq]
  apply scanUpdate_forall _ _ ResolvedHasEnd _ head h
  intro x hx _
  refine ⟨hx.1, ?_⟩
  by_cases h2 : st = 2
  · intro _
    simp only [h2, if_true]
    exact hv h2
  · intro hr
    have key : ∀ t : Fin 3, t ≠ 2 → OccurrenceStatus.ofInput t ≠ .RESOLVED := by decide
    exact absurd hr (key st h2)

theorem deleteOccurrence_resolvedHasEnd (head : List Occurrence) (id : Int)
    (h : ∀ o ∈ head, ResolvedHasEnd o) :
    ∀ o ∈ (deleteOccurrence head id).1, ResolvedHasEnd o := by
  rw [deleteOccurrence_eq]
  apply scanUpdate_forall _ _ ResolvedHasEnd _ head h
  intro x hx _
  exact ⟨hx.1, fun hr => by simp at hr⟩

theorem step_resolvedHasEnd (s s' : System) (op : Op) (h : step s op = some s')
    (hv : ValidatedInput op) (hinv : ∀ o ∈ s.listOccurrences, ResolvedHasEnd o) :
    ∀ o ∈ s'.listOccurrences, ResolvedHasEnd o := by
  cases op with
  | createFirefighter alloc name specialty =>
    simp only [step] at h
    cases hc : createFirefighter alloc s.listFirefighters s.idFirefighter name specialty with
    | none => simp [hc] at h
    | some r => simp only [hc, Option.some.injEq] at h; subst h; exact hinv
  | listFirefighters => simp only [step, Option.some.injEq] at h; subst h; exact hinv
  | updateFirefighter id st => simp only [step, Option.some.injEq] at h; subst h; exact hinv
  | deleteFirefighter id => simp only [step, Option.some.injEq] at h; subst h; exact hinv
  | createOccurrence alloc location type priority timestamp uninit =>
    simp only [step] at h
    cases hc : createOccurrence alloc s.listOccurrences s.idOccurrence location type priority
        timestamp uninit with
    | none => simp [hc] at h
    | some r =>
      simp only [hc, Option.some.injEq] at h; subst h
      cases alloc with
      | false =>
        simp only [createOccurrence, if_true, Option.some.injEq] at hc
        subst hc
        exact hinv
      | true =>
        obtain ⟨_, rfl⟩ := (createOccurrence_eq_some _ _ _ _ _ _ _ _).1 hc
        intro o ho
        rcases List.mem_cons.1 ho with rfl | ho
        · exact ⟨hv, fun hr => by simp at hr⟩
        · exact hinv o ho
  | listOccurrences => simp only [step, Option.some.injEq] at h; subst h; exact hinv
  | updateOccurrence id st endedAt =>
    simp only [step, Option.some.injEq] at h; subst h
    exact updateOccurrence_resolvedHasEnd _ id st endedAt hv hinv
  | deleteOccurrence id =>
    simp only [step, Option.some.injEq] at h; subst h
    exact deleteOccurrence_resolvedHasEnd _ id hinv
  | createEquipment alloc designation type =>
    simp only [step] at h
    cases hc : createEquipment alloc s.listEquipments s.idEquipment designation type with
    | none => simp [hc] at h
    | some r => simp only [hc, Option.some.injEq] at h; subst h; exact hinv
  | listEquipments => simp only [step, Option.some.injEq] at h; subst h; exact hinv
  | updateEquipment id st => simp only [step, Option.some.injEq] at h; subst h; exact hinv
  | deleteEquipment id => simp only [step, Option.some.injEq] at h; subst h; exact hinv
  | createIntervention alloc occId start fId uninit =>
    simp only [step] at h
    cases hc : createIntervention alloc s.listInterventions s.listOccurrences
        s.listFirefighters s.listEquipments s.idIntervention occId start fId uninit with
    | none => simp [hc] at h
    | some r => simp only [hc, Option.some.injEq] at h; subst h; exact hinv
  | listInterventions => simp only [step, Option.some.injEq] at h; subst h; exact hinv
  | updateIntervention id st day hour minute =>
    simp only [step, Option.some.injEq] at h; subst h; exact hinv
  | deleteIntervention id => simp only [step, Option.some.injEq] at h; subst h; exact hinv
  | report => simp only [step, Option.some.injEq] at h; subst h; exact hinv
  | restart memF memO memE memI =>
    simp only [step] at h
    obtain ⟨_, _, _, rfl⟩ := (restart_eq_some s s' memF memO memE memI).1 h
    intro o ho
    exact hinv o (List.mem_reverse.1 ho)

theorem run_resolvedHasEnd (ops : List Op) :
    ∀ s s' : System, run s ops = some s' → (∀ op ∈ ops, ValidatedInput op) →
      (∀ o ∈ s.listOccurrences, ResolvedHasEnd o) →
      ∀ o ∈ s'.listOccurrences, ResolvedHasEnd o := by
  induction ops with
  | nil =>
    intro s s' h _ hinv
    simp only [run, Option.some.injEq] at h
    subst h; exact hinv
  | cons op ops ih =>
    intro s s' h hv hinv
    unfold run at h
    cases hs : step s op with
    | none => simp [hs] at h
    | some s1 =>
      simp only [hs] at h
      exact ih s1 s' h (fun o ho => hv o (List.mem_cons_of_mem _ ho))
        (step_resolvedHasEnd s s1 op hs (hv op (List.mem_cons_self _ _)) hinv)

/-! ## Shared lemmas: the counts of the efficiency report -/

theorem reportOperationalEfficiency_counts (head : List Occurrence) (rep : EfficiencyReport)
    (h : reportOperationalEfficiency head = some rep) :
    rep.forest.count = (efficiencyDurations .FOREST head).length ∧
    rep.urban.count = (efficiencyDurations .URBAN head).length ∧
    rep.industrial.count = (efficiencyDurations .INDUSTRIAL head).length := by
  unfold reportOperationalEfficiency at h
  cases hl : reportOperationalEfficiencyLoop head ⟨0, 0, 0, 0, 0, 0⟩ with
  | none => simp [hl] at h
  | some res =>
    simp only [hl, Option.some.injEq] at h
    have := reportOperationalEfficiencyLoop_eq_some head _ res hl
    simp only [zero_add] at this
    obtain ⟨_, h2, _, h4, _, h6⟩ := this
    subst h
    simp only [efficiencyLine]
    exact ⟨h2, h4, h6⟩

theorem efficiencyDurations_length_resolved (T : OccurrenceType) (head : List Occurrence)
    (h : ∀ o ∈ head, o.status = .RESOLVED → o.endedAt.year ≠ 0) :
    (efficiencyDurations T head).length = resolvedOfType T head := by
  unfold efficiencyDurations resolvedOfType
  rw [List.length_map, ← List.countP_eq_length_filter]
  apply List.countP_congr
  intro o ho
  simp only [decide_eq_true_eq]
  constructor
  · intro hp; exact ⟨hp.1, hp.2.1⟩
  · intro hp; exact ⟨hp.1, hp.2, h o ho hp.2⟩

/-! ## C28: Resolved occurrences of a session have an end date -/

/-- C28: in every state that a session with validated inputs reaches from the
initial state, every occurrence whose status is Resolved has an `endedAt` year
between 2020 and 2030; so the test `endedAt.year == 0` of the efficiency report
excludes no Resolved occurrence, and whenever the report has a result its count
for each type is the number of occurrences of that type whose status is
Resolved.  The report has a result whenever the three sums are representable
and the store has at most `INT_MAX` records. -/
theorem reachable_resolved_has_end (ops : List Op) (s : System)
    (hv : ∀ op ∈ ops, ValidatedInput op) (h : run System.initial ops = some s) :
    (∀ o ∈ s.listOccurrences, o.status = .RESOLVED →
      2020 ≤ o.endedAt.year ∧ o.endedAt.year ≤ 2030) ∧
    (∀ o ∈ s.listOccurrences, o.status = .RESOLVED →
      ¬ (o.status = .OCCURRENCE_INACTIVE ∨ o.endedAt.year = 0)) ∧
    (∀ rep, reportOperationalEfficiency s.listOccurrences = some rep →
      rep.forest.count = resolvedOfType .FOREST s.listOccurrences ∧
      rep.urban.count = resolvedOfType .URBAN s.listOccurrences ∧
      rep.industrial.count = resolvedOfType .INDUSTRIAL s.listOccurrences) ∧
    ((∀ T, (efficiencyDurations T s.listOccurrences).sum ≤ INT_MAX) →
      (s.listOccurrences.length : Int) ≤ INT_MAX →
      (reportOperationalEfficiency s.listOccurrences).isSome = true) := by
  have hinv := run_resolvedHasEnd ops System.initial s h hv (by simp [System.initial])
  have hyear : ∀ o ∈ s.listOccurrences, o.status = .RESOLVED →
      2020 ≤ o.endedAt.year ∧ o.endedAt.year ≤ 2030 :=
    fun o ho hr => ((hinv o ho).2 hr).2.2.1
  have hne : ∀ o ∈ s.listOccurrences, o.status = .RESOLVED → o.endedAt.year ≠ 0 := by
    intro o ho hr
    have := hyear o ho hr
    omega
  refine ⟨hyear, ?_, ?_, ?_⟩
  · intro o ho hr hc
    rcases hc with hc | hc
    · rw [hr] at hc; simp at hc
    · exact hne o ho hr hc
  · intro rep hrep
    obtain ⟨h1, h2, h3⟩ := reportOperationalEfficiency_counts _ rep hrep
    rw [h1, h2, h3, efficiencyDurations_length_resolved _ _ hne,
      efficiencyDurations_length_resolved _ _ hne, efficiencyDurations_length_resolved _ _ hne]
    exact ⟨rfl, rfl, rfl⟩
  · intro hsum hlen
    have lF := efficiencyDurations_length_le .FOREST s.listOccurrences
    have lU := efficiencyDurations_length_le .URBAN s.listOccurrences
    have lI := efficiencyDurations_length_le .INDUSTRIAL s.listOccurrences
    have hF := hsum .FOREST
    have hU := hsum .URBAN
    have hI := hsum .INDUSTRIAL
    have hcalc : ∀ o ∈ s.listOccurrences, o.status = .RESOLVED → o.endedAt.year ≠ 0 →
        (calcMinutes o.timestamp o.endedAt).isSome = true := by
      intro o ho hr _
      rw [calcMinutes_eq_diffMinutes, diffMinutes_valid (hinv o ho).1 ((hinv o ho).2 hr)]
      rfl
    obtain ⟨res, hres⟩ := reportOperationalEfficiencyLoop_isSome s.listOccurrences hcalc
      ⟨0, 0, 0, 0, 0, 0⟩ (by simp) (by simp only [zero_add]; omega)
    unfold reportOperationalEfficiency
    rw [hres]; rfl

/-- Witness for C28: `sampleResolution` reports two incidents, resolves the
first and moves the second to InProgress; the Resolved occurrence has the end
year 2025 and the report counts one forest fire. -/
theorem reachable_resolved_has_end_witness :
    (∀ op ∈ sampleResolution, ValidatedInput op) ∧
    run System.initial sampleResolution = some sampleResolved ∧
    reportOperationalEfficiency sampleResolved.listOccurrences =
      some { forest := { average := 90, count := 1 }, urban := { average := 0, count := 0 },
             industrial := { average := 0, count := 0 } } ∧
    ∀ o ∈ sampleResolved.listOccurrences, o.status = .RESOLVED →
      2020 ≤ o.endedAt.year ∧ o.endedAt.year ≤ 2030 :=
  ⟨by decide, by decide, by decide,
    (reachable_resolved_has_end sampleResolution sampleResolved (by decide) (by decide)).1⟩

end FireManagement
